import Mathlib

/-!
# Verification of the vrp-game routing and scheduling engine

A shallow embedding of the core of the dial-a-ride routing engine:
the itinerary simulator (`simulate.ts`), the greedy insertion solver,
the simulation cache (`cache.ts`) and the A* pathfinder
(`astar.ts` / `priorityQueue.ts`), together with proofs about the
claims of the specification.

Modelling conventions:
* JavaScript numbers are modelled as rationals (`ℚ`); all arithmetic in
  the engine is exact on the inputs considered here.
* `PathCache.getTravelTime` is modelled as a function
  `TravelTime := NodeId → NodeId → ℚ`: the cache memoizes the pure
  `findPath` and is observationally a function of its two arguments.
* TypeScript `Map`s that are only read through `get` are modelled as
  functions into `Option`, with `Map.set` as pointwise update
  (last write wins, as in JS).
-/

namespace VRP

abbrev NodeId := String
abbrev EdgeId := String
abbrev RiderId := String
abbrev VehicleId := String

/-- Stop kind: `'pickup' | 'dropoff'` from `types/solution.ts`. -/
inductive StopType where
  | pickup
  | dropoff
deriving DecidableEq, Repr

/-- `TimeWindow` from `types/problem.ts` (minutes from midnight). -/
structure TimeWindow where
  earliest : ℚ
  latest : ℚ
deriving DecidableEq, Repr

/-- `accessibility` record of a rider. -/
structure Accessibility where
  needsWheelchair : Bool
  seatEquivalent : ℚ
  boardingTime : ℚ
deriving DecidableEq, Repr

/-- `Rider` from `types/problem.ts` (display name omitted; it is never
read by the engine). -/
structure Rider where
  id : RiderId
  pickupNodeId : NodeId
  dropoffNodeId : NodeId
  pickupWindow : Option TimeWindow
  dropoffWindow : Option TimeWindow
  maxTimeInVehicle : Option ℚ
  accessibility : Accessibility
deriving DecidableEq, Repr

/-- `Vehicle` from `types/problem.ts` (driver name omitted; it is never
read by the engine). -/
structure Vehicle where
  id : VehicleId
  seatCount : ℚ
  wheelchairCapacity : ℚ
  startTime : ℚ
  endTime : ℚ
  startNodeId : NodeId
  endNodeId : NodeId
deriving DecidableEq, Repr

/-- `ItineraryStop` from `types/solution.ts`. -/
structure ItineraryStop where
  riderId : RiderId
  type : StopType
deriving DecidableEq, Repr

abbrev Itinerary := List ItineraryStop

/-- `Solution = Map<VehicleId, Itinerary>`; every consumer reads it as
`solution.get(id) || []`, so it is modelled as a total function with
`[]` for absent keys. -/
abbrev Solution := VehicleId → Itinerary

/-- The `Problem` fields read by the simulator and the solver. -/
structure Problem where
  vehicles : List Vehicle
  riders : List Rider

/-- Abstraction of `PathCache.getTravelTime` (see the module comment). -/
abbrev TravelTime := NodeId → NodeId → ℚ

/-- `new Map(riders.map(r => [r.id, r]))` / the rider-map building loop of
`simulate`: on duplicate ids the last entry wins, hence the `reverse`. -/
def riderMapOf (riders : List Rider) : RiderId → Option Rider :=
  fun rid => riders.reverse.find? (fun r => r.id == rid)

/-- `SimulatedStop` from `types/simulation.ts`. -/
structure SimulatedStop where
  riderId : RiderId
  type : StopType
  nodeId : NodeId
  arrivalTime : ℚ
  serviceStartTime : ℚ
  serviceEndTime : ℚ
  departureTime : ℚ
  minutesEarly : Option ℚ
  minutesLate : Option ℚ
  minutesOverMaxTime : Option ℚ
deriving DecidableEq, Repr

/-- `VehicleEndResult` from `types/simulation.ts`. -/
structure VehicleEndResult where
  nodeId : NodeId
  arrivalTime : ℚ
  minutesLate : Option ℚ
deriving DecidableEq, Repr

/-- `VehicleSimResult` from `types/simulation.ts`. -/
structure VehicleSimResult where
  stops : List SimulatedStop
  vehicleEnd : VehicleEndResult
deriving DecidableEq, Repr

/-- `SimulationResult` from `types/simulation.ts`. `vehicleResults` is a
`Map` built by one `set` per problem vehicle, in iteration order. -/
structure SimulationResult where
  vehicleResults : List (VehicleId × VehicleSimResult)
  unassignedRiders : List RiderId
  totalLateness : ℚ
  unassignedPenalty : ℚ
  totalScore : ℚ
deriving DecidableEq, Repr

/-- `UNASSIGNED_RIDER_PENALTY = 1_000_000` from `types/simulation.ts`. -/
def UNASSIGNED_RIDER_PENALTY : ℚ := 1000000

/-- The per-stop loop of `simulateVehicle` (`simulate.ts`), carrying
`currentNodeId`, `currentTime` and the `pickupTimes` map, and producing
the emitted stops together with the end-depot result computed after the
last stop. -/
def simVehicleGo (tt : TravelTime) (vehicle : Vehicle)
    (riderMap : RiderId → Option Rider) :
    Itinerary → NodeId → ℚ → (RiderId → Option ℚ) →
      List SimulatedStop × VehicleEndResult
  | [], node, time, _ =>
      let travelToEnd := tt node vehicle.endNodeId
      let endArrivalTime := time + travelToEnd
      ([], { nodeId := vehicle.endNodeId
             arrivalTime := endArrivalTime
             minutesLate :=
               if endArrivalTime > vehicle.endTime then
                 some (endArrivalTime - vehicle.endTime)
               else none })
  | stop :: rest, node, time, pickupTimes =>
      match riderMap stop.riderId with
      | none => simVehicleGo tt vehicle riderMap rest node time pickupTimes
      | some rider =>
          let targetNodeId :=
            if stop.type = .pickup then rider.pickupNodeId else rider.dropoffNodeId
          let window :=
            if stop.type = .pickup then rider.pickupWindow else rider.dropoffWindow
          let travelTime := tt node targetNodeId
          let arrivalTime := time + travelTime
          let serviceStartTime :=
            match window with
            | some w => if arrivalTime < w.earliest then w.earliest else arrivalTime
            | none => arrivalTime
          let minutesEarly : Option ℚ :=
            match window with
            | some w =>
                if arrivalTime < w.earliest then some (w.earliest - arrivalTime)
                else none
            | none => none
          let serviceEndTime := serviceStartTime + rider.accessibility.boardingTime
          let departureTime := serviceEndTime
          let minutesLate : Option ℚ :=
            match window with
            | some w =>
                if serviceStartTime > w.latest then some (serviceStartTime - w.latest)
                else none
            | none => none
          let minutesOverMaxTime : Option ℚ :=
            if stop.type = .dropoff then
              match rider.maxTimeInVehicle, pickupTimes stop.riderId with
              | some maxT, some pickupTime =>
                  let timeInVehicle := arrivalTime - pickupTime
                  if timeInVehicle > maxT then some (timeInVehicle - maxT) else none
              | _, _ => none
            else none
          let pickupTimes' :=
            if stop.type = .pickup then
              fun rid => if rid = stop.riderId then some departureTime else pickupTimes rid
            else pickupTimes
          let s : SimulatedStop :=
            { riderId := stop.riderId
              type := stop.type
              nodeId := targetNodeId
              arrivalTime := arrivalTime
              serviceStartTime := serviceStartTime
              serviceEndTime := serviceEndTime
              departureTime := departureTime
              minutesEarly := minutesEarly
              minutesLate := minutesLate
              minutesOverMaxTime := minutesOverMaxTime }
          let res := simVehicleGo tt vehicle riderMap rest targetNodeId departureTime pickupTimes'
          (s :: res.1, res.2)

/-- `simulateVehicle` from `simulate.ts`. -/
def simulateVehicle (tt : TravelTime) (vehicle : Vehicle) (itinerary : Itinerary)
    (riderMap : RiderId → Option Rider) : VehicleSimResult :=
  let res :=
    simVehicleGo tt vehicle riderMap itinerary vehicle.startNodeId vehicle.startTime
      (fun _ => none)
  { stops := res.1, vehicleEnd := res.2 }

/-- The lateness a single vehicle result contributes inside the
per-vehicle loop of `simulate`: `if (stop.minutesLate) ...`,
`if (stop.minutesOverMaxTime) ...`, `if (result.vehicleEnd.minutesLate) ...`.
The JS truthiness guards only skip adding a zero, which `getD 0` makes
arithmetically identical. -/
def vehicleLateness (result : VehicleSimResult) : ℚ :=
  result.stops.foldl
    (fun acc s => acc + s.minutesLate.getD 0 + s.minutesOverMaxTime.getD 0) 0
    + result.vehicleEnd.minutesLate.getD 0

/-- The rider ids the per-vehicle loop of `simulate` adds to
`assignedRiders` (pickup stops of the simulated result). -/
def pickedUpRiders (result : VehicleSimResult) : List RiderId :=
  (result.stops.filter (fun s => s.type == .pickup)).map (·.riderId)

/-- The accumulator of the per-vehicle loop of `simulate`: the
`vehicleResults` map (as entry list), the `assignedRiders` set (as a
list read only through membership) and `totalLateness`. -/
abbrev SimAcc := List (VehicleId × VehicleSimResult) × List RiderId × ℚ

/-- One iteration of the per-vehicle loop of `simulate`. -/
def simulateStep (tt : TravelTime) (rm : RiderId → Option Rider) (sol : Solution)
    (acc : SimAcc) (vehicle : Vehicle) : SimAcc :=
  let result := simulateVehicle tt vehicle (sol vehicle.id) rm
  (acc.1 ++ [(vehicle.id, result)],
   acc.2.1 ++ pickedUpRiders result,
   acc.2.2 + vehicleLateness result)

/-- `simulate` from `simulate.ts`. -/
def simulate (tt : TravelTime) (problem : Problem) (solution : Solution) :
    SimulationResult :=
  let riderMap := riderMapOf problem.riders
  let acc :=
    problem.vehicles.foldl (simulateStep tt riderMap solution) ([], [], 0)
  let unassignedRiders :=
    (problem.riders.filter (fun r => !(acc.2.1.contains r.id))).map (·.id)
  let unassignedPenalty := (unassignedRiders.length : ℚ) * UNASSIGNED_RIDER_PENALTY
  { vehicleResults := acc.1
    unassignedRiders := unassignedRiders
    totalLateness := acc.2.2
    unassignedPenalty := unassignedPenalty
    totalScore := acc.2.2 + unassignedPenalty }

/-! ## Greedy insertion solver (`solver/testSolver.ts`) -/

/-- The per-stop loop of `evaluateItinerary`, carrying `currentNode`,
`currentTime`, the `pickupTimes` map, the two passenger counters and the
`totalPenalty` accumulator. `0.1` and `1.5` are the exact rationals
`1/10` and `3/2`. Returning `none` models the `return null` of the
source (unknown rider or capacity violation). -/
def evalGo (tt : TravelTime) (vehicle : Vehicle)
    (riderMap : RiderId → Option Rider) :
    Itinerary → NodeId → ℚ → (RiderId → Option ℚ) → ℚ → ℚ → ℚ → Option ℚ
  | [], node, time, _, _, _, acc =>
      let travelToEnd := tt node vehicle.endNodeId
      let endArrivalTime := time + travelToEnd
      let acc1 :=
        if endArrivalTime > vehicle.endTime then
          acc + (endArrivalTime - vehicle.endTime) * 5
        else acc
      some (acc1 + (endArrivalTime - vehicle.startTime) * (1/10))
  | stop :: rest, node, time, pickupTimes, currentPassengers, wheelchairPassengers, acc =>
      match riderMap stop.riderId with
      | none => none
      | some rider =>
          let targetNode :=
            if stop.type = .pickup then rider.pickupNodeId else rider.dropoffNodeId
          let travelTime := tt node targetNode
          let arrivalTime := time + travelTime
          let window :=
            if stop.type = .pickup then rider.pickupWindow else rider.dropoffWindow
          let serviceStart :=
            match window with
            | some w => if arrivalTime < w.earliest then w.earliest else arrivalTime
            | none => arrivalTime
          let acc1 :=
            match window with
            | some w =>
                if serviceStart > w.latest then acc + (serviceStart - w.latest) * 10
                else acc
            | none => acc
          if stop.type = .pickup then
            let p' := currentPassengers + 1
            let w' :=
              if rider.accessibility.needsWheelchair then wheelchairPassengers + 1
              else wheelchairPassengers
            let pickupTimes' := fun rid =>
              if rid = stop.riderId then
                some (serviceStart + rider.accessibility.boardingTime)
              else pickupTimes rid
            let seatUsed := p' - w' + w' * (3/2)
            if seatUsed > vehicle.seatCount then none
            else if w' > vehicle.wheelchairCapacity then none
            else
              evalGo tt vehicle riderMap rest targetNode
                (serviceStart + rider.accessibility.boardingTime) pickupTimes' p' w' acc1
          else
            let p' := currentPassengers - 1
            let w' :=
              if rider.accessibility.needsWheelchair then wheelchairPassengers - 1
              else wheelchairPassengers
            let acc2 :=
              match rider.maxTimeInVehicle, pickupTimes stop.riderId with
              | some maxT, some pickupTime =>
                  let timeInVehicle := arrivalTime - pickupTime
                  if timeInVehicle > maxT then acc1 + (timeInVehicle - maxT) * 10
                  else acc1
              | _, _ => acc1
            evalGo tt vehicle riderMap rest targetNode
              (serviceStart + rider.accessibility.boardingTime) pickupTimes p' w' acc2

/-- `evaluateItinerary` from the solver: the cost assigned to an
insertion candidate, `none` for infeasible candidates. -/
def evaluateItinerary (tt : TravelTime) (vehicle : Vehicle) (itinerary : Itinerary)
    (riderMap : RiderId → Option Rider) : Option ℚ :=
  evalGo tt vehicle riderMap itinerary vehicle.startNodeId vehicle.startTime
    (fun _ => none) 0 0 0

/-- `getEarliestConstraintTime` from the solver. -/
def getEarliestConstraintTime (rider : Rider) : ℚ :=
  match rider.pickupWindow with
  | some w => w.earliest
  | none =>
      match rider.dropoffWindow with
      | some w => w.earliest
      | none => 0

/-- Insert before the first element with a strictly larger key; together
with `sortRiders` this is the stable ascending sort performed by
`riders.sort((a, b) => aTime - bTime)` (JS `Array.prototype.sort` is
stable). -/
def insertByKey (r : Rider) : List Rider → List Rider
  | [] => [r]
  | x :: xs =>
      if getEarliestConstraintTime x ≤ getEarliestConstraintTime r then
        x :: insertByKey r xs
      else r :: x :: xs

/-- Stable sort of the riders by earliest constraint time. -/
def sortRiders : List Rider → List Rider
  | [] => []
  | r :: rs => insertByKey r (sortRiders rs)

/-- `array.splice(i, 0, a)` (for `0 ≤ i`; indices past the end append,
exactly as `splice` clamps). -/
def insertAt (l : List α) (i : ℕ) (a : α) : List α :=
  l.take i ++ a :: l.drop i

/-- `insertRider` from the solver. -/
def insertRider (itinerary : Itinerary) (riderId : RiderId)
    (pickupIdx dropoffIdx : ℕ) : Itinerary :=
  insertAt (insertAt itinerary pickupIdx ⟨riderId, .pickup⟩) dropoffIdx
    ⟨riderId, .dropoff⟩

/-- `InsertionResult` from the solver. -/
structure InsertionResult where
  cost : ℚ
  pickupIdx : ℕ
  dropoffIdx : ℕ
deriving DecidableEq, Repr

/-- The candidate `(pickupIdx, dropoffIdx)` pairs of the two nested
loops of `findBestInsertionPosition`, in loop order:
`pickupIdx ∈ [0, len]`, `dropoffIdx ∈ [pickupIdx + 1, len + 1]`. -/
def positionPairs (len : ℕ) : List (ℕ × ℕ) :=
  (List.range (len + 1)).flatMap
    (fun p => (List.range' (p + 1) (len + 1 - p)).map (fun d => (p, d)))

/-- The body of the candidate loops of `findBestInsertionPosition`:
keep the strictly cheapest feasible candidate seen so far. -/
def bestCandidate (tt : TravelTime) (vehicle : Vehicle) (itinerary : Itinerary)
    (rider : Rider) (riderMap : RiderId → Option Rider) :
    Option InsertionResult → ℕ × ℕ → Option InsertionResult :=
  fun best pd =>
    match evaluateItinerary tt vehicle (insertRider itinerary rider.id pd.1 pd.2) riderMap with
    | none => best
    | some cost =>
        match best with
        | none => some ⟨cost, pd.1, pd.2⟩
        | some b => if cost < b.cost then some ⟨cost, pd.1, pd.2⟩ else best

/-- `findBestInsertionPosition` from the solver. The source looks the
vehicle up by id with a non-null assertion
(`problem.vehicles.find(v => v.id === vehicleId)!`); the (unreachable in
the solver) missing case is modelled as `none`. -/
def findBestInsertionPosition (tt : TravelTime) (problem : Problem)
    (vehicleId : VehicleId) (itinerary : Itinerary) (rider : Rider) :
    Option InsertionResult :=
  match problem.vehicles.find? (fun v => v.id == vehicleId) with
  | none => none
  | some vehicle =>
      let riderMap := riderMapOf problem.riders
      (positionPairs itinerary.length).foldl
        (bestCandidate tt vehicle itinerary rider riderMap) none

/-- The per-vehicle loop of the solver for one rider: the running
`(bestVehicle, bestCost, bestInsertPosition)` triple, `none` standing
for `(null, Infinity, null)` (the three variables are always assigned
together). -/
def chooseStep (tt : TravelTime) (problem : Problem) (sol : Solution) (rider : Rider)
    (best : Option (VehicleId × ℚ × ℕ × ℕ)) (vehicle : Vehicle) :
    Option (VehicleId × ℚ × ℕ × ℕ) :=
  if rider.accessibility.needsWheelchair ∧ vehicle.wheelchairCapacity = (0 : ℚ) then best
  else
    match findBestInsertionPosition tt problem vehicle.id (sol vehicle.id) rider with
    | none => best
    | some result =>
        if (match best with
            | none => true
            | some b => decide (result.cost < b.2.1)) then
          some (vehicle.id, result.cost, result.pickupIdx, result.dropoffIdx)
        else best

/-- The per-vehicle loop of the solver for one rider, folded with
`chooseStep`. -/
def chooseVehicle (tt : TravelTime) (problem : Problem) (sol : Solution)
    (rider : Rider) : Option (VehicleId × ℚ × ℕ × ℕ) :=
  problem.vehicles.foldl (chooseStep tt problem sol rider) none

/-- One iteration of the solver's outer rider loop: commit the best
insertion, if any. The `vid ≠ ""` test mirrors the JS truthiness of
`if (bestVehicle && bestInsertPosition)` (an empty-string vehicle id is
falsy). -/
def solveStep (tt : TravelTime) (problem : Problem) (sol : Solution)
    (rider : Rider) : Solution :=
  match chooseVehicle tt problem sol rider with
  | some (vid, _, p, d) =>
      if vid ≠ "" then
        fun v => if v = vid then insertRider (sol vid) rider.id p d else sol v
      else sol
  | none => sol

/-- `generateTestSolution` from the solver. The initial solution maps
every vehicle to `[]` (the source initializes each problem vehicle's
entry to `[]`, and absent keys read as `[]`). -/
def generateTestSolution (tt : TravelTime) (problem : Problem) : Solution :=
  (sortRiders problem.riders).foldl (solveStep tt problem) (fun _ => [])

/-! ## Simulation cache (`simulation/cache.ts`) -/

/-- The string key piece for a stop kind. -/
def typeKey : StopType → String
  | .pickup => "pickup"
  | .dropoff => "dropoff"

/-- `hashItinerary` from `cache.ts`:
`itinerary.map(s => riderId + ":" + type).join("|")`. -/
def hashItinerary (itinerary : Itinerary) : String :=
  String.intercalate "|" (itinerary.map (fun s => s.riderId ++ ":" ++ typeKey s.type))

/-- The cache's `results : Map<VehicleId, {hash, result}>`. -/
abbrev CacheState := VehicleId → Option (String × VehicleSimResult)

/-- `Map.get` on the `vehicleResults` map of a `SimulationResult`
(built by one `set` per problem vehicle, so the last entry for an id
wins). -/
def lookupVehicleResult (l : List (VehicleId × VehicleSimResult)) (vid : VehicleId) :
    Option VehicleSimResult :=
  (l.reverse.find? (fun p => p.1 == vid)).map (·.2)

/-- One iteration of the per-vehicle loop of `reconstructFromCache`
(`cache.ts`): vehicles without a cached entry are skipped, mirroring
`if (cached)`. -/
def reconstructStep (st : CacheState) (acc : SimAcc) (vehicle : Vehicle) : SimAcc :=
  match st vehicle.id with
  | none => acc
  | some cached =>
      (acc.1 ++ [(vehicle.id, cached.2)],
       acc.2.1 ++ pickedUpRiders cached.2,
       acc.2.2 + vehicleLateness cached.2)

/-- `reconstructFromCache`, continued: the aggregate rebuild. -/
def reconstructFromCache (problem : Problem) (st : CacheState) : SimulationResult :=
  let acc :=
    problem.vehicles.foldl (reconstructStep st) ([], [], 0)
  let unassignedRiders :=
    (problem.riders.filter (fun r => !(acc.2.1.contains r.id))).map (·.id)
  let unassignedPenalty := (unassignedRiders.length : ℚ) * UNASSIGNED_RIDER_PENALTY
  { vehicleResults := acc.1
    unassignedRiders := unassignedRiders
    totalLateness := acc.2.2
    unassignedPenalty := unassignedPenalty
    totalScore := acc.2.2 + unassignedPenalty }

/-- One iteration of the cache-refresh loop of
`SimulationCache.simulate`: store the hash and the vehicle's result from
the full simulation (`if (result)` skips the impossible missing case). -/
def cacheUpdateStep (fullResult : SimulationResult) (solution : Solution)
    (acc : CacheState) (v : Vehicle) : CacheState :=
  match lookupVehicleResult fullResult.vehicleResults v.id with
  | some r =>
      fun vid =>
        if vid = v.id then some (hashItinerary (solution v.id), r) else acc vid
  | none => acc

/-- `SimulationCache.simulate` from `cache.ts`: one call, returning the
result together with the updated cache state. The cache's internal
`PathCache` is abstracted by `tt` like everywhere else. -/
def cacheSimulate (tt : TravelTime) (problem : Problem) (st : CacheState)
    (solution : Solution) : SimulationResult × CacheState :=
  let anyDirty :=
    problem.vehicles.any (fun v =>
      match st v.id with
      | none => true
      | some cached => cached.1 != hashItinerary (solution v.id))
  if anyDirty then
    let fullResult := simulate tt problem solution
    let newSt :=
      problem.vehicles.foldl (cacheUpdateStep fullResult solution) st
    (fullResult, newSt)
  else
    (reconstructFromCache problem st, st)

/-- Successive `SimulationCache.simulate` calls on a list of solutions,
threading the cache state; returns the list of results. -/
def runCacheGo (tt : TravelTime) (problem : Problem) :
    CacheState → List Solution → List SimulationResult
  | _, [] => []
  | st, sol :: rest =>
      let r := cacheSimulate tt problem st sol
      r.1 :: runCacheGo tt problem r.2 rest

/-- Successive `SimulationCache.simulate` calls starting from a fresh
(empty) cache, as after construction or `clear()`. -/
def runCache (tt : TravelTime) (problem : Problem) (sols : List Solution) :
    List SimulationResult :=
  runCacheGo tt problem (fun _ => none) sols

/-! ## Priority queue (`pathfinding/priorityQueue.ts`)

The heap array holds `{priority, value}` records, modelled as pairs
`ℚ × NodeId`. Out-of-range reads use `hget` with a junk default; every
read performed by the algorithm is in range. -/

/-- `heap[i]` (in-range whenever the source reads it). -/
def hget (heap : List (ℚ × NodeId)) (i : ℕ) : ℚ × NodeId :=
  heap.getD i (0, "")

/-- The destructuring swap `[heap[i], heap[j]] = [heap[j], heap[i]]`
(both cells read before either write). -/
def hswap (heap : List (ℚ × NodeId)) (i j : ℕ) : List (ℚ × NodeId) :=
  (heap.set i (hget heap j)).set j (hget heap i)

/-- The `while` loop of `bubbleUp` from `priorityQueue.ts`: sift the
element at `index` up while its parent has strictly larger priority. The
index strictly decreases each iteration, so fuel `index + 1` (supplied
by `bubbleUp`) never runs out; the `0, heap, _` arm is unreachable. -/
def bubbleUpGo : ℕ → List (ℚ × NodeId) → ℕ → List (ℚ × NodeId)
  | 0, heap, _ => heap
  | _ + 1, heap, 0 => heap
  | fuel + 1, heap, i + 1 =>
      let parent := i / 2
      if (hget heap parent).1 ≤ (hget heap (i + 1)).1 then heap
      else bubbleUpGo fuel (hswap heap parent (i + 1)) parent

/-- `bubbleUp` from `priorityQueue.ts`. -/
def bubbleUp (heap : List (ℚ × NodeId)) (index : ℕ) : List (ℚ × NodeId) :=
  bubbleUpGo (index + 1) heap index

/-- `push` from `priorityQueue.ts`. -/
def heapPush (heap : List (ℚ × NodeId)) (value : NodeId) (priority : ℚ) :
    List (ℚ × NodeId) :=
  bubbleUp (heap ++ [(priority, value)]) heap.length

/-- The `while (true)` loop of `bubbleDown` from `priorityQueue.ts`:
sift the element at `index` down towards the smaller child while a child
has strictly smaller priority. Each iteration moves to a child index,
which is strictly larger yet still below the (swap-invariant) heap
length, so fuel `heap.length + 1` (supplied by `bubbleDown`) never runs
out. -/
def bubbleDownGo : ℕ → List (ℚ × NodeId) → ℕ → List (ℚ × NodeId)
  | 0, heap, _ => heap
  | fuel + 1, heap, index =>
      let lc := 2 * index + 1
      let rc := 2 * index + 2
      let s1 :=
        if lc < heap.length ∧ (hget heap lc).1 < (hget heap index).1 then lc else index
      let s2 :=
        if rc < heap.length ∧ (hget heap rc).1 < (hget heap s1).1 then rc else s1
      if s2 = index then heap else bubbleDownGo fuel (hswap heap index s2) s2

/-- `bubbleDown` from `priorityQueue.ts`. -/
def bubbleDown (heap : List (ℚ × NodeId)) (index : ℕ) : List (ℚ × NodeId) :=
  bubbleDownGo (heap.length + 1) heap index

/-- `pop` from `priorityQueue.ts`: return the root, move the last
element to the root and sift it down. Returns the removed entry and the
remaining heap. -/
def heapPop (heap : List (ℚ × NodeId)) :
    Option ((ℚ × NodeId) × List (ℚ × NodeId)) :=
  match heap with
  | [] => none
  | first :: _ =>
      match heap.getLast? with
      | none => none
      | some last =>
          match heap.dropLast with
          | [] => some (first, [])
          | x :: xs => some (first, bubbleDown ((x :: xs).set 0 last) 0)

/-! ## A* pathfinder (`pathfinding/astar.ts`)

The source heuristic is `distance(node.x, node.y, endNode.x, endNode.y) * 0.5`
with a real-valued Euclidean `sqrt`; it is abstracted here as a
function parameter `h : NodeId → ℚ`, instantiated exactly (collinear
coordinates) in concrete runs and constrained where theorems need it. -/

/-- `PathResult` from `astar.ts`. -/
structure PathResult where
  path : List NodeId
  cost : ℚ
deriving DecidableEq, Repr

/-- `CityNode` (display name omitted). -/
structure CityNode where
  id : NodeId
  x : ℚ
  y : ℚ
deriving DecidableEq, Repr

/-- `CityEdge` (`from` and `to` are Lean keywords, hence `from'`/`to'`;
`distance` and `roadType` are display-only and omitted). -/
structure CityEdge where
  id : EdgeId
  from' : NodeId
  to' : NodeId
  cost : ℚ
deriving DecidableEq, Repr

/-- `City`: the three `Map`s, modelled as association lists read through
`mlookup`. -/
structure City where
  nodes : List (NodeId × CityNode)
  edges : List (EdgeId × CityEdge)
  adjacency : List (NodeId × List EdgeId)

/-- `Map.get` on an association list (keys are set once each in the
generators, so first match is the entry). -/
def mlookup (m : List (String × β)) (k : String) : Option β :=
  (m.find? (fun p => p.1 == k)).map (·.2)

/-- The mutable search state of `findPath`. -/
structure AState where
  openSet : List (ℚ × NodeId)
  cameFrom : NodeId → Option NodeId
  gScore : NodeId → Option ℚ
  fScore : NodeId → Option ℚ
  visited : List NodeId

/-- The body of the neighbor loop of `findPath` for one edge id. The
source reads `city.edges.get(edgeId)!`; a dangling edge id (impossible
in a well-formed city) is skipped. -/
def expandEdge (city : City) (h : NodeId → ℚ) (current : NodeId)
    (st : AState) (edgeId : EdgeId) : AState :=
  match mlookup city.edges edgeId with
  | none => st
  | some edge =>
      let neighbor := if edge.from' = current then edge.to' else edge.from'
      if st.visited.contains neighbor then st
      else
        let tentativeG := (st.gScore current).getD 0 + edge.cost
        let better : Bool :=
          match st.gScore neighbor with
          | some currentG => decide (tentativeG < currentG)
          | none => true
        if better then
          let f := tentativeG + h neighbor
          { openSet := heapPush st.openSet neighbor f
            cameFrom := fun n => if n = neighbor then some current else st.cameFrom n
            gScore := fun n => if n = neighbor then some tentativeG else st.gScore n
            fScore := fun n => if n = neighbor then some f else st.fScore n
            visited := st.visited }
        else st

/-- Path reconstruction: walk `cameFrom` backwards from the goal,
prepending each predecessor. In every state the search reaches,
`cameFrom` chains are acyclic and shorter than the node count, so the
fuel `city.nodes.length + 1` never runs out. -/
def reconPath (cameFrom : NodeId → Option NodeId) :
    ℕ → NodeId → List NodeId → List NodeId
  | 0, _, acc => acc
  | fuel + 1, node, acc =>
      match cameFrom node with
      | none => acc
      | some prev => reconPath cameFrom fuel prev (prev :: acc)

/-- The `while (!openSet.isEmpty())` loop of `findPath`, as a fueled
recursion. The fuel only bounds the iteration count; `findPath` supplies
more fuel than the loop can ever consume (each iteration pops one entry
and at most `1 + Σ adjacency list lengths` entries are ever pushed). -/
def astarLoop (city : City) (h : NodeId → ℚ) (endId : NodeId) :
    ℕ → AState → Option PathResult
  | 0, _ => none
  | fuel + 1, st =>
      match heapPop st.openSet with
      | none => none
      | some (entry, openRest) =>
          let current := entry.2
          if current = endId then
            some { path := reconPath st.cameFrom (city.nodes.length + 1) current [current]
                   cost := (st.gScore current).getD 0 }
          else if st.visited.contains current then
            astarLoop city h endId fuel { st with openSet := openRest }
          else
            let st1 := { st with openSet := openRest, visited := current :: st.visited }
            let edgeIds := (mlookup city.adjacency current).getD []
            astarLoop city h endId fuel (edgeIds.foldl (expandEdge city h current) st1)

/-- Fuel sufficient for any run of the loop on `city` (see `astarLoop`). -/
def astarFuel (city : City) : ℕ :=
  2 + city.nodes.length + (city.adjacency.map (fun p => p.2.length)).sum

/-- `findPath` from `astar.ts`, with the heuristic as a parameter. -/
def findPath (city : City) (h : NodeId → ℚ) (startId endId : NodeId) :
    Option PathResult :=
  if startId = endId then some { path := [startId], cost := 0 }
  else
    match mlookup city.nodes startId, mlookup city.nodes endId with
    | some _, some _ =>
        let st0 : AState :=
          { openSet := heapPush [] startId (h startId)
            cameFrom := fun _ => none
            gScore := fun n => if n = startId then some 0 else none
            fScore := fun n => if n = startId then some (h startId) else none
            visited := [] }
        astarLoop city h endId (astarFuel city) st0
    | _, _ => none

/-- A walk between two nodes of the city along stored edges, traversed
in either direction (edges are undirected), with its total cost. This is
the specification-side notion of "path" that optimality claims quantify
over. -/
inductive Walk (city : City) : NodeId → NodeId → ℚ → Prop
  | nil (n : NodeId) : Walk city n n 0
  | cons {u v w : NodeId} {rest : ℚ} (eid : EdgeId) (edge : CityEdge)
      (mem : mlookup city.edges eid = some edge)
      (ends : edge.from' = u ∧ edge.to' = v ∨ edge.from' = v ∧ edge.to' = u)
      (tail : Walk city v w rest) : Walk city u w (edge.cost + rest)

/-! ## Closed forms for `simulate` -/

/-- The score contribution of one simulated stop: its recorded lateness
plus its recorded over-max-ride-time, absent indicators counting 0. -/
def stopPenalty (s : SimulatedStop) : ℚ :=
  s.minutesLate.getD 0 + s.minutesOverMaxTime.getD 0

/-- The result of one vehicle in `simulate tt problem solution`. -/
def vehicleResult (tt : TravelTime) (problem : Problem) (solution : Solution)
    (v : Vehicle) : VehicleSimResult :=
  simulateVehicle tt v (solution v.id) (riderMapOf problem.riders)

lemma vehicleLateness_foldl (l : List SimulatedStop) (acc : ℚ) :
    l.foldl (fun acc s => acc + s.minutesLate.getD 0 + s.minutesOverMaxTime.getD 0) acc
      = acc + (l.map stopPenalty).sum := by
  induction l generalizing acc with
  | nil => simp
  | cons s rest ih => simp [ih, stopPenalty]; ring

lemma vehicleLateness_eq (vr : VehicleSimResult) :
    vehicleLateness vr
      = (vr.stops.map stopPenalty).sum + vr.vehicleEnd.minutesLate.getD 0 := by
  unfold vehicleLateness
  rw [vehicleLateness_foldl, zero_add]

lemma sim_fold (tt : TravelTime) (rm : RiderId → Option Rider) (sol : Solution)
    (vehicles : List Vehicle) (a : List (VehicleId × VehicleSimResult))
    (b : List RiderId) (c : ℚ) :
    vehicles.foldl (simulateStep tt rm sol) (a, b, c)
      = (a ++ vehicles.map (fun v => (v.id, simulateVehicle tt v (sol v.id) rm)),
         b ++ vehicles.flatMap
            (fun v => pickedUpRiders (simulateVehicle tt v (sol v.id) rm)),
         c + (vehicles.map
            (fun v => vehicleLateness (simulateVehicle tt v (sol v.id) rm))).sum) := by
  induction vehicles generalizing a b c with
  | nil => simp
  | cons v vs ih =>
      simp only [List.foldl_cons, simulateStep, ih, List.map_cons, List.flatMap_cons,
        List.sum_cons, List.append_assoc, List.singleton_append, Prod.mk.injEq]
      refine ⟨trivial, trivial, ?_⟩
      ring

lemma simulate_eq (tt : TravelTime) (problem : Problem) (solution : Solution) :
    simulate tt problem solution
      = { vehicleResults :=
            problem.vehicles.map (fun v => (v.id, vehicleResult tt problem solution v))
          unassignedRiders :=
            (problem.riders.filter (fun r =>
              !((problem.vehicles.flatMap
                  (fun v => pickedUpRiders (vehicleResult tt problem solution v))).contains
                 r.id))).map (·.id)
          totalLateness :=
            (problem.vehicles.map
              (fun v => vehicleLateness (vehicleResult tt problem solution v))).sum
          unassignedPenalty :=
            (((problem.riders.filter (fun r =>
              !((problem.vehicles.flatMap
                  (fun v => pickedUpRiders (vehicleResult tt problem solution v))).contains
                 r.id))).length : ℚ) * UNASSIGNED_RIDER_PENALTY)
          totalScore :=
            (problem.vehicles.map
              (fun v => vehicleLateness (vehicleResult tt problem solution v))).sum
            + (((problem.riders.filter (fun r =>
                !((problem.vehicles.flatMap
                    (fun v => pickedUpRiders (vehicleResult tt problem solution v))).contains
                   r.id))).length : ℚ) * UNASSIGNED_RIDER_PENALTY) } := by
  simp only [simulate, vehicleResult]
  rw [sim_fold]
  simp

lemma simVehicleGo_pairs (tt : TravelTime) (vehicle : Vehicle)
    (rm : RiderId → Option Rider) :
    ∀ (itin : Itinerary) (node : NodeId) (time : ℚ) (pt : RiderId → Option ℚ),
      ((simVehicleGo tt vehicle rm itin node time pt).1).map (fun s => (s.riderId, s.type))
        = (itin.filter (fun st => (rm st.riderId).isSome)).map
            (fun st => (st.riderId, st.type))
  | [], node, time, pt => by simp [simVehicleGo]
  | stop :: rest, node, time, pt => by
      cases hfind : rm stop.riderId with
      | none =>
          simp only [simVehicleGo, hfind]
          rw [simVehicleGo_pairs tt vehicle rm rest node time pt]
          simp [hfind]
      | some rider =>
          simp only [simVehicleGo, hfind, List.map_cons]
          rw [simVehicleGo_pairs tt vehicle rm rest]
          simp [hfind]

lemma simulateVehicle_pairs (tt : TravelTime) (vehicle : Vehicle)
    (rm : RiderId → Option Rider) (itin : Itinerary) :
    (simulateVehicle tt vehicle itin rm).stops.map (fun s => (s.riderId, s.type))
      = (itin.filter (fun st => (rm st.riderId).isSome)).map
          (fun st => (st.riderId, st.type)) := by
  unfold simulateVehicle
  exact simVehicleGo_pairs tt vehicle rm itin vehicle.startNodeId vehicle.startTime _

lemma mem_pickedUpRiders (tt : TravelTime) (vehicle : Vehicle)
    (rm : RiderId → Option Rider) (itin : Itinerary) (rid : RiderId) :
    rid ∈ pickedUpRiders (simulateVehicle tt vehicle itin rm)
      ↔ ∃ st ∈ itin, (rm st.riderId).isSome ∧ st.type = .pickup ∧ st.riderId = rid := by
  unfold pickedUpRiders
  constructor
  · rintro h
    simp only [List.mem_map, List.mem_filter] at h
    obtain ⟨s, ⟨hs, hty⟩, hrid⟩ := h
    have hpair : (s.riderId, s.type)
        ∈ (simulateVehicle tt vehicle itin rm).stops.map (fun s => (s.riderId, s.type)) :=
      List.mem_map_of_mem _ hs
    rw [simulateVehicle_pairs] at hpair
    simp only [List.mem_map, List.mem_filter] at hpair
    obtain ⟨st, ⟨hst, hsome⟩, heq⟩ := hpair
    refine ⟨st, hst, hsome, ?_, ?_⟩
    · have : st.type = s.type := congrArg Prod.snd heq
      rw [this]
      exact beq_iff_eq.mp hty
    · have : st.riderId = s.riderId := congrArg Prod.fst heq
      rw [this, hrid]
  · rintro ⟨st, hst, hsome, hty, hrid⟩
    have hpair : (st.riderId, st.type)
        ∈ (itin.filter (fun st => (rm st.riderId).isSome)).map
            (fun st => (st.riderId, st.type)) :=
      List.mem_map_of_mem _ (List.mem_filter.mpr ⟨hst, hsome⟩)
    rw [← simulateVehicle_pairs tt vehicle rm] at hpair
    simp only [List.mem_map] at hpair
    obtain ⟨s, hs, heq⟩ := hpair
    refine List.mem_map.mpr ⟨s, List.mem_filter.mpr ⟨hs, ?_⟩, ?_⟩
    · have : s.type = st.type := congrArg Prod.snd heq
      rw [this, hty]
      rfl
    · have : s.riderId = st.riderId := congrArg Prod.fst heq
      rw [this, hrid]

lemma riderMapOf_isSome {riders : List Rider} {r : Rider} (hr : r ∈ riders) :
    (riderMapOf riders r.id).isSome := by
  unfold riderMapOf
  rw [List.find?_isSome]
  exact ⟨r, List.mem_reverse.mpr hr, by simp⟩

/-- The `assignedRiders` test of `simulate` agrees, for problem riders,
with "some itinerary contains a pickup stop of this rider". -/
lemma contains_assigned (tt : TravelTime) (problem : Problem) (solution : Solution)
    {r : Rider} (hr : r ∈ problem.riders) :
    ((problem.vehicles.flatMap
        (fun v => pickedUpRiders (vehicleResult tt problem solution v))).contains r.id)
      = (problem.vehicles.any (fun v =>
          (solution v.id).any (fun st => st.type == .pickup && st.riderId == r.id))) := by
  rw [Bool.eq_iff_iff]
  simp only [List.elem_iff, List.mem_flatMap, List.any_eq_true]
  constructor
  · rintro ⟨v, hv, hmem⟩
    unfold vehicleResult at hmem
    rw [mem_pickedUpRiders] at hmem
    obtain ⟨st, hst, -, hty, hrid⟩ := hmem
    exact ⟨v, hv, st, hst, by simp [hty, hrid]⟩
  · rintro ⟨v, hv, st, hst, hcond⟩
    simp only [Bool.and_eq_true, beq_iff_eq] at hcond
    refine ⟨v, hv, ?_⟩
    unfold vehicleResult
    rw [mem_pickedUpRiders]
    exact ⟨st, hst, by rw [hcond.2]; exact riderMapOf_isSome hr, hcond.1, hcond.2⟩

/-- Does this rider lack a pickup stop in every vehicle's itinerary?
(The specification-side unassigned test of claim C5.) -/
def noPickupAnywhere (problem : Problem) (solution : Solution) (r : Rider) : Bool :=
  !(problem.vehicles.any (fun v =>
      (solution v.id).any (fun st => st.type == .pickup && st.riderId == r.id)))

/-- The number of riders with no pickup stop in any vehicle's itinerary. -/
def unassignedCount (problem : Problem) (solution : Solution) : ℕ :=
  (problem.riders.filter (noPickupAnywhere problem solution)).length

lemma simulate_unassigned_filter (tt : TravelTime) (problem : Problem)
    (solution : Solution) :
    (problem.riders.filter (fun r =>
        !((problem.vehicles.flatMap
            (fun v => pickedUpRiders (vehicleResult tt problem solution v))).contains r.id)))
      = problem.riders.filter (noPickupAnywhere problem solution) := by
  apply List.filter_congr
  intro r hr
  unfold noPickupAnywhere
  rw [contains_assigned tt problem solution hr]

/-- Claim C5: for every problem and solution, `simulate` returns
`totalScore = totalLateness + unassignedPenalty`, where
`unassignedPenalty` is 1,000,000 times the number of riders with no
pickup stop in any vehicle's itinerary, and `totalLateness` is exactly
the sum, over all simulated stops, of `minutesLate` and
`minutesOverMaxTime`, plus each vehicle's end-depot `minutesLate`
(absent indicators count 0, and `minutesEarly` does not appear in the
formula, so driver wait never contributes to the score). -/
theorem claim_C5 (tt : TravelTime) (problem : Problem) (solution : Solution) :
    (simulate tt problem solution).totalScore
        = (simulate tt problem solution).totalLateness
          + (simulate tt problem solution).unassignedPenalty
    ∧ (simulate tt problem solution).unassignedPenalty
        = 1000000 * (unassignedCount problem solution : ℚ)
    ∧ (simulate tt problem solution).totalLateness
        = ((simulate tt problem solution).vehicleResults.map
            (fun p => (p.2.stops.map stopPenalty).sum
              + p.2.vehicleEnd.minutesLate.getD 0)).sum := by
  refine ⟨?_, ?_, ?_⟩
  · rw [simulate_eq]
  · rw [simulate_eq]
    simp only [List.map_map]
    rw [simulate_unassigned_filter tt problem solution]
    unfold unassignedCount UNASSIGNED_RIDER_PENALTY
    ring
  · rw [simulate_eq]
    simp only [List.map_map]
    congr 1
    apply List.map_congr_left
    intro v hv
    exact vehicleLateness_eq _

/-! ## Window semantics of the simulator (claim C6) -/

/-- The property claim C6 asserts of one simulated stop with applicable
window `w`: wait-and-record-early when arriving before `earliest`,
otherwise serve at arrival with no early indicator; lateness recorded
exactly when service starts after `latest`. -/
def WindowSpec (s : SimulatedStop) (w : TimeWindow) : Prop :=
  (s.arrivalTime < w.earliest →
      s.minutesEarly = some (w.earliest - s.arrivalTime)
        ∧ s.serviceStartTime = w.earliest)
  ∧ (¬ s.arrivalTime < w.earliest →
      s.serviceStartTime = s.arrivalTime ∧ s.minutesEarly = none)
  ∧ s.minutesLate =
      (if s.serviceStartTime > w.latest then some (s.serviceStartTime - w.latest)
       else none)

lemma simVehicleGo_window (tt : TravelTime) (vehicle : Vehicle)
    (rm : RiderId → Option Rider) :
    ∀ (itin : Itinerary) (node : NodeId) (time : ℚ) (pt : RiderId → Option ℚ),
      ∀ s ∈ (simVehicleGo tt vehicle rm itin node time pt).1, ∀ rider w,
        rm s.riderId = some rider →
        (if s.type = .pickup then rider.pickupWindow else rider.dropoffWindow) = some w →
        WindowSpec s w
  | [], node, time, pt => by simp [simVehicleGo]
  | stop :: rest, node, time, pt => by
      intro s hs rider w hrm hw
      cases hfind : rm stop.riderId with
      | none =>
          simp only [simVehicleGo, hfind] at hs
          exact simVehicleGo_window tt vehicle rm rest node time pt s hs rider w hrm hw
      | some rider0 =>
          simp only [simVehicleGo, hfind, List.mem_cons] at hs
          rcases hs with rfl | hs'
          · have hr0 : rider = rider0 := by
              simp only [hfind] at hrm
              exact (Option.some_injective _ hrm).symm
            subst hr0
            simp only at hw
            rw [hw]
            constructor
            · intro hlt
              simp only [hw] at hlt ⊢
              simp only [if_pos hlt]
              exact ⟨trivial, trivial⟩
            constructor
            · intro hge
              simp only [hw] at hge ⊢
              simp only [if_neg hge]
              exact ⟨trivial, trivial⟩
            · simp only [hw]
          · exact simVehicleGo_window tt vehicle rm rest _ _ _ s hs' rider w hrm hw

/-- Claim C6: every simulated stop whose rider has an applicable time
window satisfies the window semantics: arriving before `earliest`
records `minutesEarly = earliest − arrival` and starts service at
`earliest`; otherwise service starts at arrival with no early indicator;
`minutesLate` is present exactly when service starts after `latest`, and
equals `serviceStartTime − latest`. -/
theorem claim_C6 (tt : TravelTime) (vehicle : Vehicle) (itin : Itinerary)
    (rm : RiderId → Option Rider) :
    ∀ s ∈ (simulateVehicle tt vehicle itin rm).stops, ∀ rider w,
      rm s.riderId = some rider →
      (if s.type = .pickup then rider.pickupWindow else rider.dropoffWindow) = some w →
      WindowSpec s w := by
  intro s hs
  exact simVehicleGo_window tt vehicle rm itin vehicle.startNodeId vehicle.startTime _ s hs

/-- A rider with pickup window `{earliest: 480, latest: 500}` (the
concrete example of claim C6). -/
def riderW : Rider :=
  { id := "r", pickupNodeId := "p", dropoffNodeId := "q"
    pickupWindow := some ⟨480, 500⟩, dropoffWindow := none
    maxTimeInVehicle := none
    accessibility := { needsWheelchair := false, seatEquivalent := 1, boardingTime := 1 } }

/-- A vehicle for the concrete window example. -/
def vehW : Vehicle :=
  { id := "v", seatCount := 4, wheelchairCapacity := 0, startTime := 0, endTime := 1000
    startNodeId := "s", endNodeId := "s" }

/-- A placeholder stop for out-of-range reads in concrete statements. -/
def junkStop : SimulatedStop :=
  { riderId := "", type := .pickup, nodeId := "", arrivalTime := 0
    serviceStartTime := 0, serviceEndTime := 0, departureTime := 0
    minutesEarly := none, minutesLate := none, minutesOverMaxTime := none }

/-- The simulated pickup stop when every travel time is 470 minutes. -/
def sW470 : SimulatedStop :=
  ((simulateVehicle (fun _ _ => 470) vehW [⟨"r", .pickup⟩] (riderMapOf [riderW])).stops).getD
    0 junkStop

/-- The simulated pickup stop when every travel time is 510 minutes. -/
def sW510 : SimulatedStop :=
  ((simulateVehicle (fun _ _ => 510) vehW [⟨"r", .pickup⟩] (riderMapOf [riderW])).stops).getD
    0 junkStop

/-- Witness for claim C6: the concrete example of the claim, derived by
applying `claim_C6` to a rider with pickup window `{480, 500}`. Arriving
at 470 yields `minutesEarly = 10`, `serviceStartTime = 480` and no
`minutesLate`; arriving at 510 yields `minutesLate = 10` and no
`minutesEarly`. -/
theorem claim_C6_witness :
    (sW470.minutesEarly = some 10 ∧ sW470.serviceStartTime = 480
      ∧ sW470.minutesLate = none)
    ∧ (sW510.minutesLate = some 10 ∧ sW510.minutesEarly = none) := by
  have hstops470 :
      (simulateVehicle (fun _ _ => 470) vehW [⟨"r", .pickup⟩]
        (riderMapOf [riderW])).stops = [sW470] := by exact rfl
  have hstops510 :
      (simulateVehicle (fun _ _ => 510) vehW [⟨"r", .pickup⟩]
        (riderMapOf [riderW])).stops = [sW510] := by exact rfl
  have harr470 : sW470.arrivalTime = 470 := by
    simp [sW470, simulateVehicle, simVehicleGo, vehW, riderW, riderMapOf, junkStop]
  have harr510 : sW510.arrivalTime = 510 := by
    simp [sW510, simulateVehicle, simVehicleGo, vehW, riderW, riderMapOf, junkStop]
  constructor
  · have h := claim_C6 (fun _ _ => 470) vehW [⟨"r", .pickup⟩] (riderMapOf [riderW])
      sW470 (by rw [hstops470]; exact List.mem_singleton.mpr rfl)
      riderW ⟨480, 500⟩ (by exact rfl) (by exact rfl)
    obtain ⟨h1, -, h3⟩ := h
    have hlt : sW470.arrivalTime < (480 : ℚ) := by rw [harr470]; norm_num
    obtain ⟨he, hs⟩ := h1 hlt
    rw [harr470] at he
    norm_num at he
    refine ⟨he, hs, ?_⟩
    rw [h3, hs]
    norm_num
  · have h := claim_C6 (fun _ _ => 510) vehW [⟨"r", .pickup⟩] (riderMapOf [riderW])
      sW510 (by rw [hstops510]; exact List.mem_singleton.mpr rfl)
      riderW ⟨480, 500⟩ (by exact rfl) (by exact rfl)
    obtain ⟨-, h2, h3⟩ := h
    have hge : ¬ sW510.arrivalTime < (480 : ℚ) := by rw [harr510]; norm_num
    obtain ⟨hs, he⟩ := h2 hge
    refine ⟨?_, he⟩
    rw [h3, hs, harr510]
    norm_num

/-! ## Max-ride-time semantics of the simulator (claim C7) -/

/-- `a` if present, else `b` (the value a JS `Map.get` chain resolves
to). -/
def orD (a b : Option ℚ) : Option ℚ :=
  match a with
  | some x => some x
  | none => b

/-- The departure time of the last pickup stop of `rid` in a stop list:
the value `pickupTimes.get(rid)` holds after simulating these stops. -/
def lastPickupDeparture (stops : List SimulatedStop) (rid : RiderId) : Option ℚ :=
  ((stops.filter (fun s => s.riderId == rid && s.type == .pickup)).getLast?).map
    (·.departureTime)

lemma getLast?_cons' (a : α) (l : List α) :
    (a :: l).getLast? =
      match l.getLast? with
      | some x => some x
      | none => some a := by
  induction l with
  | nil => rfl
  | cons b l' ih =>
      have h1 : (a :: b :: l').getLast? = (b :: l').getLast? := rfl
      rw [h1]
      cases hl : (b :: l').getLast? with
      | none =>
          exact absurd hl (by simp [List.getLast?_eq_none_iff])
      | some x => rfl

lemma lastPickupDeparture_cons (s : SimulatedStop) (l : List SimulatedStop)
    (rid : RiderId) :
    lastPickupDeparture (s :: l) rid =
      if s.riderId = rid ∧ s.type = .pickup then
        orD (lastPickupDeparture l rid) (some s.departureTime)
      else lastPickupDeparture l rid := by
  unfold lastPickupDeparture
  by_cases hc : s.riderId = rid ∧ s.type = .pickup
  · rw [if_pos hc]
    have hflt : (s :: l).filter (fun s => s.riderId == rid && s.type == .pickup)
        = s :: l.filter (fun s => s.riderId == rid && s.type == .pickup) := by
      rw [List.filter_cons_of_pos]
      simp [hc.1, hc.2]
    rw [hflt, getLast?_cons']
    cases hl : (l.filter (fun s => s.riderId == rid && s.type == .pickup)).getLast? with
    | none => simp [orD, hl]
    | some x => simp [orD, hl]
  · rw [if_neg hc]
    have hflt : (s :: l).filter (fun s => s.riderId == rid && s.type == .pickup)
        = l.filter (fun s => s.riderId == rid && s.type == .pickup) := by
      rw [List.filter_cons_of_neg]
      simp only [Bool.and_eq_true, beq_iff_eq, Bool.not_eq_true]
      intro h
      exact hc ⟨h.1, by
        have := h.2
        cases htype : s.type
        · rfl
        · rw [htype] at this
          exact absurd this (by simp)⟩

    rw [hflt]

/-- The over-max-time field the source computes for a dropoff, given the
looked-up pickup time. -/
def overMaxOf (rider : Rider) (arrivalTime : ℚ) (pickupTime : Option ℚ) : Option ℚ :=
  match rider.maxTimeInVehicle, pickupTime with
  | some maxT, some pt =>
      if arrivalTime - pt > maxT then some (arrivalTime - pt - maxT) else none
  | _, _ => none

lemma simVehicleGo_overmax (tt : TravelTime) (vehicle : Vehicle)
    (rm : RiderId → Option Rider) :
    ∀ (itin : Itinerary) (node : NodeId) (time : ℚ) (pt : RiderId → Option ℚ)
      (pre post : List SimulatedStop) (s : SimulatedStop),
      (simVehicleGo tt vehicle rm itin node time pt).1 = pre ++ s :: post →
      s.type = .dropoff →
      ∀ rider, rm s.riderId = some rider →
      s.minutesOverMaxTime =
        overMaxOf rider s.arrivalTime
          (orD (lastPickupDeparture pre s.riderId) (pt s.riderId))
  | [], node, time, pt => by
      intro pre post s hsplit
      simp [simVehicleGo] at hsplit
  | stop :: rest, node, time, pt => by
      intro pre post s hsplit hty rider hrm
      cases hfind : rm stop.riderId with
      | none =>
          simp only [simVehicleGo, hfind] at hsplit
          exact simVehicleGo_overmax tt vehicle rm rest node time pt pre post s hsplit
            hty rider hrm
      | some rider0 =>
          simp only [simVehicleGo, hfind] at hsplit
          cases pre with
          | nil =>
              simp only [List.nil_append, List.cons.injEq] at hsplit
              obtain ⟨rfl, -⟩ := hsplit
              have hrid : rider = rider0 := by
                simp only [hfind] at hrm
                exact (Option.some_injective _ hrm).symm
              subst hrid
              have hsty : stop.type = StopType.dropoff := hty
              cases hmax : rider.maxTimeInVehicle <;> cases hpt : pt stop.riderId <;>
                simp [lastPickupDeparture, orD, overMaxOf, hmax, hpt, hsty]
          | cons s0 pre' =>
              simp only [List.cons_append, List.cons.injEq] at hsplit
              obtain ⟨rfl, hrest⟩ := hsplit
              rw [simVehicleGo_overmax tt vehicle rm rest _ _ _ pre' post s hrest hty
                rider hrm]
              congr 1
              rw [lastPickupDeparture_cons]
              cases hpty : stop.type with
              | dropoff => simp [orD]
              | pickup =>
                  by_cases hid : s.riderId = stop.riderId
                  · cases hlast : lastPickupDeparture pre' stop.riderId <;>
                      simp [orD, hlast, hid]
                  · simp [orD, hid, Ne.symm hid]

/-- Claim C7: for every dropoff stop of a rider with
`maxTimeInVehicle` set whose pickup occurs earlier in the same vehicle's
itinerary, the simulator computes `time_in_vehicle` as the dropoff
`arrivalTime` (before any dropoff-window wait) minus the `departureTime`
of that rider's (most recent) earlier pickup, and records
`minutesOverMaxTime = time_in_vehicle − maxTimeInVehicle` exactly when
the maximum is exceeded; otherwise (not exceeded, no maximum set, or no
earlier pickup) the indicator is absent. -/
theorem claim_C7 (tt : TravelTime) (vehicle : Vehicle) (itin : Itinerary)
    (rm : RiderId → Option Rider) :
    ∀ (pre : List SimulatedStop) (s : SimulatedStop) (post : List SimulatedStop),
      (simulateVehicle tt vehicle itin rm).stops = pre ++ s :: post →
      s.type = .dropoff →
      ∀ rider, rm s.riderId = some rider →
        s.minutesOverMaxTime
          = overMaxOf rider s.arrivalTime (lastPickupDeparture pre s.riderId) := by
  intro pre s post hsplit hty rider hrm
  have h := simVehicleGo_overmax tt vehicle rm itin vehicle.startNodeId
    vehicle.startTime (fun _ => none) pre post s hsplit hty rider hrm
  rw [h]
  congr 1
  cases hlast : lastPickupDeparture pre s.riderId <;> simp [orD, hlast]

/-- A rider with a 5-minute maximum ride time (concrete instance for the
claim C7 witness). -/
def riderM : Rider :=
  { id := "m", pickupNodeId := "a", dropoffNodeId := "b"
    pickupWindow := none, dropoffWindow := none
    maxTimeInVehicle := some 5
    accessibility := { needsWheelchair := false, seatEquivalent := 1, boardingTime := 1 } }

/-- A vehicle for the concrete max-ride-time example. -/
def vehM : Vehicle :=
  { id := "v", seatCount := 4, wheelchairCapacity := 0, startTime := 0, endTime := 1000
    startNodeId := "s", endNodeId := "s" }

/-- The simulated pickup stop of the max-ride-time example (all travel
times 10, boarding 1: picked up at 10, departing 11). -/
def sM1 : SimulatedStop :=
  ((simulateVehicle (fun _ _ => 10) vehM [⟨"m", .pickup⟩, ⟨"m", .dropoff⟩]
      (riderMapOf [riderM])).stops).getD 0 junkStop

/-- The simulated dropoff stop of the max-ride-time example (arriving at
21, ride time 10 against a maximum of 5). -/
def sM2 : SimulatedStop :=
  ((simulateVehicle (fun _ _ => 10) vehM [⟨"m", .pickup⟩, ⟨"m", .dropoff⟩]
      (riderMapOf [riderM])).stops).getD 1 junkStop

/-- Witness for claim C7: in the concrete run the dropoff records
`minutesOverMaxTime = 10 − 5 = 5`, obtained by applying `claim_C7`. -/
theorem claim_C7_witness : sM2.minutesOverMaxTime = some 5 := by
  have hstops :
      (simulateVehicle (fun _ _ => 10) vehM [⟨"m", .pickup⟩, ⟨"m", .dropoff⟩]
        (riderMapOf [riderM])).stops = [sM1] ++ sM2 :: [] := by exact rfl
  have hty : sM2.type = .dropoff := by
    norm_num [sM2, simulateVehicle, simVehicleGo, vehM, riderM, riderMapOf, junkStop]
  have hrm : riderMapOf [riderM] sM2.riderId = some riderM := by
    norm_num [sM2, simulateVehicle, simVehicleGo, vehM, riderM, riderMapOf, junkStop]
  have h := claim_C7 (fun _ _ => 10) vehM [⟨"m", .pickup⟩, ⟨"m", .dropoff⟩]
    (riderMapOf [riderM]) [sM1] sM2 [] hstops hty riderM hrm
  rw [h]
  have harr : sM2.arrivalTime = 21 := by
    norm_num [sM2, simulateVehicle, simVehicleGo, vehM, riderM, riderMapOf, junkStop]
  have hlast : lastPickupDeparture [sM1] sM2.riderId = some 11 := by
    norm_num [lastPickupDeparture, sM1, sM2, simulateVehicle, simVehicleGo, vehM,
      riderM, riderMapOf, junkStop]
  rw [harr, hlast]
  norm_num [overMaxOf, riderM]

/-! ## Unknown riders (claim C10) -/

lemma evalGo_unknown (tt : TravelTime) (vehicle : Vehicle)
    (rm : RiderId → Option Rider) :
    ∀ (itin : Itinerary) (node : NodeId) (time : ℚ) (pt : RiderId → Option ℚ)
      (p w acc : ℚ) (stop : ItineraryStop),
      stop ∈ itin → rm stop.riderId = none →
      evalGo tt vehicle rm itin node time pt p w acc = none
  | [], node, time, pt, p, w, acc => by simp
  | st :: rest, node, time, pt, p, w, acc => by
      intro stop hmem hnone
      rcases List.mem_cons.mp hmem with rfl | hmem'
      · simp [evalGo, hnone]
      · cases hfind : rm st.riderId with
        | none => simp [evalGo, hfind]
        | some rider =>
            simp only [evalGo, hfind]
            repeat' split
            all_goals
              first
                | rfl
                | exact evalGo_unknown tt vehicle rm rest _ _ _ _ _ _ stop hmem' hnone

/-- Claim C10: a stop whose rider id is unknown is silently skipped by
the simulator (nothing is emitted, the carried node and time are
unchanged, and the rest of the run is identical), whereas the solver's
`evaluateItinerary` rejects any itinerary containing such a stop
outright (`none`, i.e. no cost / infeasible). -/
theorem claim_C10 :
    (∀ (tt : TravelTime) (vehicle : Vehicle) (rm : RiderId → Option Rider)
        (stop : ItineraryStop) (rest : Itinerary) (node : NodeId) (time : ℚ)
        (pt : RiderId → Option ℚ),
      rm stop.riderId = none →
      simVehicleGo tt vehicle rm (stop :: rest) node time pt
        = simVehicleGo tt vehicle rm rest node time pt)
    ∧ (∀ (tt : TravelTime) (vehicle : Vehicle) (itin : Itinerary)
        (rm : RiderId → Option Rider) (stop : ItineraryStop),
      stop ∈ itin → rm stop.riderId = none →
      evaluateItinerary tt vehicle itin rm = none) := by
  constructor
  · intro tt vehicle rm stop rest node time pt hnone
    simp [simVehicleGo, hnone]
  · intro tt vehicle itin rm stop hmem hnone
    exact evalGo_unknown tt vehicle rm itin _ _ _ _ _ _ stop hmem hnone

/-- Witness for claim C10: with an empty rider set, a one-stop itinerary
is skipped by the simulator and rejected by `evaluateItinerary`. -/
theorem claim_C10_witness :
    (simVehicleGo (fun _ _ => 1) vehM (riderMapOf []) [⟨"x", .pickup⟩] "n" 0
        (fun _ => none)
      = simVehicleGo (fun _ _ => 1) vehM (riderMapOf []) [] "n" 0 (fun _ => none))
    ∧ evaluateItinerary (fun _ _ => 1) vehM [⟨"x", .pickup⟩] (riderMapOf []) = none := by
  constructor
  · exact claim_C10.1 (fun _ _ => 1) vehM (riderMapOf []) ⟨"x", .pickup⟩ [] "n" 0
      (fun _ => none) (by simp [riderMapOf])
  · exact claim_C10.2 (fun _ _ => 1) vehM [⟨"x", .pickup⟩] (riderMapOf [])
      ⟨"x", .pickup⟩ (by simp) (by simp [riderMapOf])

/-! ## The solver's candidate cost (claim C1) -/

/-- Sum of recorded time-window lateness minutes over a stop list. -/
def latenessSum (stops : List SimulatedStop) : ℚ :=
  (stops.map (fun s => s.minutesLate.getD 0)).sum

/-- Sum of recorded over-max-ride-time minutes over a stop list. -/
def overMaxSum (stops : List SimulatedStop) : ℚ :=
  (stops.map (fun s => s.minutesOverMaxTime.getD 0)).sum

lemma latenessSum_cons (s : SimulatedStop) (l : List SimulatedStop) :
    latenessSum (s :: l) = s.minutesLate.getD 0 + latenessSum l := by
  simp [latenessSum]

lemma overMaxSum_cons (s : SimulatedStop) (l : List SimulatedStop) :
    overMaxSum (s :: l) = s.minutesOverMaxTime.getD 0 + overMaxSum l := by
  simp [overMaxSum]

set_option maxHeartbeats 2000000 in
/-- `evaluateItinerary` (when it returns a cost) decomposes into the
simulated penalty components: 10× lateness, 10× over-max-time,
5× end-depot lateness and 0.1× total elapsed vehicle time. -/
lemma evalGo_eq_sim (tt : TravelTime) (vehicle : Vehicle) (rm : RiderId → Option Rider) :
    ∀ (itin : Itinerary) (node : NodeId) (time : ℚ) (pt : RiderId → Option ℚ)
      (p w acc c : ℚ),
      evalGo tt vehicle rm itin node time pt p w acc = some c →
      c = acc
        + 10 * latenessSum (simVehicleGo tt vehicle rm itin node time pt).1
        + 10 * overMaxSum (simVehicleGo tt vehicle rm itin node time pt).1
        + 5 * (simVehicleGo tt vehicle rm itin node time pt).2.minutesLate.getD 0
        + (1/10) * ((simVehicleGo tt vehicle rm itin node time pt).2.arrivalTime
            - vehicle.startTime)
  | [], node, time, pt, p, w, acc, c => by
      intro h
      simp only [evalGo, Option.some.injEq] at h
      simp only [simVehicleGo, latenessSum, overMaxSum, List.map_nil, List.sum_nil]
      by_cases hc : time + tt node vehicle.endNodeId > vehicle.endTime
      · rw [if_pos hc] at h
        simp only [if_pos hc, Option.getD_some]
        linarith [h]
      · rw [if_neg hc] at h
        simp only [if_neg hc, Option.getD_none]
        linarith [h]
  | stop :: rest, node, time, pt, p, w, acc, c => by
      intro h
      cases hfind : rm stop.riderId with
      | none => simp [evalGo, hfind] at h
      | some rider =>
          cases hty : stop.type with
          | pickup =>
              simp only [evalGo, hfind, hty, if_pos rfl, reduceIte] at h
              by_cases hseat :
                  p + 1 - (if rider.accessibility.needsWheelchair then w + 1 else w)
                    + (if rider.accessibility.needsWheelchair then w + 1 else w) * (3/2)
                    > vehicle.seatCount
              · rw [if_pos hseat] at h
                exact absurd h (by simp)
              · rw [if_neg hseat] at h
                by_cases hwc :
                    (if rider.accessibility.needsWheelchair then w + 1 else w)
                      > vehicle.wheelchairCapacity
                · rw [if_pos hwc] at h
                  exact absurd h (by simp)
                · rw [if_neg hwc] at h
                  have ih := evalGo_eq_sim tt vehicle rm rest _ _ _ _ _ _ _ h
                  simp only [simVehicleGo, hfind, hty, reduceIte, reduceCtorEq,
                    if_false]
                  rw [latenessSum_cons, overMaxSum_cons]
                  simp only [Option.getD_none]
                  cases hw : rider.pickupWindow with
                  | none =>
                      simp only [hw, Option.getD_none, Option.getD_some] at ih ⊢
                      rw [ih]
                      ring
                  | some tw =>
                      simp only [hw, Option.getD_none, Option.getD_some] at ih ⊢
                      by_cases hlate :
                          (if time + tt node rider.pickupNodeId < tw.earliest
                            then tw.earliest else time + tt node rider.pickupNodeId)
                            > tw.latest
                      · simp only [if_pos hlate, Option.getD_some] at ih ⊢
                        rw [ih]
                        ring
                      · simp only [if_neg hlate, Option.getD_none] at ih ⊢
                        rw [ih]
                        ring
          | dropoff =>
              simp only [evalGo, hfind, hty, reduceIte, reduceCtorEq, if_false] at h
              have ih := evalGo_eq_sim tt vehicle rm rest _ _ _ _ _ _ _ h
              simp only [simVehicleGo, hfind, hty, reduceIte, reduceCtorEq, if_false]
              rw [latenessSum_cons, overMaxSum_cons]
              cases hw : rider.dropoffWindow with
              | none =>
                  simp only [hw, Option.getD_none, Option.getD_some] at ih ⊢
                  cases hmax : rider.maxTimeInVehicle with
                  | none =>
                      simp only [hmax, Option.getD_none, Option.getD_some] at ih ⊢
                      rw [ih]
                      ring
                  | some maxT =>
                      simp only [hmax, Option.getD_none, Option.getD_some] at ih ⊢
                      cases hpt : pt stop.riderId with
                      | none =>
                          simp only [hpt, Option.getD_none, Option.getD_some] at ih ⊢
                          rw [ih]
                          ring
                      | some ptime =>
                          simp only [hpt, Option.getD_none, Option.getD_some] at ih ⊢
                          by_cases hover :
                              time + tt node rider.dropoffNodeId - ptime > maxT
                          · simp only [if_pos hover, Option.getD_some] at ih ⊢
                            rw [ih]
                            ring
                          · simp only [if_neg hover, Option.getD_none] at ih ⊢
                            rw [ih]
                            ring
              | some tw =>
                  simp only [hw, Option.getD_none, Option.getD_some] at ih ⊢
                  by_cases hlate :
                      (if time + tt node rider.dropoffNodeId < tw.earliest
                        then tw.earliest else time + tt node rider.dropoffNodeId)
                        > tw.latest
                  · simp only [if_pos hlate, Option.getD_some] at ih ⊢
                    cases hmax : rider.maxTimeInVehicle with
                    | none =>
                        simp only [hmax, Option.getD_none, Option.getD_some] at ih ⊢
                        rw [ih]
                        ring
                    | some maxT =>
                        simp only [hmax, Option.getD_none, Option.getD_some] at ih ⊢
                        cases hpt : pt stop.riderId with
                        | none =>
                            simp only [hpt, Option.getD_none, Option.getD_some] at ih ⊢
                            rw [ih]
                            ring
                        | some ptime =>
                            simp only [hpt, Option.getD_none, Option.getD_some] at ih ⊢
                            by_cases hover :
                                time + tt node rider.dropoffNodeId - ptime > maxT
                            · simp only [if_pos hover, Option.getD_some] at ih ⊢
                              rw [ih]
                              ring
                            · simp only [if_neg hover, Option.getD_none] at ih ⊢
                              rw [ih]
                              ring
                  · simp only [if_neg hlate, Option.getD_none] at ih ⊢
                    cases hmax : rider.maxTimeInVehicle with
                    | none =>
                        simp only [hmax, Option.getD_none, Option.getD_some] at ih ⊢
                        rw [ih]
                        ring
                    | some maxT =>
                        simp only [hmax, Option.getD_none, Option.getD_some] at ih ⊢
                        cases hpt : pt stop.riderId with
                        | none =>
                            simp only [hpt, Option.getD_none, Option.getD_some] at ih ⊢
                            rw [ih]
                            ring
                        | some ptime =>
                            simp only [hpt, Option.getD_none, Option.getD_some] at ih ⊢
                            by_cases hover :
                                time + tt node rider.dropoffNodeId - ptime > maxT
                            · simp only [if_pos hover, Option.getD_some] at ih ⊢
                              rw [ih]
                              ring
                            · simp only [if_neg hover, Option.getD_none] at ih ⊢
                              rw [ih]
                              ring

/-- A rider with no windows and no ride-time cap (for the claim C1
counterexample). -/
def riderC : Rider :=
  { id := "c", pickupNodeId := "a", dropoffNodeId := "b"
    pickupWindow := none, dropoffWindow := none, maxTimeInVehicle := none
    accessibility := { needsWheelchair := false, seatEquivalent := 1, boardingTime := 1 } }

/-- A vehicle whose service window ends at its start time, so any route
returns to the depot late (for the claim C1 counterexample). -/
def vehC : Vehicle :=
  { id := "v", seatCount := 1, wheelchairCapacity := 0, startTime := 0, endTime := 0
    startNodeId := "s", endNodeId := "s" }

/-- Claim C1 as stated is false: the candidate cost is NOT always
`10 × lateness + 10 × over-max-time + 0.1 × elapsed time` with no other
terms — the source also adds `5 × end-depot lateness`
(`totalPenalty += (endArrivalTime - vehicle.endTime) * 5`). With all
travel times 10 and a vehicle whose `endTime` equals its `startTime`,
the candidate `[pickup c, dropoff c]` costs 163.2, while the claimed
formula gives 3.2. -/
theorem claim_C1_counterexample :
    ¬ (∀ (tt : TravelTime) (vehicle : Vehicle) (itin : Itinerary)
        (rm : RiderId → Option Rider) (c : ℚ),
        evaluateItinerary tt vehicle itin rm = some c →
        c = 10 * latenessSum (simulateVehicle tt vehicle itin rm).stops
          + 10 * overMaxSum (simulateVehicle tt vehicle itin rm).stops
          + (1/10) * ((simulateVehicle tt vehicle itin rm).vehicleEnd.arrivalTime
              - vehicle.startTime)) := by
  intro hclaim
  have heval : evaluateItinerary (fun _ _ => 10) vehC (insertRider [] "c" 0 1)
      (riderMapOf [riderC]) = some (816/5) := by
    norm_num [evaluateItinerary, evalGo, insertRider, insertAt, vehC, riderC, riderMapOf]
    exact fun h => absurd h (by simp)
  have h2 := hclaim (fun _ _ => 10) vehC (insertRider [] "c" 0 1)
    (riderMapOf [riderC]) (816/5) heval
  have hl : latenessSum (simulateVehicle (fun _ _ => 10) vehC (insertRider [] "c" 0 1)
      (riderMapOf [riderC])).stops = 0 := by
    norm_num [latenessSum, simulateVehicle, simVehicleGo, insertRider, insertAt,
      vehC, riderC, riderMapOf]
  have ho : overMaxSum (simulateVehicle (fun _ _ => 10) vehC (insertRider [] "c" 0 1)
      (riderMapOf [riderC])).stops = 0 := by
    norm_num [overMaxSum, simulateVehicle, simVehicleGo, insertRider, insertAt,
      vehC, riderC, riderMapOf]
  have ha : (simulateVehicle (fun _ _ => 10) vehC (insertRider [] "c" 0 1)
      (riderMapOf [riderC])).vehicleEnd.arrivalTime = 32 := by
    norm_num [simulateVehicle, simVehicleGo, insertRider, insertAt,
      vehC, riderC, riderMapOf]
  rw [hl, ho, ha] at h2
  norm_num [vehC] at h2

/-- Claim C1 (amended): every feasible candidate cost computed by
`evaluateItinerary` equals 10 × the sum of time-window lateness minutes,
plus 10 × the sum of over-max-ride-time minutes, plus 5 × the end-depot
lateness minutes, plus 0.1 × the total elapsed vehicle time (end-depot
arrival time minus vehicle start time), with no other terms. The claim
as frozen omitted the `5 ×` end-depot term (see
`claim_C1_counterexample`). -/
theorem claim_C1 (tt : TravelTime) (vehicle : Vehicle) (itin : Itinerary)
    (rm : RiderId → Option Rider) (c : ℚ)
    (h : evaluateItinerary tt vehicle itin rm = some c) :
    c = 10 * latenessSum (simulateVehicle tt vehicle itin rm).stops
      + 10 * overMaxSum (simulateVehicle tt vehicle itin rm).stops
      + 5 * ((simulateVehicle tt vehicle itin rm).vehicleEnd.minutesLate.getD 0)
      + (1/10) * ((simulateVehicle tt vehicle itin rm).vehicleEnd.arrivalTime
          - vehicle.startTime) := by
  unfold evaluateItinerary at h
  have h2 := evalGo_eq_sim tt vehicle rm itin vehicle.startNodeId vehicle.startTime
    (fun _ => none) 0 0 0 c h
  simp only [simulateVehicle]
  rw [h2]
  ring

/-- Witness for the amended claim C1, at the counterexample input:
`163.2 = 10·0 + 10·0 + 5·32 + 0.1·(32 − 0)`. -/
theorem claim_C1_witness :
    evaluateItinerary (fun _ _ => 10) vehC (insertRider [] "c" 0 1)
        (riderMapOf [riderC]) = some (816/5)
    ∧ (816/5 : ℚ)
        = 10 * latenessSum (simulateVehicle (fun _ _ => 10) vehC
            (insertRider [] "c" 0 1) (riderMapOf [riderC])).stops
          + 10 * overMaxSum (simulateVehicle (fun _ _ => 10) vehC
              (insertRider [] "c" 0 1) (riderMapOf [riderC])).stops
          + 5 * ((simulateVehicle (fun _ _ => 10) vehC (insertRider [] "c" 0 1)
              (riderMapOf [riderC])).vehicleEnd.minutesLate.getD 0)
          + (1/10) * ((simulateVehicle (fun _ _ => 10) vehC (insertRider [] "c" 0 1)
              (riderMapOf [riderC])).vehicleEnd.arrivalTime - vehC.startTime) := by
  have heval : evaluateItinerary (fun _ _ => 10) vehC (insertRider [] "c" 0 1)
      (riderMapOf [riderC]) = some (816/5) := by
    norm_num [evaluateItinerary, evalGo, insertRider, insertAt, vehC, riderC, riderMapOf]
    exact fun h => absurd h (by simp)
  exact ⟨heval, claim_C1 (fun _ _ => 10) vehC (insertRider [] "c" 0 1)
    (riderMapOf [riderC]) (816/5) heval⟩

/-! ## Solver invariants: capacity (claim C4) and pairing (claim C9) -/

/-- The capacity property claim C4 asserts of an itinerary: replaying
the passenger counters of the simulation, at the moment of every pickup
the occupied seat-equivalents
(`passengers − wheelchairPassengers + wheelchairPassengers × 1.5`) do
not exceed the vehicle's seat count and the concurrent wheelchair
passengers do not exceed its wheelchair capacity. Stops of unknown
riders are skipped, as in the simulator. -/
def capacityOk (vehicle : Vehicle) (rm : RiderId → Option Rider) :
    Itinerary → ℚ → ℚ → Bool
  | [], _, _ => true
  | stop :: rest, p, w =>
      match rm stop.riderId with
      | none => capacityOk vehicle rm rest p w
      | some rider =>
          if stop.type = .pickup then
            let p' := p + 1
            let w' := if rider.accessibility.needsWheelchair then w + 1 else w
            decide (p' - w' + w' * (3/2) ≤ vehicle.seatCount)
              && decide (w' ≤ vehicle.wheelchairCapacity)
              && capacityOk vehicle rm rest p' w'
          else
            capacityOk vehicle rm rest (p - 1)
              (if rider.accessibility.needsWheelchair then w - 1 else w)

/-- A feasible candidate (one `evaluateItinerary` did not reject)
satisfies the capacity property from any starting counters. -/
lemma evalGo_capacityOk (tt : TravelTime) (vehicle : Vehicle)
    (rm : RiderId → Option Rider) :
    ∀ (itin : Itinerary) (node : NodeId) (time : ℚ) (pt : RiderId → Option ℚ)
      (p w acc c : ℚ),
      evalGo tt vehicle rm itin node time pt p w acc = some c →
      capacityOk vehicle rm itin p w = true
  | [], node, time, pt, p, w, acc, c => by
      intro _
      rfl
  | stop :: rest, node, time, pt, p, w, acc, c => by
      intro h
      cases hfind : rm stop.riderId with
      | none => simp [evalGo, hfind] at h
      | some rider =>
          cases hty : stop.type with
          | pickup =>
              simp only [evalGo, hfind, hty, reduceIte] at h
              by_cases hseat :
                  p + 1 - (if rider.accessibility.needsWheelchair then w + 1 else w)
                    + (if rider.accessibility.needsWheelchair then w + 1 else w) * (3/2)
                    > vehicle.seatCount
              · rw [if_pos hseat] at h
                exact absurd h (by simp)
              · rw [if_neg hseat] at h
                by_cases hwc :
                    (if rider.accessibility.needsWheelchair then w + 1 else w)
                      > vehicle.wheelchairCapacity
                · rw [if_pos hwc] at h
                  exact absurd h (by simp)
                · rw [if_neg hwc] at h
                  have ih := evalGo_capacityOk tt vehicle rm rest _ _ _ _ _ _ _ h
                  simp only [capacityOk, hfind, hty, reduceIte]
                  rw [ih]
                  simp only [Bool.and_true, Bool.and_eq_true, decide_eq_true_eq]
                  exact ⟨le_of_not_lt hseat, le_of_not_lt hwc⟩
          | dropoff =>
              simp only [evalGo, hfind, hty, reduceIte, reduceCtorEq, if_false] at h
              have ih := evalGo_capacityOk tt vehicle rm rest _ _ _ _ _ _ _ h
              simp only [capacityOk, hfind, hty, reduceIte, reduceCtorEq, if_false]
              exact ih

/-- `evaluateItinerary` accepting an itinerary implies the capacity
property from empty counters. -/
lemma evaluateItinerary_capacityOk (tt : TravelTime) (vehicle : Vehicle)
    (itin : Itinerary) (rm : RiderId → Option Rider) (c : ℚ)
    (h : evaluateItinerary tt vehicle itin rm = some c) :
    capacityOk vehicle rm itin 0 0 = true :=
  evalGo_capacityOk tt vehicle rm itin _ _ _ _ _ _ _ h

lemma mem_positionPairs {len p d : ℕ} :
    (p, d) ∈ positionPairs len ↔ p ≤ len ∧ p + 1 ≤ d ∧ d ≤ len + 1 := by
  unfold positionPairs
  simp only [List.mem_flatMap, List.mem_range, List.mem_map, List.mem_range'_1,
    Prod.mk.injEq]
  constructor
  · rintro ⟨q, hq, e, ⟨he1, he2⟩, rfl, rfl⟩
    omega
  · rintro ⟨h1, h2, h3⟩
    exact ⟨p, by omega, d, ⟨by omega, by omega⟩, rfl, rfl⟩

/-- What holds of the running best candidate in
`findBestInsertionPosition`'s loops. -/
def GoodRes (tt : TravelTime) (vehicle : Vehicle) (itinerary : Itinerary)
    (rider : Rider) (rm : RiderId → Option Rider) :
    Option InsertionResult → Prop
  | none => True
  | some r =>
      evaluateItinerary tt vehicle
          (insertRider itinerary rider.id r.pickupIdx r.dropoffIdx) rm = some r.cost
        ∧ r.pickupIdx < r.dropoffIdx ∧ r.pickupIdx ≤ itinerary.length
        ∧ r.dropoffIdx ≤ itinerary.length + 1

lemma foldl_bestCandidate_good (tt : TravelTime) (vehicle : Vehicle)
    (itinerary : Itinerary) (rider : Rider) (rm : RiderId → Option Rider) :
    ∀ (pds : List (ℕ × ℕ)) (init : Option InsertionResult),
      (∀ pd ∈ pds, pd.1 < pd.2 ∧ pd.1 ≤ itinerary.length
        ∧ pd.2 ≤ itinerary.length + 1) →
      GoodRes tt vehicle itinerary rider rm init →
      GoodRes tt vehicle itinerary rider rm
        (pds.foldl (bestCandidate tt vehicle itinerary rider rm) init)
  | [], init, _, hinit => hinit
  | pd :: pds, init, hmem, hinit => by
      rw [List.foldl_cons]
      refine foldl_bestCandidate_good tt vehicle itinerary rider rm pds _
        (fun q hq => hmem q (List.mem_cons_of_mem _ hq)) ?_
      have hpd := hmem pd (List.mem_cons_self _ _)
      unfold bestCandidate
      cases heval : evaluateItinerary tt vehicle
          (insertRider itinerary rider.id pd.1 pd.2) rm with
      | none => exact hinit
      | some cost =>
          cases init with
          | none => exact ⟨heval, hpd.1, hpd.2.1, hpd.2.2⟩
          | some b =>
              show GoodRes tt vehicle itinerary rider rm
                (if cost < b.cost then some ⟨cost, pd.1, pd.2⟩ else some b)
              by_cases hc : cost < b.cost
              · rw [if_pos hc]
                exact ⟨heval, hpd.1, hpd.2.1, hpd.2.2⟩
              · rw [if_neg hc]
                exact hinit

/-- What `findBestInsertionPosition` guarantees of a returned result:
the vehicle found by id, a feasible insertion at the returned position,
and position bounds. -/
lemma findBest_spec (tt : TravelTime) (problem : Problem) (vehicleId : VehicleId)
    (itinerary : Itinerary) (rider : Rider) (r : InsertionResult)
    (h : findBestInsertionPosition tt problem vehicleId itinerary rider = some r) :
    ∃ vehicle, problem.vehicles.find? (fun v => v.id == vehicleId) = some vehicle
      ∧ evaluateItinerary tt vehicle
          (insertRider itinerary rider.id r.pickupIdx r.dropoffIdx)
          (riderMapOf problem.riders) = some r.cost
      ∧ r.pickupIdx < r.dropoffIdx ∧ r.pickupIdx ≤ itinerary.length
      ∧ r.dropoffIdx ≤ itinerary.length + 1 := by
  unfold findBestInsertionPosition at h
  cases hfind : problem.vehicles.find? (fun v => v.id == vehicleId) with
  | none => rw [hfind] at h; exact absurd h (by simp)
  | some vehicle =>
      rw [hfind] at h
      have h' : (positionPairs itinerary.length).foldl
          (bestCandidate tt vehicle itinerary rider (riderMapOf problem.riders)) none
            = some r := h
      have hgood := foldl_bestCandidate_good tt vehicle itinerary rider
        (riderMapOf problem.riders) (positionPairs itinerary.length) none
        (fun pd hpd => by
          obtain ⟨p, d⟩ := pd
          have h2 := mem_positionPairs.mp hpd
          exact ⟨by omega, by omega, by omega⟩)
        trivial
      rw [h'] at hgood
      exact ⟨vehicle, rfl, hgood.1, hgood.2.1, hgood.2.2.1, hgood.2.2.2⟩

/-- What holds of the running best `(vehicle, cost, position)` of the
solver's per-vehicle loop. -/
def GoodChoice (tt : TravelTime) (problem : Problem) (sol : Solution) (rider : Rider) :
    Option (VehicleId × ℚ × ℕ × ℕ) → Prop
  | none => True
  | some (vid, c, pIdx, dIdx) =>
      ∃ vehicle, problem.vehicles.find? (fun v => v.id == vid) = some vehicle
        ∧ evaluateItinerary tt vehicle (insertRider (sol vid) rider.id pIdx dIdx)
            (riderMapOf problem.riders) = some c
        ∧ pIdx < dIdx ∧ pIdx ≤ (sol vid).length ∧ dIdx ≤ (sol vid).length + 1

lemma foldl_chooseStep_good (tt : TravelTime) (problem : Problem) (sol : Solution)
    (rider : Rider) :
    ∀ (vehicles : List Vehicle) (init : Option (VehicleId × ℚ × ℕ × ℕ)),
      GoodChoice tt problem sol rider init →
      GoodChoice tt problem sol rider
        (vehicles.foldl (chooseStep tt problem sol rider) init)
  | [], init, hinit => hinit
  | vehicle :: vehicles, init, hinit => by
      rw [List.foldl_cons]
      refine foldl_chooseStep_good tt problem sol rider vehicles _ ?_
      unfold chooseStep
      by_cases hwc : rider.accessibility.needsWheelchair
          ∧ vehicle.wheelchairCapacity = (0 : ℚ)
      · rw [if_pos hwc]
        exact hinit
      · rw [if_neg hwc]
        cases hbest : findBestInsertionPosition tt problem vehicle.id
            (sol vehicle.id) rider with
        | none => exact hinit
        | some result =>
            obtain ⟨vfound, hfound, heval, hlt, hp, hd⟩ :=
              findBest_spec tt problem vehicle.id (sol vehicle.id) rider result hbest
            cases init with
            | none =>
                show GoodChoice tt problem sol rider
                  (if (true = true) then
                    some (vehicle.id, result.cost, result.pickupIdx, result.dropoffIdx)
                  else none)
                rw [if_pos rfl]
                exact ⟨vfound, hfound, heval, hlt, hp, hd⟩
            | some b =>
                show GoodChoice tt problem sol rider
                  (if (decide (result.cost < b.2.1) = true) then
                    some (vehicle.id, result.cost, result.pickupIdx, result.dropoffIdx)
                  else some b)
                by_cases hc : result.cost < b.2.1
                · rw [if_pos (by simpa using hc)]
                  exact ⟨vfound, hfound, heval, hlt, hp, hd⟩
                · rw [if_neg (by simpa using hc)]
                  exact hinit

lemma chooseVehicle_spec (tt : TravelTime) (problem : Problem) (sol : Solution)
    (rider : Rider) (vid : VehicleId) (c : ℚ) (pIdx dIdx : ℕ)
    (h : chooseVehicle tt problem sol rider = some (vid, c, pIdx, dIdx)) :
    ∃ vehicle, problem.vehicles.find? (fun v => v.id == vid) = some vehicle
      ∧ evaluateItinerary tt vehicle (insertRider (sol vid) rider.id pIdx dIdx)
          (riderMapOf problem.riders) = some c
      ∧ pIdx < dIdx ∧ pIdx ≤ (sol vid).length ∧ dIdx ≤ (sol vid).length + 1 := by
  have hgood := foldl_chooseStep_good tt problem sol rider problem.vehicles none trivial
  unfold chooseVehicle at h
  rw [h] at hgood
  exact hgood

/-- Each solver iteration either leaves a vehicle's itinerary unchanged
or replaces it by a feasible insertion of the current rider. -/
lemma solveStep_cases (tt : TravelTime) (problem : Problem) (sol : Solution)
    (rider : Rider) (vid : VehicleId) :
    solveStep tt problem sol rider vid = sol vid
      ∨ ∃ vehicle pIdx dIdx c,
          problem.vehicles.find? (fun v => v.id == vid) = some vehicle
          ∧ evaluateItinerary tt vehicle (insertRider (sol vid) rider.id pIdx dIdx)
              (riderMapOf problem.riders) = some c
          ∧ pIdx < dIdx ∧ pIdx ≤ (sol vid).length ∧ dIdx ≤ (sol vid).length + 1
          ∧ solveStep tt problem sol rider vid
              = insertRider (sol vid) rider.id pIdx dIdx := by
  cases hchoose : chooseVehicle tt problem sol rider with
  | none =>
      left
      unfold solveStep
      rw [hchoose]
  | some best =>
      obtain ⟨vid', c, pIdx, dIdx⟩ := best
      have hred : solveStep tt problem sol rider
          = if vid' ≠ "" then
              (fun v => if v = vid' then insertRider (sol vid') rider.id pIdx dIdx
                else sol v)
            else sol := by
        unfold solveStep
        rw [hchoose]
      by_cases hne : vid' ≠ ""
      · rw [hred, if_pos hne]
        by_cases hv : vid = vid'
        · subst hv
          obtain ⟨vehicle, hfound, heval, hlt, hp, hd⟩ :=
            chooseVehicle_spec tt problem sol rider vid c pIdx dIdx hchoose
          exact Or.inr ⟨vehicle, pIdx, dIdx, c, hfound, heval, hlt, hp, hd, by simp⟩
        · left
          simp [hv]
      · rw [hred, if_neg hne]
        left
        rfl

lemma find?_eq_of_nodup {vehicles : List Vehicle} {v : Vehicle}
    (hnodup : (vehicles.map (·.id)).Nodup) (hv : v ∈ vehicles) :
    vehicles.find? (fun u => u.id == v.id) = some v := by
  induction vehicles with
  | nil => cases hv
  | cons u rest ih =>
      rcases List.mem_cons.mp hv with rfl | hv'
      · rw [List.find?_cons_of_pos _ (by simp)]
      · have hne : u.id ≠ v.id := by
          intro he
          have : v.id ∈ rest.map (·.id) := List.mem_map_of_mem _ hv'
          rw [← he] at this
          exact (List.nodup_cons.mp hnodup).1 this
        rw [List.find?_cons_of_neg _ (by simpa using hne)]
        exact ih (List.nodup_cons.mp hnodup).2 hv'

/-- Claim C4: for every problem whose vehicle ids are distinct, every
itinerary produced by the greedy solver satisfies the capacity property:
at the moment of every pickup, seat-equivalents
(`passengers − wheelchair + wheelchair × 1.5`) never exceed the
vehicle's seat count, and concurrent wheelchair passengers never exceed
its wheelchair capacity. -/
theorem claim_C4 (tt : TravelTime) (problem : Problem)
    (hnodup : (problem.vehicles.map (·.id)).Nodup) :
    ∀ v ∈ problem.vehicles,
      capacityOk v (riderMapOf problem.riders)
        (generateTestSolution tt problem v.id) 0 0 = true := by
  unfold generateTestSolution
  have main : ∀ (riders : List Rider) (sol : Solution),
      (∀ v ∈ problem.vehicles,
        capacityOk v (riderMapOf problem.riders) (sol v.id) 0 0 = true) →
      ∀ v ∈ problem.vehicles,
        capacityOk v (riderMapOf problem.riders)
          ((riders.foldl (solveStep tt problem) sol) v.id) 0 0 = true := by
    intro riders
    induction riders with
    | nil => intro sol hsol; exact hsol
    | cons r rest ih =>
        intro sol hsol
        rw [List.foldl_cons]
        refine ih (solveStep tt problem sol r) ?_
        intro v hv
        rcases solveStep_cases tt problem sol r v.id with heq | hins
        · rw [heq]
          exact hsol v hv
        · obtain ⟨vehicle, pIdx, dIdx, c, hfound, heval, -, -, -, heq⟩ := hins
          rw [heq]
          have hveq : vehicle = v := by
            rw [find?_eq_of_nodup hnodup hv] at hfound
            exact (Option.some_injective _ hfound).symm
          subst hveq
          exact evaluateItinerary_capacityOk tt vehicle _ _ c heval
  exact main (sortRiders problem.riders) (fun _ => []) (fun v _ => rfl)

/-- Witness for claim C4: a concrete one-vehicle, one-rider problem with
distinct vehicle ids; the solver's output respects capacity. -/
theorem claim_C4_witness :
    ((Problem.mk [vehC] [riderC]).vehicles.map (·.id)).Nodup
    ∧ ∀ v ∈ (Problem.mk [vehC] [riderC]).vehicles,
        capacityOk v (riderMapOf (Problem.mk [vehC] [riderC]).riders)
          (generateTestSolution (fun _ _ => 10) (Problem.mk [vehC] [riderC]) v.id)
          0 0 = true :=
  ⟨by simp, claim_C4 (fun _ _ => 10) (Problem.mk [vehC] [riderC]) (by simp)⟩

/-- The stops of one rider in an itinerary, in order. -/
def stopsOf (itin : Itinerary) (rid : RiderId) : Itinerary :=
  itin.filter (fun s => s.riderId == rid)

/-- The rider ids appearing in an itinerary. -/
def ridersOf (itin : Itinerary) : List RiderId :=
  itin.map (·.riderId)

lemma filter_insertAt_of_neg {p : ItineraryStop → Bool} {a : ItineraryStop}
    (h : p a = false) (l : Itinerary) (i : ℕ) :
    (insertAt l i a).filter p = l.filter p := by
  unfold insertAt
  rw [List.filter_append, List.filter_cons_of_neg (by simp [h]), ← List.filter_append,
    List.take_append_drop]

lemma filter_sub_nil {l s : Itinerary} {p : ItineraryStop → Bool}
    (hs : s.Sublist l) (h : l.filter p = []) : s.filter p = [] :=
  List.sublist_nil.mp (h ▸ hs.filter p)

lemma stopsOf_not_mem {itin : Itinerary} {rid : RiderId}
    (h : rid ∉ ridersOf itin) : stopsOf itin rid = [] := by
  rw [stopsOf, List.filter_eq_nil_iff]
  intro s hs
  simp only [beq_iff_eq]
  intro he
  exact h (he ▸ List.mem_map_of_mem _ hs)

lemma stopsOf_insertRider_self {itin : Itinerary} {rid : RiderId} {p d : ℕ}
    (hfresh : stopsOf itin rid = []) (hpd : p < d) (hp : p ≤ itin.length)
    (hd : d ≤ itin.length + 1) :
    stopsOf (insertRider itin rid p d) rid
      = [⟨rid, .pickup⟩, ⟨rid, .dropoff⟩] := by
  have hpred : ∀ (t : StopType),
      (fun s => s.riderId == rid) (⟨rid, t⟩ : ItineraryStop) = true := by
    intro t
    simp
  set pk : ItineraryStop := ⟨rid, .pickup⟩ with hpk
  set dk : ItineraryStop := ⟨rid, .dropoff⟩ with hdk
  obtain ⟨k, rfl⟩ : ∃ k, d = p + k + 1 := ⟨d - p - 1, by omega⟩
  have hlen : (itin.take p).length = p := by
    rw [List.length_take]
    omega
  have hsucc : p + k + 1 - p = k + 1 := by omega
  have htake : (insertAt itin p pk).take (p + k + 1)
      = itin.take p ++ pk :: ((itin.drop p).take k) := by
    unfold insertAt
    rw [List.take_append_eq_append_take, hlen, List.take_of_length_le (by omega),
      hsucc, List.take_succ_cons]
  have hdrop : (insertAt itin p pk).drop (p + k + 1) = (itin.drop p).drop k := by
    unfold insertAt
    rw [List.drop_append_eq_append_drop, hlen, List.drop_of_length_le (by omega),
      hsucc, List.drop_succ_cons, List.nil_append]
  have h1 : (itin.take p).filter (fun s => s.riderId == rid) = [] :=
    filter_sub_nil (List.take_sublist _ _) hfresh
  have h2 : ((itin.drop p).take k).filter (fun s => s.riderId == rid) = [] :=
    filter_sub_nil ((List.take_sublist _ _).trans (List.drop_sublist _ _)) hfresh
  have h3 : ((itin.drop p).drop k).filter (fun s => s.riderId == rid) = [] :=
    filter_sub_nil ((List.drop_sublist _ _).trans (List.drop_sublist _ _)) hfresh
  have hsplit : insertRider itin rid p (p + k + 1)
      = (insertAt itin p pk).take (p + k + 1)
        ++ dk :: (insertAt itin p pk).drop (p + k + 1) := rfl
  unfold stopsOf
  rw [hsplit, List.filter_append, htake, hdrop, List.filter_append]
  simp [List.filter_cons, h1, h2, h3, hpk, hdk]
  intro a ha
  have hfresh' : itin.filter (fun s => s.riderId == rid) = [] := hfresh
  have := List.filter_eq_nil_iff.mp hfresh' a ((List.drop_sublist (p + k) _).mem ha)
  simpa using this

lemma stopsOf_insertRider_other {itin : Itinerary} {rid rid' : RiderId} {p d : ℕ}
    (h : rid ≠ rid') :
    stopsOf (insertRider itin rid p d) rid' = stopsOf itin rid' := by
  unfold insertRider stopsOf
  rw [filter_insertAt_of_neg (by simpa using h), filter_insertAt_of_neg (by simpa using h)]

lemma mem_insertAt {l : Itinerary} {i : ℕ} {a x : ItineraryStop}
    (h : x ∈ insertAt l i a) : x = a ∨ x ∈ l := by
  unfold insertAt at h
  rcases List.mem_append.mp h with h1 | h2
  · exact Or.inr ((List.take_sublist _ _).mem h1)
  · rcases List.mem_cons.mp h2 with rfl | h3
    · exact Or.inl rfl
    · exact Or.inr ((List.drop_sublist _ _).mem h3)

lemma mem_ridersOf_insertRider {itin : Itinerary} {rid x : RiderId} {p d : ℕ}
    (h : x ∈ ridersOf (insertRider itin rid p d)) : x = rid ∨ x ∈ ridersOf itin := by
  unfold ridersOf at h
  obtain ⟨s, hs, rfl⟩ := List.mem_map.mp h
  rcases mem_insertAt hs with rfl | hs'
  · exact Or.inl rfl
  · rcases mem_insertAt hs' with rfl | hs''
    · exact Or.inl rfl
    · exact Or.inr (List.mem_map_of_mem _ hs'')

lemma insertByKey_perm (r : Rider) (l : List Rider) :
    (insertByKey r l).Perm (r :: l) := by
  induction l with
  | nil => exact List.Perm.refl _
  | cons x xs ih =>
      unfold insertByKey
      by_cases hc : getEarliestConstraintTime x ≤ getEarliestConstraintTime r
      · rw [if_pos hc]
        exact (ih.cons x).trans (List.Perm.swap r x xs)
      · rw [if_neg hc]

lemma sortRiders_perm (l : List Rider) : (sortRiders l).Perm l := by
  induction l with
  | nil => exact List.Perm.refl _
  | cons r rs ih => exact (insertByKey_perm r (sortRiders rs)).trans (ih.cons r)

/-- One solver iteration changes at most one vehicle's itinerary, and
only by a bounded, properly ordered insertion of the current rider. -/
lemma solveStep_global (tt : TravelTime) (problem : Problem) (sol : Solution)
    (rider : Rider) :
    (∀ vid, solveStep tt problem sol rider vid = sol vid)
      ∨ ∃ vid0 pIdx dIdx, pIdx < dIdx ∧ pIdx ≤ (sol vid0).length
          ∧ dIdx ≤ (sol vid0).length + 1
          ∧ solveStep tt problem sol rider vid0
              = insertRider (sol vid0) rider.id pIdx dIdx
          ∧ ∀ vid, vid ≠ vid0 → solveStep tt problem sol rider vid = sol vid := by
  cases hchoose : chooseVehicle tt problem sol rider with
  | none =>
      left
      intro vid
      unfold solveStep
      rw [hchoose]
  | some best =>
      obtain ⟨vid', c, pIdx, dIdx⟩ := best
      have hred : solveStep tt problem sol rider
          = if vid' ≠ "" then
              (fun v => if v = vid' then insertRider (sol vid') rider.id pIdx dIdx
                else sol v)
            else sol := by
        unfold solveStep
        rw [hchoose]
      by_cases hne : vid' ≠ ""
      · right
        obtain ⟨vehicle, -, -, hlt, hp, hd⟩ :=
          chooseVehicle_spec tt problem sol rider vid' c pIdx dIdx hchoose
        refine ⟨vid', pIdx, dIdx, hlt, hp, hd, ?_, ?_⟩
        · rw [hred, if_pos hne]
          simp
        · intro vid hvid
          rw [hred, if_pos hne]
          simp [hvid]
      · left
        intro vid
        rw [hred, if_neg hne]

/-- Every rider of every itinerary has exactly one pickup followed by
exactly one dropoff (claim C9's pairing property), stated of a whole
solution. -/
def PairedSol (sol : Solution) : Prop :=
  ∀ vid, ∀ rid ∈ ridersOf (sol vid),
    stopsOf (sol vid) rid = [⟨rid, .pickup⟩, ⟨rid, .dropoff⟩]

/-- Every rider in the solution is among the processed ids. -/
def BoundedSol (processed : List RiderId) (sol : Solution) : Prop :=
  ∀ vid, ∀ rid ∈ ridersOf (sol vid), rid ∈ processed

/-- No rider appears in the itineraries of two different vehicle ids. -/
def SeparatedSol (sol : Solution) : Prop :=
  ∀ vid1 vid2, vid1 ≠ vid2 → ∀ rid, rid ∈ ridersOf (sol vid1) →
    rid ∉ ridersOf (sol vid2)

lemma solver_inv (tt : TravelTime) (problem : Problem) :
    ∀ (riders : List Rider) (processed : List RiderId) (sol : Solution),
      BoundedSol processed sol → PairedSol sol → SeparatedSol sol →
      (∀ r ∈ riders, r.id ∉ processed) → (riders.map (·.id)).Nodup →
      BoundedSol (processed ++ riders.map (·.id))
          (riders.foldl (solveStep tt problem) sol)
        ∧ PairedSol (riders.foldl (solveStep tt problem) sol)
        ∧ SeparatedSol (riders.foldl (solveStep tt problem) sol)
  | [], processed, sol, hb, hp, hs, _, _ => by
      simpa using ⟨hb, hp, hs⟩
  | r :: rest, processed, sol, hb, hp, hs, hproc, hnodup => by
      rw [List.foldl_cons]
      set sol' := solveStep tt problem sol r with hsol'
      have hridfresh : ∀ vid, r.id ∉ ridersOf (sol vid) := by
        intro vid hmem
        exact hproc r (List.mem_cons_self _ _) (hb vid r.id hmem)
      have hcases := solveStep_global tt problem sol r
      have hb' : BoundedSol (processed ++ [r.id]) sol' := by
        intro vid rid hmem
        rcases hcases with hsame | ⟨vid0, pIdx, dIdx, -, -, -, hins, hother⟩
        · rw [hsol', hsame vid] at hmem
          exact List.mem_append_left _ (hb vid rid hmem)
        · by_cases hv : vid = vid0
          · subst hv
            rw [hsol', hins] at hmem
            rcases mem_ridersOf_insertRider hmem with rfl | hmem'
            · exact List.mem_append_right _ (List.mem_singleton.mpr rfl)
            · exact List.mem_append_left _ (hb vid rid hmem')
          · rw [hsol', hother vid hv] at hmem
            exact List.mem_append_left _ (hb vid rid hmem)
      have hp' : PairedSol sol' := by
        intro vid rid hmem
        rcases hcases with hsame | ⟨vid0, pIdx, dIdx, hlt, hple, hdle, hins, hother⟩
        · rw [hsol', hsame vid] at hmem ⊢
          exact hp vid rid hmem
        · by_cases hv : vid = vid0
          · subst hv
            rw [hsol', hins] at hmem ⊢
            rcases mem_ridersOf_insertRider hmem with rfl | hmem'
            · exact stopsOf_insertRider_self (stopsOf_not_mem (hridfresh vid))
                hlt hple hdle
            · have hne : rid ≠ r.id := by
                intro he
                exact hridfresh vid (he ▸ hmem')
              rw [stopsOf_insertRider_other (Ne.symm hne)]
              exact hp vid rid hmem'
          · rw [hsol', hother vid hv] at hmem ⊢
            exact hp vid rid hmem
      have hs' : SeparatedSol sol' := by
        intro vid1 vid2 hne rid hmem1 hmem2
        rcases hcases with hsame | ⟨vid0, pIdx, dIdx, -, -, -, hins, hother⟩
        · rw [hsol', hsame vid1] at hmem1
          rw [hsol', hsame vid2] at hmem2
          exact hs vid1 vid2 hne rid hmem1 hmem2
        · have hget : ∀ vid, rid ∈ ridersOf (sol' vid) →
              rid = r.id ∨ rid ∈ ridersOf (sol vid) := by
            intro vid hmem
            by_cases hv : vid = vid0
            · subst hv
              rw [hsol', hins] at hmem
              exact mem_ridersOf_insertRider hmem
            · rw [hsol', hother vid hv] at hmem
              exact Or.inr hmem
          rcases hget vid1 hmem1 with rfl | hold1
          · rcases hget vid2 hmem2 with heq2 | hold2
            · by_cases hv1 : vid1 = vid0
              · by_cases hv2 : vid2 = vid0
                · exact hne (hv1.trans hv2.symm)
                · rw [hsol', hother vid2 hv2] at hmem2
                  exact hridfresh vid2 hmem2
              · rw [hsol', hother vid1 hv1] at hmem1
                exact hridfresh vid1 hmem1
            · exact hridfresh vid2 hold2
          · rcases hget vid2 hmem2 with rfl | hold2
            · exact hridfresh vid1 hold1
            · exact hs vid1 vid2 hne rid hold1 hold2
      have hproc' : ∀ r' ∈ rest, r'.id ∉ processed ++ [r.id] := by
        intro r' hr' hmem
        rcases List.mem_append.mp hmem with h1 | h2
        · exact hproc r' (List.mem_cons_of_mem _ hr') h1
        · have : r'.id = r.id := List.mem_singleton.mp h2
          have hr'id : r'.id ∈ rest.map (·.id) := List.mem_map_of_mem _ hr'
          rw [this] at hr'id
          exact (List.nodup_cons.mp (by simpa using hnodup)).1 hr'id
      have hrec := solver_inv tt problem rest (processed ++ [r.id]) sol' hb' hp' hs'
        hproc' (List.nodup_cons.mp (by simpa using hnodup)).2
      refine ⟨?_, hrec.2.1, hrec.2.2⟩
      have : processed ++ (r :: rest).map (·.id)
          = (processed ++ [r.id]) ++ rest.map (·.id) := by
        simp
      rw [this]
      exact hrec.1

/-- Claim C9: for every problem whose rider ids are distinct, every
solution the greedy solver returns satisfies the itinerary invariant:
each rider appearing in a vehicle's itinerary has exactly one pickup
stop and exactly one dropoff stop there, with the pickup preceding the
dropoff (its stops, in order, are `[pickup, dropoff]`), and no rider
appears in the itineraries of two vehicles with different ids. -/
theorem claim_C9 (tt : TravelTime) (problem : Problem)
    (hnodup : (problem.riders.map (·.id)).Nodup) :
    (∀ v ∈ problem.vehicles,
      ∀ rid ∈ ridersOf (generateTestSolution tt problem v.id),
        stopsOf (generateTestSolution tt problem v.id) rid
          = [⟨rid, .pickup⟩, ⟨rid, .dropoff⟩])
    ∧ (∀ v1 ∈ problem.vehicles, ∀ v2 ∈ problem.vehicles, v1.id ≠ v2.id →
        ∀ rid, rid ∈ ridersOf (generateTestSolution tt problem v1.id) →
          rid ∉ ridersOf (generateTestSolution tt problem v2.id)) := by
  have hsortnodup : ((sortRiders problem.riders).map (·.id)).Nodup := by
    have hperm := (sortRiders_perm problem.riders).map (·.id)
    exact hperm.nodup_iff.mpr hnodup
  have hmain := solver_inv tt problem (sortRiders problem.riders) [] (fun _ => [])
    (by intro vid rid h; cases h) (by intro vid rid h; cases h)
    (by intro v1 v2 h rid h1; cases h1) (by intro r hr h; cases h) hsortnodup
  unfold generateTestSolution
  exact ⟨fun v _ rid hmem => hmain.2.1 v.id rid hmem,
    fun v1 _ v2 _ hne rid hmem => hmain.2.2 v1.id v2.id hne rid hmem⟩

/-- Witness for claim C9: the concrete one-vehicle, one-rider problem;
its solver output pairs every inserted rider and uses one vehicle. -/
theorem claim_C9_witness :
    ((Problem.mk [vehC] [riderC]).riders.map (·.id)).Nodup
    ∧ (∀ v ∈ (Problem.mk [vehC] [riderC]).vehicles,
        ∀ rid ∈ ridersOf
            (generateTestSolution (fun _ _ => 10) (Problem.mk [vehC] [riderC]) v.id),
          stopsOf (generateTestSolution (fun _ _ => 10) (Problem.mk [vehC] [riderC])
              v.id) rid
            = [⟨rid, .pickup⟩, ⟨rid, .dropoff⟩]) :=
  ⟨by simp,
    (claim_C9 (fun _ _ => 10) (Problem.mk [vehC] [riderC]) (by simp)).1⟩

/-! ## Simulation-cache equivalence (claim C3) -/

lemma find?_pairs {β : Type} {l : List Vehicle} {v : Vehicle}
    (hnodup : (l.map (·.id)).Nodup) (hv : v ∈ l) (f : Vehicle → β) :
    ((l.map (fun u => (u.id, f u))).find? (fun p => p.1 == v.id)) = some (v.id, f v) := by
  induction l with
  | nil => cases hv
  | cons u rest ih =>
      rcases List.mem_cons.mp hv with rfl | hv'
      · rw [List.map_cons, List.find?_cons_of_pos _ (by simp)]
      · have hne : u.id ≠ v.id := by
          intro he
          have : v.id ∈ rest.map (·.id) := List.mem_map_of_mem _ hv'
          rw [← he] at this
          exact (List.nodup_cons.mp hnodup).1 this
        rw [List.map_cons, List.find?_cons_of_neg _ (by simpa using hne)]
        exact ih (List.nodup_cons.mp hnodup).2 hv'

/-- With distinct vehicle ids, looking a vehicle up in the full
simulation's `vehicleResults` map returns its own result. -/
lemma lookup_simulate (tt : TravelTime) (problem : Problem) (sol : Solution)
    (hnodup : (problem.vehicles.map (·.id)).Nodup) {v : Vehicle}
    (hv : v ∈ problem.vehicles) :
    lookupVehicleResult (simulate tt problem sol).vehicleResults v.id
      = some (simulateVehicle tt v (sol v.id) (riderMapOf problem.riders)) := by
  rw [simulate_eq]
  unfold lookupVehicleResult
  have hrev : (problem.vehicles.map
        (fun u => (u.id, vehicleResult tt problem sol u))).reverse
      = problem.vehicles.reverse.map (fun u => (u.id, vehicleResult tt problem sol u)) := by
    rw [List.map_reverse]
  rw [hrev, find?_pairs
    (by rw [List.map_reverse]; exact List.nodup_reverse.mpr hnodup)
    (List.mem_reverse.mpr hv)]
  rfl

lemma cacheUpdate_untouched (fullResult : SimulationResult) (sol : Solution) :
    ∀ (l : List Vehicle) (st : CacheState) (vid : VehicleId),
      vid ∉ l.map (·.id) →
      (l.foldl (cacheUpdateStep fullResult sol) st) vid = st vid
  | [], st, vid, _ => rfl
  | u :: rest, st, vid, h => by
      rw [List.foldl_cons]
      have hne : vid ≠ u.id := by
        intro he
        exact h (by simp [he])
      rw [cacheUpdate_untouched fullResult sol rest _ vid
        (fun hmem => h (List.mem_cons_of_mem _ hmem))]
      unfold cacheUpdateStep
      cases lookupVehicleResult fullResult.vehicleResults u.id with
      | none => rfl
      | some r => simp [hne]

lemma cacheUpdate_sets (fullResult : SimulationResult) (sol : Solution) :
    ∀ (l : List Vehicle) (st : CacheState) (v : Vehicle) (r : VehicleSimResult),
      (l.map (·.id)).Nodup → v ∈ l →
      lookupVehicleResult fullResult.vehicleResults v.id = some r →
      (l.foldl (cacheUpdateStep fullResult sol) st) v.id
        = some (hashItinerary (sol v.id), r)
  | [], st, v, r, _, hv, _ => by cases hv
  | u :: rest, st, v, r, hnodup, hv, hlook => by
      rw [List.foldl_cons]
      rcases List.mem_cons.mp hv with rfl | hv'
      · have hnotin : v.id ∉ rest.map (·.id) := (List.nodup_cons.mp hnodup).1
        rw [cacheUpdate_untouched fullResult sol rest _ v.id hnotin]
        unfold cacheUpdateStep
        rw [hlook]
        simp
      · exact cacheUpdate_sets fullResult sol rest _ v r
          (List.nodup_cons.mp hnodup).2 hv' hlook

/-- When every cached entry is the current simulation of the current
itinerary, the cache's aggregate rebuild equals a full simulation. -/
lemma reconstruct_eq (tt : TravelTime) (problem : Problem) (sol : Solution)
    (st : CacheState)
    (h : ∀ v ∈ problem.vehicles,
      st v.id = some (hashItinerary (sol v.id),
        simulateVehicle tt v (sol v.id) (riderMapOf problem.riders))) :
    reconstructFromCache problem st = simulate tt problem sol := by
  have hfold : ∀ (l : List Vehicle), (∀ v ∈ l, v ∈ problem.vehicles) →
      ∀ (acc : SimAcc),
      l.foldl (reconstructStep st) acc
        = l.foldl (simulateStep tt (riderMapOf problem.riders) sol) acc := by
    intro l
    induction l with
    | nil => intro _ acc; rfl
    | cons v rest ih =>
        intro hsub acc
        rw [List.foldl_cons, List.foldl_cons]
        have hv := h v (hsub v (List.mem_cons_self _ _))
        have hstep : reconstructStep st acc v
            = simulateStep tt (riderMapOf problem.riders) sol acc v := by
          unfold reconstructStep simulateStep
          rw [hv]
        rw [hstep]
        exact ih (fun u hu => hsub u (List.mem_cons_of_mem _ hu)) _
  unfold reconstructFromCache simulate
  rw [hfold problem.vehicles (fun v hv => hv) ([], [], 0)]

/-- Every cached entry is the hash and simulation of some already-seen
itinerary for that vehicle. -/
def GoodState (tt : TravelTime) (problem : Problem) (sols : List Solution)
    (st : CacheState) : Prop :=
  ∀ v ∈ problem.vehicles,
    st v.id = none
      ∨ ∃ sol' ∈ sols, st v.id = some (hashItinerary (sol' v.id),
          simulateVehicle tt v (sol' v.id) (riderMapOf problem.riders))

lemma runCacheGo_spec (tt : TravelTime) (problem : Problem) (sols : List Solution)
    (hnodup : (problem.vehicles.map (·.id)).Nodup)
    (hinj : ∀ v ∈ problem.vehicles, ∀ s1 ∈ sols, ∀ s2 ∈ sols,
      hashItinerary (s1 v.id) = hashItinerary (s2 v.id) → s1 v.id = s2 v.id) :
    ∀ (pending : List Solution) (st : CacheState),
      (∀ s ∈ pending, s ∈ sols) → GoodState tt problem sols st →
      runCacheGo tt problem st pending = pending.map (simulate tt problem)
  | [], st, _, _ => rfl
  | sol :: pending, st, hsub, hgood => by
      have hsol : sol ∈ sols := hsub sol (List.mem_cons_self _ _)
      show (cacheSimulate tt problem st sol).1
            :: runCacheGo tt problem (cacheSimulate tt problem st sol).2 pending
          = simulate tt problem sol :: pending.map (simulate tt problem)
      by_cases hdirty : (problem.vehicles.any (fun v =>
          match st v.id with
          | none => true
          | some cached => cached.1 != hashItinerary (sol v.id))) = true
      · have hred : cacheSimulate tt problem st sol
            = (simulate tt problem sol,
               problem.vehicles.foldl
                 (cacheUpdateStep (simulate tt problem sol) sol) st) := by
          simp only [cacheSimulate]
          rw [if_pos hdirty]
        rw [hred]
        have hgood' : GoodState tt problem sols
            (problem.vehicles.foldl (cacheUpdateStep (simulate tt problem sol) sol) st) := by
          intro v hv
          right
          refine ⟨sol, hsol, ?_⟩
          exact cacheUpdate_sets (simulate tt problem sol) sol problem.vehicles st v _
            hnodup hv (lookup_simulate tt problem sol hnodup hv)
        rw [runCacheGo_spec tt problem sols hnodup hinj pending _
          (fun s hs => hsub s (List.mem_cons_of_mem _ hs)) hgood']
      · have hnod : ∀ v ∈ problem.vehicles,
            st v.id = some (hashItinerary (sol v.id),
              simulateVehicle tt v (sol v.id) (riderMapOf problem.riders)) := by
          intro v hv
          have hany : (problem.vehicles.any (fun v =>
              match st v.id with
              | none => true
              | some cached => cached.1 != hashItinerary (sol v.id))) = false :=
            Bool.eq_false_iff.mpr hdirty
          have hfalse := List.any_eq_false.mp hany v hv
          rcases hgood v hv with hnone | ⟨sol', hsol', hentry⟩
          · rw [hnone] at hfalse
            simp at hfalse
          · rw [hentry] at hfalse
            simp only [Bool.not_eq_true, bne_eq_false_iff_eq] at hfalse
            have hito : sol' v.id = sol v.id :=
              hinj v hv sol' hsol' sol hsol hfalse
            rw [hentry, hito]
        have hred : cacheSimulate tt problem st sol
            = (reconstructFromCache problem st, st) := by
          simp only [cacheSimulate]
          rw [if_neg hdirty]
        rw [hred]
        rw [reconstruct_eq tt problem sol st hnod]
        rw [runCacheGo_spec tt problem sols hnodup hinj pending st
          (fun s hs => hsub s (List.mem_cons_of_mem _ hs)) hgood]

/-- A rider whose id contains the cache's separator characters `:` and
`|`, so that `hashItinerary` collides with a different itinerary. -/
def riderH1 : Rider :=
  { id := "a:pickup|a", pickupNodeId := "n", dropoffNodeId := "n2"
    pickupWindow := none, dropoffWindow := none, maxTimeInVehicle := none
    accessibility := { needsWheelchair := false, seatEquivalent := 1, boardingTime := 0 } }

/-- A rider with the plain id `a`. -/
def riderH2 : Rider :=
  { id := "a", pickupNodeId := "n", dropoffNodeId := "n2"
    pickupWindow := none, dropoffWindow := none, maxTimeInVehicle := none
    accessibility := { needsWheelchair := false, seatEquivalent := 1, boardingTime := 0 } }

/-- The single vehicle of the hash-collision instance. -/
def vehH : Vehicle :=
  { id := "v", seatCount := 4, wheelchairCapacity := 0, startTime := 0, endTime := 1000
    startNodeId := "n", endNodeId := "n" }

/-- The hash-collision problem instance. -/
def problemH : Problem := { vehicles := [vehH], riders := [riderH1, riderH2] }

/-- All travel times zero. -/
def ttH : TravelTime := fun _ _ => 0

/-- One stop: pick up the rider named `a:pickup|a`. Its hash is
`a:pickup|a:pickup`. -/
def solH1 : Solution :=
  fun vid => if vid = "v" then [⟨"a:pickup|a", .pickup⟩] else []

/-- Two stops: pick up the rider named `a` twice. Its hash is also
`a:pickup|a:pickup`. -/
def solH2 : Solution :=
  fun vid => if vid = "v" then [⟨"a", .pickup⟩, ⟨"a", .pickup⟩] else []

/-- A placeholder vehicle result for out-of-range reads in concrete
statements. -/
def junkVSR : VehicleSimResult := ⟨[], ⟨"", 0, none⟩⟩

/-- A placeholder simulation result for out-of-range reads in concrete
statements. -/
def junkSimRes : SimulationResult := ⟨[], [], 0, 0, 0⟩

/-- Claim C3 as stated is false: `hashItinerary` joins `riderId:type`
tokens with `|`, and rider ids may themselves contain `:` and `|`, so
two different itineraries can share a hash. Then a later
`SimulationCache.simulate` call wrongly reports the cache clean and
reconstructs a stale result instead of simulating: on the concrete
instance the cached second answer has one stop for vehicle `v` where a
fresh simulation has two. -/
theorem claim_C3_counterexample :
    runCache ttH problemH [solH1, solH2]
      ≠ [simulate ttH problemH solH1, simulate ttH problemH solH2] := by
  intro h
  have h1 : (((runCache ttH problemH [solH1, solH2]).getD 1 junkSimRes).vehicleResults.getD
      0 ("", junkVSR)).2.stops.length = 1 := by
    exact rfl
  have h2 : ((([simulate ttH problemH solH1,
      simulate ttH problemH solH2]).getD 1 junkSimRes).vehicleResults.getD
      0 ("", junkVSR)).2.stops.length = 2 := by
    exact rfl
  rw [h] at h1
  rw [h2] at h1
  exact absurd h1 (by decide)

/-- Claim C3 (amended): for every problem with distinct vehicle ids and
every sequence of solutions on which `hashItinerary` does not collide
(two solutions of the sequence giving a vehicle the same hash give it
the same itinerary — guaranteed in particular whenever rider ids contain
neither `:` nor `|`), every `SimulationCache.simulate` call returns
exactly the result of a fresh `simulate` on that solution. The claim as
frozen, with no collision-freedom condition, is false: `hashItinerary`
is not injective for rider ids containing the separator characters (see
`claim_C3_counterexample`). -/
theorem claim_C3 (tt : TravelTime) (problem : Problem) (sols : List Solution)
    (hnodup : (problem.vehicles.map (·.id)).Nodup)
    (hinj : ∀ v ∈ problem.vehicles, ∀ s1 ∈ sols, ∀ s2 ∈ sols,
      hashItinerary (s1 v.id) = hashItinerary (s2 v.id) → s1 v.id = s2 v.id) :
    runCache tt problem sols = sols.map (simulate tt problem) := by
  unfold runCache
  exact runCacheGo_spec tt problem sols hnodup hinj sols _ (fun s hs => hs)
    (fun v _ => Or.inl rfl)

/-- The amended C3 theorem at a concrete collision-free input: one
vehicle, one solution. -/
theorem claim_C3_witness :
    runCache ttH problemH [solH1] = [simulate ttH problemH solH1] :=
  claim_C3 ttH problemH [solH1] (by simp [problemH, vehH]) (by
    intro v hv s1 hs1 s2 hs2 _
    rw [List.mem_singleton.mp hs1, List.mem_singleton.mp hs2])

/-! ## Binary-heap verification (for claim C8)

`priorityQueue.ts` maintains the standard implicit binary min-heap:
the parent of position `k > 0` is `(k-1)/2`, the children of `i` are
`2i+1` and `2i+2`. -/

/-- The min-heap ordering invariant: every non-root position is at least
its parent. -/
def heapInv (heap : List (ℚ × NodeId)) : Prop :=
  ∀ k, 0 < k → k < heap.length → (hget heap ((k - 1) / 2)).1 ≤ (hget heap k).1

lemma hget_eq_getElem (l : List (ℚ × NodeId)) (i : ℕ) (h : i < l.length) :
    hget l i = l[i] :=
  List.getD_eq_getElem l _ h

lemma hswap_length (l : List (ℚ × NodeId)) (i j : ℕ) :
    (hswap l i j).length = l.length := by
  simp [hswap]

lemma hget_set_eq (l : List (ℚ × NodeId)) (i : ℕ) (a : ℚ × NodeId)
    (h : i < l.length) : hget (l.set i a) i = a := by
  rw [hget_eq_getElem _ _ (by simpa using h)]
  simp [List.getElem_set]

lemma hget_set_ne (l : List (ℚ × NodeId)) (i j : ℕ) (a : ℚ × NodeId)
    (hne : i ≠ j) : hget (l.set i a) j = hget l j := by
  by_cases hj : j < l.length
  · rw [hget_eq_getElem _ _ (by simpa using hj), hget_eq_getElem _ _ hj]
    simp [List.getElem_set, hne]
  · unfold hget
    rw [List.getD_eq_default _ _ (by simp; omega), List.getD_eq_default _ _ (by omega)]

lemma hget_hswap_fst (l : List (ℚ × NodeId)) (i j : ℕ) (hi : i < l.length)
    (hne : j ≠ i) : hget (hswap l i j) i = hget l j := by
  unfold hswap
  rw [hget_set_ne _ _ _ _ hne]
  exact hget_set_eq _ _ _ (by simpa using hi)

lemma hget_hswap_snd (l : List (ℚ × NodeId)) (i j : ℕ) (hj : j < l.length) :
    hget (hswap l i j) j = hget l i := by
  unfold hswap
  exact hget_set_eq _ _ _ (by simpa using hj)

lemma hget_hswap_other (l : List (ℚ × NodeId)) (i j k : ℕ)
    (hki : k ≠ i) (hkj : k ≠ j) : hget (hswap l i j) k = hget l k := by
  unfold hswap
  rw [hget_set_ne _ _ _ _ (Ne.symm hkj), hget_set_ne _ _ _ _ (Ne.symm hki)]

lemma cons_set_perm (x : ℚ × NodeId) :
    ∀ (t : List (ℚ × NodeId)) (k : ℕ), k < t.length →
      (hget t k :: t.set k x).Perm (x :: t)
  | [], k, hk => absurd hk (by simp)
  | y :: t', 0, _ => by
      simpa [hget] using List.Perm.swap x y t'
  | y :: t', k + 1, hk => by
      have hk' : k < t'.length := by simpa using hk
      have h1 : (hget t' k :: y :: t'.set k x).Perm (y :: hget t' k :: t'.set k x) :=
        List.Perm.swap y (hget t' k) _
      have h2 : (y :: hget t' k :: t'.set k x).Perm (y :: x :: t') :=
        (cons_set_perm x t' k hk').cons y
      have h3 : (y :: x :: t').Perm (x :: y :: t') := List.Perm.swap x y t'
      have hg : hget (y :: t') (k + 1) = hget t' k := by
        simp [hget]
      rw [List.set_cons_succ, hg]
      exact (h1.trans h2).trans h3

lemma hswap_perm : ∀ (l : List (ℚ × NodeId)) (i j : ℕ),
    i < l.length → j < l.length → (hswap l i j).Perm l := by
  intro l i j hi hj
  rcases eq_or_ne i j with rfl | hij
  · have hself : l.set i (hget l i) = l := by
      apply List.ext_getElem (by simp)
      intro n h1 h2
      rw [List.getElem_set]
      by_cases hin : i = n
      · subst hin
        simp only [if_pos rfl]
        exact hget_eq_getElem l i h2
      · simp [hin]
    unfold hswap
    rw [List.set_set, hself]
  · have key : ∀ (t : List (ℚ × NodeId)) (a b : ℕ), a < b →
        a < t.length → b < t.length → (hswap t a b).Perm t := by
      intro t a b hab hat hbt
      induction t generalizing a b with
      | nil => cases hat
      | cons y t' ih =>
          match a, b with
          | 0, b' + 1 =>
              have hb' : b' < t'.length := by simpa using hbt
              unfold hswap
              rw [List.set_cons_zero]
              have hg1 : hget (y :: t') (b' + 1) = hget t' b' := by simp [hget]
              have hg2 : hget (y :: t') 0 = y := by simp [hget]
              rw [hg1, hg2, List.set_cons_succ]
              exact cons_set_perm y t' b' hb'
          | a' + 1, b' + 1 =>
              have ha' : a' < t'.length := by simpa using hat
              have hb' : b' < t'.length := by simpa using hbt
              have hr : hswap (y :: t') (a' + 1) (b' + 1) = y :: hswap t' a' b' := by
                unfold hswap
                have hg1 : hget (y :: t') (b' + 1) = hget t' b' := by simp [hget]
                have hg2 : hget (y :: t') (a' + 1) = hget t' a' := by simp [hget]
                rw [hg1, hg2, List.set_cons_succ, List.set_cons_succ]
              rw [hr]
              exact (ih a' b' (by omega) ha' hb').cons y
    rcases Nat.lt_or_ge i j with hlt | hge
    · exact key l i j hlt hi hj
    · have hlt : j < i := by omega
      have hcomm : hswap l i j = hswap l j i := by
        unfold hswap
        rw [List.set_comm _ _ _ (Ne.symm hij)]
      rw [hcomm]
      exact key l j i hlt hj hi

lemma heapInv_root_le (heap : List (ℚ × NodeId)) (hinv : heapInv heap) :
    ∀ k, k < heap.length → (hget heap 0).1 ≤ (hget heap k).1 := by
  intro k
  induction k using Nat.strong_induction_on with
  | _ k ih =>
      intro hk
      rcases Nat.eq_zero_or_pos k with rfl | hpos
      · exact le_refl _
      · have hp : (k - 1) / 2 < k := by omega
        exact le_trans (ih _ hp (lt_trans hp hk)) (hinv k hpos hk)

lemma mem_hget (heap : List (ℚ × NodeId)) (pr : ℚ × NodeId) (h : pr ∈ heap) :
    ∃ k, k < heap.length ∧ hget heap k = pr := by
  obtain ⟨k, hk, he⟩ := List.mem_iff_getElem.mp h
  exact ⟨k, hk, by rw [hget_eq_getElem _ _ hk, he]⟩

lemma heapInv_root_min (heap : List (ℚ × NodeId)) (hinv : heapInv heap)
    (pr : ℚ × NodeId) (h : pr ∈ heap) : (hget heap 0).1 ≤ pr.1 := by
  obtain ⟨k, hk, he⟩ := mem_hget heap pr h
  rw [← he]
  exact heapInv_root_le heap hinv k hk

/-- Sifting up from position `i` restores the heap invariant, given the
heap is valid everywhere except possibly at the edge into `i`, and the
element above the hole bounds the hole's children. The result is a
permutation of the input. -/
lemma bubbleUpGo_spec : ∀ (fuel i : ℕ) (heap : List (ℚ × NodeId)),
    i < heap.length → i < fuel →
    (∀ k, 0 < k → k < heap.length → k ≠ i →
      (hget heap ((k - 1) / 2)).1 ≤ (hget heap k).1) →
    (∀ c, (c = 2 * i + 1 ∨ c = 2 * i + 2) → c < heap.length → 0 < i →
      (hget heap ((i - 1) / 2)).1 ≤ (hget heap c).1) →
    (bubbleUpGo fuel heap i).Perm heap ∧ heapInv (bubbleUpGo fuel heap i)
  | 0, i, heap, _, hfuel, _, _ => absurd hfuel (by omega)
  | fuel + 1, 0, heap, _, _, hP1, _ => by
      refine ⟨List.Perm.refl _, ?_⟩
      intro k hk hklen
      exact hP1 k hk hklen (by omega)
  | fuel + 1, i + 1, heap, hlen, hfuel, hP1, hP2 => by
      by_cases hc : (hget heap (i / 2)).1 ≤ (hget heap (i + 1)).1
      · have hred : bubbleUpGo (fuel + 1) heap (i + 1) = heap := by
          show (if (hget heap (i / 2)).1 ≤ (hget heap (i + 1)).1 then heap
            else bubbleUpGo fuel (hswap heap (i / 2) (i + 1)) (i / 2)) = heap
          rw [if_pos hc]
        rw [hred]
        refine ⟨List.Perm.refl _, ?_⟩
        intro k hk hklen
        rcases eq_or_ne k (i + 1) with rfl | hne
        · have : (i + 1 - 1) / 2 = i / 2 := by omega
          rw [this]
          exact hc
        · exact hP1 k hk hklen hne
      · have hred : bubbleUpGo (fuel + 1) heap (i + 1)
            = bubbleUpGo fuel (hswap heap (i / 2) (i + 1)) (i / 2) := by
          show (if (hget heap (i / 2)).1 ≤ (hget heap (i + 1)).1 then heap
            else bubbleUpGo fuel (hswap heap (i / 2) (i + 1)) (i / 2))
            = bubbleUpGo fuel (hswap heap (i / 2) (i + 1)) (i / 2)
          rw [if_neg hc]
        rw [hred]
        have hlt : (hget heap (i + 1)).1 < (hget heap (i / 2)).1 :=
          lt_of_not_le hc
        have hplen : i / 2 < heap.length := by omega
        have hpne : i + 1 ≠ i / 2 := by omega
        have hswlen : (hswap heap (i / 2) (i + 1)).length = heap.length :=
          hswap_length _ _ _
        have hgp : hget (hswap heap (i / 2) (i + 1)) (i / 2) = hget heap (i + 1) :=
          hget_hswap_fst heap (i / 2) (i + 1) hplen hpne
        have hgc : hget (hswap heap (i / 2) (i + 1)) (i + 1) = hget heap (i / 2) :=
          hget_hswap_snd heap (i / 2) (i + 1) hlen
        have hgo : ∀ m, m ≠ i / 2 → m ≠ i + 1 →
            hget (hswap heap (i / 2) (i + 1)) m = hget heap m :=
          fun m h1 h2 => hget_hswap_other heap (i / 2) (i + 1) m h1 h2
        have hQ1 : ∀ k, 0 < k → k < (hswap heap (i / 2) (i + 1)).length →
            k ≠ i / 2 → (hget (hswap heap (i / 2) (i + 1)) ((k - 1) / 2)).1
              ≤ (hget (hswap heap (i / 2) (i + 1)) k).1 := by
          intro k hk hklen hkp
          rw [hswlen] at hklen
          rcases eq_or_ne k (i + 1) with rfl | hki
          · have hpar : (i + 1 - 1) / 2 = i / 2 := by omega
            rw [hpar, hgp, hgc]
            exact le_of_lt hlt
          · rcases eq_or_ne ((k - 1) / 2) (i / 2) with hkpar | hkpar1
            · rw [hkpar, hgp, hgo k hkp hki]
              exact le_trans (le_of_lt hlt) (by rw [← hkpar]; exact hP1 k hk hklen hki)
            · rcases eq_or_ne ((k - 1) / 2) (i + 1) with hkpar2 | hkpar2
              · rw [hkpar2, hgc, hgo k hkp hki]
                have hkform : k = 2 * (i + 1) + 1 ∨ k = 2 * (i + 1) + 2 := by omega
                have := hP2 k hkform hklen (by omega)
                have hpar : (i + 1 - 1) / 2 = i / 2 := by omega
                rw [hpar] at this
                exact this
              · rw [hgo _ hkpar1 hkpar2, hgo k hkp hki]
                exact hP1 k hk hklen hki
        have hQ2 : ∀ c, (c = 2 * (i / 2) + 1 ∨ c = 2 * (i / 2) + 2) →
            c < (hswap heap (i / 2) (i + 1)).length → 0 < i / 2 →
            (hget (hswap heap (i / 2) (i + 1)) ((i / 2 - 1) / 2)).1
              ≤ (hget (hswap heap (i / 2) (i + 1)) c).1 := by
          intro c hcform hclen hppos
          rw [hswlen] at hclen
          have hppne1 : (i / 2 - 1) / 2 ≠ i / 2 := by omega
          have hppne2 : (i / 2 - 1) / 2 ≠ i + 1 := by omega
          rw [hgo _ hppne1 hppne2]
          rcases eq_or_ne c (i + 1) with rfl | hci
          · rw [hgc]
            exact hP1 (i / 2) hppos hplen (by omega)
          · have hcp : c ≠ i / 2 := by omega
            rw [hgo c hcp hci]
            have hcpar : (c - 1) / 2 = i / 2 := by omega
            have h1 := hP1 c (by omega) hclen hci
            rw [hcpar] at h1
            exact le_trans (hP1 (i / 2) hppos hplen (by omega)) h1
        obtain ⟨hperm, hinv⟩ := bubbleUpGo_spec fuel (i / 2)
          (hswap heap (i / 2) (i + 1)) (by omega) (by omega) hQ1 hQ2
        exact ⟨hperm.trans (hswap_perm heap (i / 2) (i + 1) hplen hlen), hinv⟩

/-- `push` preserves the heap invariant and adds exactly the new entry. -/
lemma heapPush_spec (heap : List (ℚ × NodeId)) (v : NodeId) (p : ℚ)
    (hinv : heapInv heap) :
    (heapPush heap v p).Perm ((p, v) :: heap) ∧ heapInv (heapPush heap v p) := by
  unfold heapPush bubbleUp
  have hlen : heap.length < (heap ++ [(p, v)]).length := by simp
  have hP1 : ∀ k, 0 < k → k < (heap ++ [(p, v)]).length → k ≠ heap.length →
      (hget (heap ++ [(p, v)]) ((k - 1) / 2)).1 ≤ (hget (heap ++ [(p, v)]) k).1 := by
    intro k hk hklen hkne
    have hklt : k < heap.length := by
      simp at hklen
      omega
    have h1 : hget (heap ++ [(p, v)]) k = hget heap k := by
      unfold hget
      rw [List.getD_eq_getElem _ _ (by simpa using (by simp; omega : k < (heap ++ [(p, v)]).length)),
        List.getD_eq_getElem _ _ hklt, List.getElem_append_left hklt]
    have hplt : (k - 1) / 2 < heap.length := by omega
    have h2 : hget (heap ++ [(p, v)]) ((k - 1) / 2) = hget heap ((k - 1) / 2) := by
      unfold hget
      rw [List.getD_eq_getElem _ _ (by simp; omega),
        List.getD_eq_getElem _ _ hplt, List.getElem_append_left hplt]
    rw [h1, h2]
    exact hinv k hk hklt
  have hP2 : ∀ c, (c = 2 * heap.length + 1 ∨ c = 2 * heap.length + 2) →
      c < (heap ++ [(p, v)]).length → 0 < heap.length →
      (hget (heap ++ [(p, v)]) ((heap.length - 1) / 2)).1
        ≤ (hget (heap ++ [(p, v)]) c).1 := by
    intro c hcform hclen _
    simp at hclen
    omega
  obtain ⟨hperm, hinvr⟩ := bubbleUpGo_spec (heap.length + 1) heap.length
    (heap ++ [(p, v)]) (by simp) (by omega) hP1 hP2
  refine ⟨hperm.trans ?_, hinvr⟩
  have : (heap ++ [(p, v)]).Perm ((p, v) :: heap) := List.perm_append_singleton _ _
  exact this

/-- One sift-down swap: if `s` is the strictly smaller child of `i` and
also no larger than the other child, swapping re-establishes the
"heap except below the hole" shape at hole `s`. -/
lemma bubbleDown_step (heap : List (ℚ × NodeId)) (i s : ℕ)
    (hilen : i < heap.length) (hs_child : s = 2 * i + 1 ∨ s = 2 * i + 2)
    (hslen : s < heap.length) (hslt : (hget heap s).1 < (hget heap i).1)
    (hmin : ∀ o, (o = 2 * i + 1 ∨ o = 2 * i + 2) → o < heap.length →
      (hget heap s).1 ≤ (hget heap o).1)
    (hQ : ∀ k, 0 < k → k < heap.length → (k - 1) / 2 ≠ i →
      (hget heap ((k - 1) / 2)).1 ≤ (hget heap k).1)
    (hR : ∀ c, (c = 2 * i + 1 ∨ c = 2 * i + 2) → c < heap.length → 0 < i →
      (hget heap ((i - 1) / 2)).1 ≤ (hget heap c).1) :
    (∀ k, 0 < k → k < (hswap heap i s).length → (k - 1) / 2 ≠ s →
      (hget (hswap heap i s) ((k - 1) / 2)).1 ≤ (hget (hswap heap i s) k).1)
    ∧ (∀ c, (c = 2 * s + 1 ∨ c = 2 * s + 2) → c < (hswap heap i s).length →
        0 < s → (hget (hswap heap i s) ((s - 1) / 2)).1
          ≤ (hget (hswap heap i s) c).1) := by
  have his : i ≠ s := by omega
  have hgi : hget (hswap heap i s) i = hget heap s :=
    hget_hswap_fst heap i s hilen (Ne.symm his)
  have hgs : hget (hswap heap i s) s = hget heap i :=
    hget_hswap_snd heap i s hslen
  have hgo : ∀ m, m ≠ i → m ≠ s → hget (hswap heap i s) m = hget heap m :=
    fun m h1 h2 => hget_hswap_other heap i s m h1 h2
  have hswlen : (hswap heap i s).length = heap.length := hswap_length _ _ _
  have hspar : (s - 1) / 2 = i := by omega
  constructor
  · intro k hk hklen hkps
    rw [hswlen] at hklen
    rcases eq_or_ne k i with rfl | hki
    · have hipos : 0 < k := hk
      have hppi : (k - 1) / 2 ≠ k := by omega
      have hpps : (k - 1) / 2 ≠ s := hkps
      rw [hgo _ hppi hpps, hgi]
      exact hR s hs_child hslen hipos
    · rcases eq_or_ne k s with rfl | hks
      · rw [hspar, hgi, hgs]
        exact le_of_lt hslt
      · rcases eq_or_ne ((k - 1) / 2) i with hkpi | hkpi
        · have hkchild : k = 2 * i + 1 ∨ k = 2 * i + 2 := by omega
          rw [hkpi, hgi, hgo k hki hks]
          exact hmin k hkchild hklen
        · rw [hgo _ hkpi hkps, hgo k hki hks]
          exact hQ k hk hklen hkpi
  · intro c hcform hclen hspos
    rw [hswlen] at hclen
    have hci : c ≠ i := by omega
    have hcs : c ≠ s := by omega
    rw [hspar, hgi, hgo c hci hcs]
    have hcpar : (c - 1) / 2 = s := by omega
    have h1 := hQ c (by omega) hclen (by omega)
    rw [hcpar] at h1
    exact h1

/-- Sifting down from position `i` restores the heap invariant, given
the heap is valid except possibly at the edges out of `i`, and the
element above `i` bounds `i`'s children. The result is a permutation. -/
lemma bubbleDownGo_spec : ∀ (fuel : ℕ) (heap : List (ℚ × NodeId)) (i : ℕ),
    i < heap.length → heap.length ≤ fuel + i →
    (∀ k, 0 < k → k < heap.length → (k - 1) / 2 ≠ i →
      (hget heap ((k - 1) / 2)).1 ≤ (hget heap k).1) →
    (∀ c, (c = 2 * i + 1 ∨ c = 2 * i + 2) → c < heap.length → 0 < i →
      (hget heap ((i - 1) / 2)).1 ≤ (hget heap c).1) →
    (bubbleDownGo fuel heap i).Perm heap ∧ heapInv (bubbleDownGo fuel heap i)
  | 0, heap, i, hilen, hfuel, _, _ => absurd hfuel (by omega)
  | fuel + 1, heap, i, hilen, hfuel, hQ, hR => by
      by_cases h1 : 2 * i + 1 < heap.length ∧ (hget heap (2 * i + 1)).1 < (hget heap i).1
      · by_cases h2 : 2 * i + 2 < heap.length ∧
            (hget heap (2 * i + 2)).1 < (hget heap (2 * i + 1)).1
        · -- right child is the smallest
          have hred : bubbleDownGo (fuel + 1) heap i
              = bubbleDownGo fuel (hswap heap i (2 * i + 2)) (2 * i + 2) := by
            simp only [bubbleDownGo]
            simp only [if_pos h1, if_pos h2]
            rw [if_neg (by omega : ¬(2 * i + 2 = i))]
          rw [hred]
          have hslt : (hget heap (2 * i + 2)).1 < (hget heap i).1 :=
            lt_trans h2.2 h1.2
          have hmin : ∀ o, (o = 2 * i + 1 ∨ o = 2 * i + 2) → o < heap.length →
              (hget heap (2 * i + 2)).1 ≤ (hget heap o).1 := by
            intro o ho _
            rcases ho with rfl | rfl
            · exact le_of_lt h2.2
            · exact le_refl _
          obtain ⟨hQ', hR'⟩ := bubbleDown_step heap i (2 * i + 2) hilen
            (Or.inr rfl) h2.1 hslt hmin hQ hR
          obtain ⟨hperm, hinv⟩ := bubbleDownGo_spec fuel (hswap heap i (2 * i + 2))
            (2 * i + 2) (by rw [hswap_length]; exact h2.1)
            (by rw [hswap_length]; omega) hQ' hR'
          exact ⟨hperm.trans (hswap_perm heap i (2 * i + 2) hilen h2.1), hinv⟩
        · -- left child is the smallest
          have hred : bubbleDownGo (fuel + 1) heap i
              = bubbleDownGo fuel (hswap heap i (2 * i + 1)) (2 * i + 1) := by
            simp only [bubbleDownGo]
            simp only [if_pos h1, if_neg h2]
            rw [if_neg (by omega : ¬(2 * i + 1 = i))]
          rw [hred]
          have hmin : ∀ o, (o = 2 * i + 1 ∨ o = 2 * i + 2) → o < heap.length →
              (hget heap (2 * i + 1)).1 ≤ (hget heap o).1 := by
            intro o ho holen
            rcases ho with rfl | rfl
            · exact le_refl _
            · by_contra hlt
              exact h2 ⟨holen, lt_of_not_le hlt⟩
          obtain ⟨hQ', hR'⟩ := bubbleDown_step heap i (2 * i + 1) hilen
            (Or.inl rfl) h1.1 h1.2 hmin hQ hR
          obtain ⟨hperm, hinv⟩ := bubbleDownGo_spec fuel (hswap heap i (2 * i + 1))
            (2 * i + 1) (by rw [hswap_length]; exact h1.1)
            (by rw [hswap_length]; omega) hQ' hR'
          exact ⟨hperm.trans (hswap_perm heap i (2 * i + 1) hilen h1.1), hinv⟩
      · by_cases h2 : 2 * i + 2 < heap.length ∧
            (hget heap (2 * i + 2)).1 < (hget heap i).1
        · -- only the right child is smaller
          have hred : bubbleDownGo (fuel + 1) heap i
              = bubbleDownGo fuel (hswap heap i (2 * i + 2)) (2 * i + 2) := by
            simp only [bubbleDownGo]
            simp only [if_neg h1, if_pos h2]
            rw [if_neg (by omega : ¬(2 * i + 2 = i))]
          rw [hred]
          have hmin : ∀ o, (o = 2 * i + 1 ∨ o = 2 * i + 2) → o < heap.length →
              (hget heap (2 * i + 2)).1 ≤ (hget heap o).1 := by
            intro o ho holen
            rcases ho with rfl | rfl
            · have : (hget heap i).1 ≤ (hget heap (2 * i + 1)).1 := by
                by_contra hlt
                exact h1 ⟨holen, lt_of_not_le hlt⟩
              exact le_trans (le_of_lt h2.2) this
            · exact le_refl _
          obtain ⟨hQ', hR'⟩ := bubbleDown_step heap i (2 * i + 2) hilen
            (Or.inr rfl) h2.1 h2.2 hmin hQ hR
          obtain ⟨hperm, hinv⟩ := bubbleDownGo_spec fuel (hswap heap i (2 * i + 2))
            (2 * i + 2) (by rw [hswap_length]; exact h2.1)
            (by rw [hswap_length]; omega) hQ' hR'
          exact ⟨hperm.trans (hswap_perm heap i (2 * i + 2) hilen h2.1), hinv⟩
        · -- no child is smaller: already a heap
          have hred : bubbleDownGo (fuel + 1) heap i = heap := by
            simp only [bubbleDownGo]
            simp only [if_neg h1, if_neg h2]
            simp
          rw [hred]
          refine ⟨List.Perm.refl _, ?_⟩
          intro k hk hklen
          rcases eq_or_ne ((k - 1) / 2) i with hkpi | hkpi
          · have hkchild : k = 2 * i + 1 ∨ k = 2 * i + 2 := by omega
            rw [hkpi]
            rcases hkchild with rfl | rfl
            · by_contra hlt
              exact h1 ⟨hklen, lt_of_not_le hlt⟩
            · by_contra hlt
              exact h2 ⟨hklen, lt_of_not_le hlt⟩
          · exact hQ k hk hklen hkpi

/-- `pop` on a valid heap returns the root — a minimal entry — and
leaves a valid heap holding exactly the remaining entries. -/
lemma heapPop_spec (heap : List (ℚ × NodeId)) (entry : ℚ × NodeId)
    (rest : List (ℚ × NodeId)) (hinv : heapInv heap)
    (h : heapPop heap = some (entry, rest)) :
    ∃ t, heap = entry :: t ∧ rest.Perm t ∧ heapInv rest
      ∧ ∀ pr ∈ heap, entry.1 ≤ pr.1 := by
  match heap, h with
  | first :: t, h =>
      have hroot : (hget (first :: t) 0) = first := by simp [hget]
      have hmin : ∀ pr ∈ first :: t, first.1 ≤ pr.1 := by
        intro pr hpr
        have hm := heapInv_root_min (first :: t) hinv pr hpr
        rw [hroot] at hm
        exact hm
      rcases t with _ | ⟨y, t'⟩
      · have h' : (some (first, ([] : List (ℚ × NodeId))) : Option _)
            = some (entry, rest) := h
        obtain ⟨he, hr⟩ := Prod.mk.inj (Option.some_inj.mp h')
        subst he
        subst hr
        refine ⟨[], rfl, List.Perm.refl _, ?_, hmin⟩
        intro k hk hklen
        simp at hklen
      · have hlast : (first :: y :: t').getLast? =
              some ((first :: y :: t').getLast (by simp)) :=
            List.getLast?_eq_getLast _ (by simp)
        set last := (first :: y :: t').getLast (by simp) with hlastdef
        have hdrop : (first :: y :: t').dropLast = first :: (y :: t').dropLast := by
          simp [List.dropLast]
        have hbase : heapPop (first :: y :: t')
            = some (first, bubbleDown ((first :: (y :: t').dropLast).set 0 last) 0) := by
          unfold heapPop
          rw [hlast, hdrop]
        rw [hbase] at h
        obtain ⟨he, hr⟩ := Prod.mk.inj (Option.some_inj.mp h)
        subst he
        subst hr
        have hsetform : (first :: (y :: t').dropLast).set 0 last
            = last :: (y :: t').dropLast := by
          rw [List.set_cons_zero]
        have hQ : ∀ k, 0 < k → k < (last :: (y :: t').dropLast).length →
            (k - 1) / 2 ≠ 0 →
            (hget (last :: (y :: t').dropLast) ((k - 1) / 2)).1
              ≤ (hget (last :: (y :: t').dropLast) k).1 := by
          intro k hk hklen hkp
          have hpget : ∀ m, 0 < m → m < (last :: (y :: t').dropLast).length →
              hget (last :: (y :: t').dropLast) m = hget (first :: y :: t') m := by
            intro m hm hmlen
            have hm1 : m - 1 < (y :: t').dropLast.length := by
              simp at hmlen ⊢
              omega
            have hml : m < (first :: y :: t').length := by
              simp at hmlen ⊢
              omega
            rw [hget_eq_getElem _ _ hmlen, hget_eq_getElem _ _ hml]
            obtain ⟨m', rfl⟩ : ∃ m', m = m' + 1 := ⟨m - 1, by omega⟩
            rw [List.getElem_cons_succ, List.getElem_cons_succ,
              List.getElem_dropLast]
          rw [hpget k hk hklen,
            hpget ((k - 1) / 2) (by omega) (by simp at hklen ⊢; omega)]
          exact hinv k hk (by simp at hklen ⊢; omega)
        have hR : ∀ c, (c = 2 * 0 + 1 ∨ c = 2 * 0 + 2) →
            c < (last :: (y :: t').dropLast).length → 0 < 0 →
            (hget (last :: (y :: t').dropLast) ((0 - 1) / 2)).1
              ≤ (hget (last :: (y :: t').dropLast) c).1 := by
          intro c _ _ h0
          exact absurd h0 (by omega)
        have hperm0 : (last :: (y :: t').dropLast).Perm (y :: t') := by
          have hsplit : (y :: t').dropLast ++ [last] = y :: t' := by
            rw [hlastdef]
            have hgl : (first :: y :: t').getLast (by simp)
                = (y :: t').getLast (by simp) := List.getLast_cons _
            rw [hgl]
            exact List.dropLast_append_getLast _
          have hp := (List.perm_append_singleton last ((y :: t').dropLast)).symm
          rw [hsplit] at hp
          exact hp
        obtain ⟨hperm, hinvr⟩ := bubbleDownGo_spec
          ((last :: (y :: t').dropLast).length + 1) (last :: (y :: t').dropLast) 0
          (by simp) (by omega) hQ hR
        have hbd : bubbleDown ((first :: (y :: t').dropLast).set 0 last) 0
            = bubbleDownGo ((last :: (y :: t').dropLast).length + 1)
                (last :: (y :: t').dropLast) 0 := by
          rw [hsetform]
          rfl
        refine ⟨y :: t', rfl, ?_, ?_, hmin⟩
        · rw [hbd]
          exact hperm.trans hperm0
        · rw [hbd]
          exact hinvr

/-! ## A* optimality development (claim C8) -/

/-- `edge` joins `u` and `v` (in either stored orientation). -/
def edgeEnds (edge : CityEdge) (u v : NodeId) : Prop :=
  (edge.from' = u ∧ edge.to' = v) ∨ (edge.from' = v ∧ edge.to' = u)

/-- Edge-wise consistency of a heuristic: crossing any stored edge
changes `h` by at most the edge's cost, in both directions. -/
def consistent (city : City) (h : NodeId → ℚ) : Prop :=
  ∀ p ∈ city.edges, h p.2.from' ≤ p.2.cost + h p.2.to'
    ∧ h p.2.to' ≤ p.2.cost + h p.2.from'

/-- Every stored edge id is listed in the adjacency lists of both of its
endpoints (the city generators maintain this). -/
def adjComplete (city : City) : Prop :=
  ∀ p ∈ city.edges, p.1 ∈ (mlookup city.adjacency p.2.from').getD []
    ∧ p.1 ∈ (mlookup city.adjacency p.2.to').getD []

lemma mlookup_mem {β : Type} {m : List (String × β)} {k : String} {v : β}
    (h : mlookup m k = some v) : ∃ pr ∈ m, pr.1 = k ∧ pr.2 = v := by
  unfold mlookup at h
  obtain ⟨pr, hfind, hsnd⟩ := Option.map_eq_some'.mp h
  refine ⟨pr, List.mem_of_find?_eq_some hfind, ?_, hsnd⟩
  have := List.find?_some hfind
  simpa using this

lemma walk_cast {city : City} {a b : NodeId} {c c' : ℚ}
    (h : Walk city a b c) (he : c = c') : Walk city a b c' := he ▸ h

lemma walk_append {city : City} {a b d : NodeId} {c c' : ℚ}
    (h1 : Walk city a b c) (h2 : Walk city b d c') : Walk city a d (c + c') := by
  induction h1 with
  | nil n => exact walk_cast h2 (by ring)
  | cons eid edge mem ends tail ih =>
      exact walk_cast (Walk.cons eid edge mem ends (ih h2)) (by ring)

lemma walk_nonneg {city : City} (hnn : ∀ p ∈ city.edges, 0 ≤ p.2.cost) :
    ∀ {a b : NodeId} {c : ℚ}, Walk city a b c → 0 ≤ c := by
  intro a b c hw
  induction hw with
  | nil n => exact le_refl 0
  | cons eid edge mem ends tail ih =>
      obtain ⟨pr, hpr, _, hsnd⟩ := mlookup_mem mem
      have := hnn pr hpr
      rw [hsnd] at this
      linarith

lemma consistent_walk {city : City} {h : NodeId → ℚ} (hcons : consistent city h) :
    ∀ {a b : NodeId} {c : ℚ}, Walk city a b c → h a ≤ c + h b := by
  intro a b c hw
  induction hw with
  | nil n => simp
  | cons eid edge mem ends tail ih =>
      obtain ⟨pr, hpr, _, hsnd⟩ := mlookup_mem mem
      obtain ⟨h1, h2⟩ := hcons pr hpr
      rw [hsnd] at h1 h2
      rcases ends with ⟨hfu, htv⟩ | ⟨hfv, htu⟩
      · rw [hfu, htv] at h1
        linarith
      · rw [hfv, htu] at h2
        linarith

/-- The A* loop invariant: the open heap is a valid min-heap whose
entries are sound (`g + h ≤` priority against the current `gScore`);
visited ("settled") nodes carry a `gScore` no larger than ANY walk from
the start; every unvisited node with a `gScore` has a matching open
entry; expanded nodes bound their unvisited neighbours' `gScore`s; and
every walk from the start to an unvisited node passes a budget-respecting
open witness. The end node is never settled. -/
def OpenSound (h : NodeId → ℚ) (st : AState) : Prop :=
  ∀ pr ∈ st.openSet, ∃ g, st.gScore pr.2 = some g ∧ g + h pr.2 ≤ pr.1

def OpenCover (h : NodeId → ℚ) (st : AState) : Prop :=
  ∀ n, n ∉ st.visited → ∀ g, st.gScore n = some g →
    ∃ p, (p, n) ∈ st.openSet ∧ p ≤ g + h n

structure AInv (city : City) (h : NodeId → ℚ) (startId endId : NodeId)
    (st : AState) : Prop where
  hinv : heapInv st.openSet
  vend : endId ∉ st.visited
  sound : OpenSound h st
  settled : ∀ x ∈ st.visited, ∃ gx, st.gScore x = some gx ∧
    ∀ c, Walk city startId x c → gx ≤ c
  openCov : OpenCover h st
  edgeBound : ∀ x ∈ st.visited, ∀ gx, st.gScore x = some gx →
    ∀ eid ∈ (mlookup city.adjacency x).getD [], ∀ edge,
      mlookup city.edges eid = some edge → ∀ nb, edgeEnds edge x nb →
      nb ∉ st.visited → ∃ gn, st.gScore nb = some gn ∧ gn ≤ gx + edge.cost
  cover : ∀ w, w ∉ st.visited → ∀ c, Walk city startId w c →
    ∃ y c1 c2 p, (p, y) ∈ st.openSet ∧ y ∉ st.visited ∧ Walk city y w c2
      ∧ Walk city startId y c1 ∧ c = c1 + c2 ∧ p ≤ c1 + h y

lemma edgeEnds_neighbor (edge : CityEdge) (cur nb : NodeId)
    (hends : edgeEnds edge cur nb) :
    (if edge.from' = cur then edge.to' else edge.from') = nb := by
  rcases hends with ⟨h1, h2⟩ | ⟨h1, h2⟩
  · rw [if_pos h1]
    exact h2
  · by_cases hc : edge.from' = cur
    · rw [if_pos hc]
      exact h2.trans (hc.symm.trans h1)
    · rw [if_neg hc]
      exact h1

/-- The two possible outcomes of one neighbour-loop iteration: the state
is unchanged, or exactly one unvisited neighbour is relaxed and pushed. -/
lemma expandEdge_cases (city : City) (h : NodeId → ℚ) (cur : NodeId)
    (st : AState) (eid : EdgeId) :
    expandEdge city h cur st eid = st
    ∨ ∃ edge nb tG, mlookup city.edges eid = some edge
        ∧ (if edge.from' = cur then edge.to' else edge.from') = nb
        ∧ nb ∉ st.visited
        ∧ tG = (st.gScore cur).getD 0 + edge.cost
        ∧ (∀ g0, st.gScore nb = some g0 → tG < g0)
        ∧ expandEdge city h cur st eid =
            { openSet := heapPush st.openSet nb (tG + h nb)
              cameFrom := fun n => if n = nb then some cur else st.cameFrom n
              gScore := fun n => if n = nb then some tG else st.gScore n
              fScore := fun n => if n = nb then some (tG + h nb) else st.fScore n
              visited := st.visited } := by
  rcases hm : mlookup city.edges eid with _ | edge
  · left
    unfold expandEdge
    rw [hm]
  · by_cases hvis : (if edge.from' = cur then edge.to' else edge.from') ∈ st.visited
    · left
      unfold expandEdge
      rw [hm]
      simp [hvis]
    · rcases hg : st.gScore (if edge.from' = cur then edge.to' else edge.from')
          with _ | g0
      · right
        refine ⟨edge, _, _, rfl, rfl, hvis, rfl, ?_, ?_⟩
        · intro g0 hg0
          rw [hg] at hg0
          cases hg0
        · unfold expandEdge
          rw [hm]
          simp [hvis, hg]
      · by_cases hbetter : (st.gScore cur).getD 0 + edge.cost < g0
        · right
          refine ⟨edge, _, _, rfl, rfl, hvis, rfl, ?_, ?_⟩
          · intro g1 hg1
            rw [hg] at hg1
            rw [← Option.some_inj.mp hg1]
            exact hbetter
          · unfold expandEdge
            rw [hm]
            simp [hvis, hg, hbetter]
        · left
          unfold expandEdge
          rw [hm]
          simp [hvis, hg, hbetter]

lemma expandEdge_visited (city : City) (h : NodeId → ℚ) (cur : NodeId)
    (st : AState) (eid : EdgeId) :
    (expandEdge city h cur st eid).visited = st.visited := by
  rcases expandEdge_cases city h cur st eid with he | ⟨_, _, _, _, _, _, _, _, he⟩
    <;> rw [he]

lemma expandEdge_gsLE (city : City) (h : NodeId → ℚ) (cur : NodeId)
    (st : AState) (eid : EdgeId) :
    ∀ n g, st.gScore n = some g →
      ∃ g', (expandEdge city h cur st eid).gScore n = some g' ∧ g' ≤ g := by
  intro n g hng
  rcases expandEdge_cases city h cur st eid with he | ⟨edge, nb, tG, _, _, _, _, hlt, he⟩
  · exact ⟨g, by rw [he]; exact hng, le_refl g⟩
  · rw [he]
    by_cases hn : n = nb
    · subst hn
      exact ⟨tG, by simp, le_of_lt (hlt g hng)⟩
    · exact ⟨g, by simpa [hn] using hng, le_refl g⟩

lemma expandEdge_gs_visited (city : City) (h : NodeId → ℚ) (cur : NodeId)
    (st : AState) (eid : EdgeId) :
    ∀ x ∈ st.visited, (expandEdge city h cur st eid).gScore x = st.gScore x := by
  intro x hx
  rcases expandEdge_cases city h cur st eid with he | ⟨edge, nb, tG, _, _, hnvis, _, _, he⟩
  · rw [he]
  · rw [he]
    have hxn : x ≠ nb := fun hxe => hnvis (hxe ▸ hx)
    simp [hxn]

lemma expandEdge_heapInv (city : City) (h : NodeId → ℚ) (cur : NodeId)
    (st : AState) (eid : EdgeId) (hheap : heapInv st.openSet) :
    heapInv (expandEdge city h cur st eid).openSet := by
  rcases expandEdge_cases city h cur st eid with he | ⟨edge, nb, tG, _, _, _, _, _, he⟩
  · rw [he]
    exact hheap
  · rw [he]
    exact (heapPush_spec st.openSet nb (tG + h nb) hheap).2

lemma expandEdge_openMono (city : City) (h : NodeId → ℚ) (cur : NodeId)
    (st : AState) (eid : EdgeId) (hheap : heapInv st.openSet) :
    ∀ pr ∈ st.openSet, pr ∈ (expandEdge city h cur st eid).openSet := by
  intro pr hpr
  rcases expandEdge_cases city h cur st eid with he | ⟨edge, nb, tG, _, _, _, _, _, he⟩
  · rw [he]
    exact hpr
  · rw [he]
    have hperm := (heapPush_spec st.openSet nb (tG + h nb) hheap).1
    exact hperm.mem_iff.mpr (List.mem_cons_of_mem _ hpr)

lemma expandEdge_sound (city : City) (h : NodeId → ℚ) (cur : NodeId)
    (st : AState) (eid : EdgeId) (hheap : heapInv st.openSet)
    (hsound : OpenSound h st) :
    OpenSound h (expandEdge city h cur st eid) := by
  rcases expandEdge_cases city h cur st eid with he | ⟨edge, nb, tG, _, _, _, _, hlt, he⟩
  · rw [he]
    exact hsound
  · rw [he]
    intro pr hpr
    have hperm := (heapPush_spec st.openSet nb (tG + h nb) hheap).1
    rcases List.mem_cons.mp (hperm.mem_iff.mp hpr) with rfl | hold
    · exact ⟨tG, by simp, le_refl _⟩
    · obtain ⟨g, hg, hle⟩ := hsound pr hold
      by_cases hn : pr.2 = nb
      · refine ⟨tG, by simp [hn], ?_⟩
        have hlt' := hlt g (hn ▸ hg)
        rw [hn] at hle
        rw [hn]
        linarith
      · exact ⟨g, by simpa [hn] using hg, hle⟩

lemma expandEdge_openCov (city : City) (h : NodeId → ℚ) (cur : NodeId)
    (st : AState) (eid : EdgeId) (hheap : heapInv st.openSet)
    (hcov : OpenCover h st) :
    OpenCover h (expandEdge city h cur st eid) := by
  rcases expandEdge_cases city h cur st eid with he | ⟨edge, nb, tG, _, _, _, _, _, he⟩
  · rw [he]
    exact hcov
  · rw [he]
    intro n hn g hg
    have hperm := (heapPush_spec st.openSet nb (tG + h nb) hheap).1
    by_cases hnb : n = nb
    · subst hnb
      have hgt : tG = g := by
        simpa using hg
      refine ⟨tG + h n, hperm.mem_iff.mpr (List.mem_cons_self _ _), by rw [← hgt]⟩
    · have hg' : st.gScore n = some g := by
        simpa [hnb] using hg
      obtain ⟨p, hpmem, hple⟩ := hcov n hn g hg'
      exact ⟨p, hperm.mem_iff.mpr (List.mem_cons_of_mem _ hpmem), hple⟩

lemma expandEdge_newBound (city : City) (h : NodeId → ℚ) (cur : NodeId)
    (st : AState) (eid : EdgeId) (gcur : ℚ) (hgcur : st.gScore cur = some gcur)
    (edge : CityEdge) (hm : mlookup city.edges eid = some edge)
    (nb : NodeId) (hends : edgeEnds edge cur nb) (hnvis : nb ∉ st.visited) :
    ∃ gn, (expandEdge city h cur st eid).gScore nb = some gn
      ∧ gn ≤ gcur + edge.cost := by
  have hnbeq := edgeEnds_neighbor edge cur nb hends
  rcases hg : st.gScore nb with _ | g0
  · unfold expandEdge
    rw [hm]
    simp only [hnbeq]
    simp [hnvis, hg, hgcur]
  · by_cases hbetter : (st.gScore cur).getD 0 + edge.cost < g0
    · unfold expandEdge
      rw [hm]
      simp only [hnbeq]
      rw [hgcur] at hbetter
      simp only [Option.getD_some] at hbetter
      simp [hnvis, hg, hbetter, hgcur]
    · unfold expandEdge
      rw [hm]
      simp only [hnbeq]
      simp [hnvis, hg, hbetter]
      rw [hgcur] at hbetter
      simpa using le_of_not_lt hbetter

/-- Folding the neighbour loop over any list of edge ids: the visited
set and settled `gScore`s are untouched, the heap stays valid and sound,
`gScore`s only improve, open entries persist, and every processed edge
leaves its unvisited endpoint's `gScore` within the relaxed bound. -/
lemma expand_fold_facts (city : City) (h : NodeId → ℚ) (cur : NodeId) :
    ∀ (l : List EdgeId) (st : AState) (gcur : ℚ),
      cur ∈ st.visited → st.gScore cur = some gcur →
      heapInv st.openSet → OpenSound h st → OpenCover h st →
      ((l.foldl (expandEdge city h cur) st).visited = st.visited
      ∧ (l.foldl (expandEdge city h cur) st).gScore cur = some gcur
      ∧ heapInv (l.foldl (expandEdge city h cur) st).openSet
      ∧ OpenSound h (l.foldl (expandEdge city h cur) st)
      ∧ OpenCover h (l.foldl (expandEdge city h cur) st)
      ∧ (∀ n g, st.gScore n = some g →
          ∃ g', (l.foldl (expandEdge city h cur) st).gScore n = some g' ∧ g' ≤ g)
      ∧ (∀ x ∈ st.visited, (l.foldl (expandEdge city h cur) st).gScore x = st.gScore x)
      ∧ (∀ pr ∈ st.openSet, pr ∈ (l.foldl (expandEdge city h cur) st).openSet)
      ∧ (∀ eid ∈ l, ∀ edge, mlookup city.edges eid = some edge →
          ∀ nb, edgeEnds edge cur nb → nb ∉ st.visited →
          ∃ gn, (l.foldl (expandEdge city h cur) st).gScore nb = some gn
            ∧ gn ≤ gcur + edge.cost))
  | [], st, gcur, hv, hg, hh, hs, hc => by
      refine ⟨rfl, hg, hh, hs, hc, ?_, ?_, ?_, ?_⟩
      · intro n g hng
        exact ⟨g, hng, le_refl g⟩
      · intro x _
        rfl
      · intro pr hpr
        exact hpr
      · intro eid heid
        cases heid
  | e :: l', st, gcur, hv, hg, hh, hs, hc => by
      have hvis' : (expandEdge city h cur st e).visited = st.visited :=
        expandEdge_visited city h cur st e
      have hv' : cur ∈ (expandEdge city h cur st e).visited := by
        rw [hvis']
        exact hv
      have hg' : (expandEdge city h cur st e).gScore cur = some gcur := by
        rw [expandEdge_gs_visited city h cur st e cur hv]
        exact hg
      have hh' : heapInv (expandEdge city h cur st e).openSet :=
        expandEdge_heapInv city h cur st e hh
      have hs' : OpenSound h (expandEdge city h cur st e) :=
        expandEdge_sound city h cur st e hh hs
      have hc' : OpenCover h (expandEdge city h cur st e) :=
        expandEdge_openCov city h cur st e hh hc
      obtain ⟨ih1, ih2, ih3, ih4, ih5, ih6, ih7, ih8, ih9⟩ :=
        expand_fold_facts city h cur l' (expandEdge city h cur st e) gcur
          hv' hg' hh' hs' hc'
      rw [List.foldl_cons]
      refine ⟨by rw [ih1, hvis'], ih2, ih3, ih4, ih5, ?_, ?_, ?_, ?_⟩
      · intro n g hng
        obtain ⟨g1, hg1, hle1⟩ := expandEdge_gsLE city h cur st e n g hng
        obtain ⟨g2, hg2, hle2⟩ := ih6 n g1 hg1
        exact ⟨g2, hg2, le_trans hle2 hle1⟩
      · intro x hx
        rw [ih7 x (by rw [hvis']; exact hx),
          expandEdge_gs_visited city h cur st e x hx]
      · intro pr hpr
        exact ih8 pr (expandEdge_openMono city h cur st e hh pr hpr)
      · intro eid heid edge hm nb hends hnvis
        rcases List.mem_cons.mp heid with rfl | heid'
        · obtain ⟨gn, hgn, hgnle⟩ :=
            expandEdge_newBound city h cur st eid gcur hg edge hm nb hends hnvis
          obtain ⟨gn', hgn', hgnle'⟩ := ih6 nb gn hgn
          exact ⟨gn', hgn', le_trans hgnle' hgnle⟩
        · exact ih9 eid heid' edge hm nb hends (by rw [hvis']; exact hnvis)

/-- Walk-cover recovery: any walk from a settled node `v` (whose
`gScore` is within budget `c1`) to an unvisited node `w` passes a
budget-respecting open witness — the first unvisited node along it. -/
lemma cover_step (city : City) (h : NodeId → ℚ) (startId : NodeId) (st : AState)
    (hadj : adjComplete city)
    (hsettled : ∀ x ∈ st.visited, ∃ gx, st.gScore x = some gx ∧
      ∀ c, Walk city startId x c → gx ≤ c)
    (hcov : OpenCover h st)
    (hedgeB : ∀ x ∈ st.visited, ∀ gx, st.gScore x = some gx →
      ∀ eid ∈ (mlookup city.adjacency x).getD [], ∀ edge,
        mlookup city.edges eid = some edge → ∀ nb, edgeEnds edge x nb →
        nb ∉ st.visited → ∃ gn, st.gScore nb = some gn ∧ gn ≤ gx + edge.cost) :
    ∀ {v w : NodeId} {c2 : ℚ}, Walk city v w c2 →
      ∀ c1 gv, v ∈ st.visited → w ∉ st.visited →
      st.gScore v = some gv → gv ≤ c1 → Walk city startId v c1 →
      ∃ y c1' c2' p, (p, y) ∈ st.openSet ∧ y ∉ st.visited ∧ Walk city y w c2'
        ∧ Walk city startId y c1' ∧ c1 + c2 = c1' + c2' ∧ p ≤ c1' + h y := by
  intro v w c2 hW
  induction hW with
  | nil n =>
      intro c1 gv hv hw _ _ _
      exact absurd hv hw
  | @cons u z w rest eid edge mem ends tail ih =>
      intro c1 gv hu hw hgu hgule hWsu
      obtain ⟨pr, hpr, hpr1, hpr2⟩ := mlookup_mem mem
      have headj := hadj pr hpr
      rw [hpr1, hpr2] at headj
      have heid_u : eid ∈ (mlookup city.adjacency u).getD [] := by
        rcases ends with ⟨h1, _⟩ | ⟨_, h2⟩
        · rw [← h1]
          exact headj.1
        · rw [← h2]
          exact headj.2
      have hWz : Walk city startId z (c1 + edge.cost) := by
        have hap := walk_append hWsu (Walk.cons eid edge mem ends (Walk.nil z))
        exact walk_cast hap (by ring)
      by_cases hzv : z ∈ st.visited
      · obtain ⟨gz, hgz, hbound⟩ := hsettled z hzv
        have hgzle : gz ≤ c1 + edge.cost := hbound _ hWz
        obtain ⟨y, c1', c2', p, hy1, hy2, hy3, hy4, hy5, hy6⟩ :=
          ih (c1 + edge.cost) gz hzv hw hgz hgzle hWz
        refine ⟨y, c1', c2', p, hy1, hy2, hy3, hy4, ?_, hy6⟩
        rw [← add_assoc]
        exact hy5
      · obtain ⟨gn, hgn, hgnle⟩ := hedgeB u hu gv hgu eid heid_u edge mem z ends hzv
        obtain ⟨p, hpmem, hple⟩ := hcov z hzv gn hgn
        refine ⟨z, c1 + edge.cost, rest, p, hpmem, hzv, tail, hWz,
          by rw [← add_assoc], ?_⟩
        linarith

/-- Discarding a stale pop (already-visited node) keeps the invariant. -/
lemma inv_skip (city : City) (h : NodeId → ℚ) (startId endId : NodeId)
    (st : AState) (p0 : ℚ) (cur : NodeId) (rest : List (ℚ × NodeId))
    (hinv : AInv city h startId endId st)
    (hpop : heapPop st.openSet = some ((p0, cur), rest))
    (hcv : cur ∈ st.visited) :
    AInv city h startId endId { st with openSet := rest } := by
  obtain ⟨t, hheq, hperm, hinvr, _⟩ :=
    heapPop_spec st.openSet (p0, cur) rest hinv.hinv hpop
  have hsub : ∀ pr ∈ rest, pr ∈ st.openSet := by
    intro pr hpr
    rw [hheq]
    exact List.mem_cons_of_mem _ (hperm.mem_iff.mp hpr)
  have hkeep : ∀ (q : ℚ) (n : NodeId), (q, n) ∈ st.openSet → n ≠ cur →
      (q, n) ∈ rest := by
    intro q n hmem hne
    rw [hheq] at hmem
    rcases List.mem_cons.mp hmem with he | ht
    · exact absurd (congrArg Prod.snd he) hne
    · exact hperm.mem_iff.mpr ht
  refine ⟨hinvr, hinv.vend, ?_, hinv.settled, ?_, hinv.edgeBound, ?_⟩
  · intro pr hpr
    exact hinv.sound pr (hsub pr hpr)
  · intro n hn g hg
    obtain ⟨p, hpmem, hple⟩ := hinv.openCov n hn g hg
    have hne : n ≠ cur := fun he => hn (he ▸ hcv)
    exact ⟨p, hkeep p n hpmem hne, hple⟩
  · intro w hwv c hW
    obtain ⟨y, c1, c2, p, hy1, hy2, hy3, hy4, hy5, hy6⟩ := hinv.cover w hwv c hW
    have hne : y ≠ cur := fun he => hy2 (he ▸ hcv)
    exact ⟨y, c1, c2, p, hkeep p y hy1 hne, hy2, hy3, hy4, hy5, hy6⟩

/-- Settling and expanding a freshly popped node keeps the invariant:
the popped node's `gScore` is optimal (via the cover witness, root
minimality and heuristic consistency), and all other components are
restored by the fold facts and the walk-cover recovery lemma. -/
lemma inv_expand (city : City) (h : NodeId → ℚ) (startId endId : NodeId)
    (st : AState) (p0 : ℚ) (cur : NodeId) (rest : List (ℚ × NodeId))
    (hcons : consistent city h) (hadj : adjComplete city)
    (hinv : AInv city h startId endId st)
    (hpop : heapPop st.openSet = some ((p0, cur), rest))
    (hncv : cur ∉ st.visited) (hne : cur ≠ endId) :
    AInv city h startId endId
      (((mlookup city.adjacency cur).getD []).foldl (expandEdge city h cur)
        { st with openSet := rest, visited := cur :: st.visited }) := by
  obtain ⟨t, hheq, hperm, hinvr, hmin⟩ :=
    heapPop_spec st.openSet (p0, cur) rest hinv.hinv hpop
  obtain ⟨gcur, hgcur, hgcur_le⟩ :=
    hinv.sound (p0, cur) (by rw [hheq]; exact List.mem_cons_self _ _)
  have hsub : ∀ pr ∈ rest, pr ∈ st.openSet := by
    intro pr hpr
    rw [hheq]
    exact List.mem_cons_of_mem _ (hperm.mem_iff.mp hpr)
  have hkeep : ∀ (q : ℚ) (n : NodeId), (q, n) ∈ st.openSet → n ≠ cur →
      (q, n) ∈ rest := by
    intro q n hmem hne'
    rw [hheq] at hmem
    rcases List.mem_cons.mp hmem with he | ht
    · exact absurd (congrArg Prod.snd he) hne'
    · exact hperm.mem_iff.mpr ht
  have hAcur : ∀ c, Walk city startId cur c → gcur ≤ c := by
    intro c hW
    obtain ⟨y, c1, c2, p, hy1, hy2, hy3, hy4, hy5, hy6⟩ :=
      hinv.cover cur hncv c hW
    have hp0p : p0 ≤ p := hmin (p, y) hy1
    have hcw := consistent_walk hcons hy3
    linarith
  have hcur1 : cur ∈ ({ st with openSet := rest, visited := cur :: st.visited }
      : AState).visited := List.mem_cons_self _ _
  have hg1 : ({ st with openSet := rest, visited := cur :: st.visited }
      : AState).gScore cur = some gcur := hgcur
  have hh1 : heapInv ({ st with openSet := rest, visited := cur :: st.visited }
      : AState).openSet := hinvr
  have hs1 : OpenSound h { st with openSet := rest, visited := cur :: st.visited } := by
    intro pr hpr
    exact hinv.sound pr (hsub pr hpr)
  have hc1 : OpenCover h { st with openSet := rest, visited := cur :: st.visited } := by
    intro n hn g hg
    have hn' : n ≠ cur ∧ n ∉ st.visited := by
      constructor
      · intro he
        exact hn (he ▸ List.mem_cons_self _ _)
      · intro hmem
        exact hn (List.mem_cons_of_mem _ hmem)
    obtain ⟨p, hpmem, hple⟩ := hinv.openCov n hn'.2 g hg
    exact ⟨p, hkeep p n hpmem hn'.1, hple⟩
  obtain ⟨f1, f2, f3, f4, f5, f6, f7, f8, f9⟩ :=
    expand_fold_facts city h cur ((mlookup city.adjacency cur).getD [])
      { st with openSet := rest, visited := cur :: st.visited } gcur
      hcur1 hg1 hh1 hs1 hc1
  have hsettled2 : ∀ x ∈ (((mlookup city.adjacency cur).getD []).foldl
        (expandEdge city h cur)
        { st with openSet := rest, visited := cur :: st.visited }).visited,
      ∃ gx, (((mlookup city.adjacency cur).getD []).foldl (expandEdge city h cur)
        { st with openSet := rest, visited := cur :: st.visited }).gScore x = some gx
        ∧ ∀ c, Walk city startId x c → gx ≤ c := by
    intro x hx
    rw [f1] at hx
    rcases List.mem_cons.mp hx with rfl | hx'
    · exact ⟨gcur, f2, hAcur⟩
    · obtain ⟨gx, hgx, hb⟩ := hinv.settled x hx'
      refine ⟨gx, ?_, hb⟩
      rw [f7 x (List.mem_cons_of_mem _ hx')]
      exact hgx
  have hedgeB2 : ∀ x ∈ (((mlookup city.adjacency cur).getD []).foldl
        (expandEdge city h cur)
        { st with openSet := rest, visited := cur :: st.visited }).visited,
      ∀ gx, (((mlookup city.adjacency cur).getD []).foldl (expandEdge city h cur)
        { st with openSet := rest, visited := cur :: st.visited }).gScore x = some gx →
      ∀ eid ∈ (mlookup city.adjacency x).getD [], ∀ edge,
        mlookup city.edges eid = some edge → ∀ nb, edgeEnds edge x nb →
        nb ∉ (((mlookup city.adjacency cur).getD []).foldl (expandEdge city h cur)
          { st with openSet := rest, visited := cur :: st.visited }).visited →
        ∃ gn, (((mlookup city.adjacency cur).getD []).foldl (expandEdge city h cur)
          { st with openSet := rest, visited := cur :: st.visited }).gScore nb = some gn
          ∧ gn ≤ gx + edge.cost := by
    intro x hx gx hgx eid heid edge hm nb hends hnb
    rw [f1] at hx hnb
    rcases List.mem_cons.mp hx with rfl | hx'
    · have hgxg : gcur = gx := Option.some_inj.mp (f2.symm.trans hgx)
      obtain ⟨gn, hgn, hgnle⟩ := f9 eid heid edge hm nb hends hnb
      exact ⟨gn, hgn, hgxg ▸ hgnle⟩
    · have hnb' : nb ∉ st.visited := fun hmem => hnb (List.mem_cons_of_mem _ hmem)
      have hgx' : st.gScore x = some gx := by
        rw [← hgx, f7 x (List.mem_cons_of_mem _ hx')]
      obtain ⟨gn, hgn, hgnle⟩ :=
        hinv.edgeBound x hx' gx hgx' eid heid edge hm nb hends hnb'
      obtain ⟨gn', hgn', hgnle'⟩ := f6 nb gn hgn
      exact ⟨gn', hgn', le_trans hgnle' hgnle⟩
  refine ⟨f3, ?_, f4, hsettled2, f5, hedgeB2, ?_⟩
  · rw [f1]
    intro hmem
    rcases List.mem_cons.mp hmem with he | hmem'
    · exact hne he.symm
    · exact hinv.vend hmem'
  · intro w hwv c hW
    have hwv1 : w ∉ st.visited := by
      rw [f1] at hwv
      exact fun hmem => hwv (List.mem_cons_of_mem _ hmem)
    obtain ⟨y, c1, c2, p, hy1, hy2, hy3, hy4, hy5, hy6⟩ := hinv.cover w hwv1 c hW
    by_cases hyc : y = cur
    · subst hyc
      obtain ⟨g', hg', hgle'⟩ := hinv.sound (p, y) hy1
      have hgg : gcur = g' := Option.some_inj.mp (hgcur.symm.trans hg')
      have hgc1 : gcur ≤ c1 := by
        rw [hgg]
        linarith
      have hyvis2 : y ∈ (((mlookup city.adjacency y).getD []).foldl
          (expandEdge city h y)
          { st with openSet := rest, visited := y :: st.visited }).visited := by
        rw [f1]
        exact List.mem_cons_self _ _
      obtain ⟨y', c1', c2', p', hz1, hz2, hz3, hz4, hz5, hz6⟩ :=
        cover_step city h startId _ hadj hsettled2 f5 hedgeB2 hy3 c1 gcur
          hyvis2 hwv f2 hgc1 hy4
      refine ⟨y', c1', c2', p', hz1, hz2, hz3, hz4, ?_, hz6⟩
      rw [hy5, hz5]
    · have hy2' : y ∉ st.visited := hy2
      refine ⟨y, c1, c2, p, ?_, ?_, hy3, hy4, hy5, hy6⟩
      · exact f8 (p, y) (hkeep p y hy1 hyc)
      · rw [f1]
        intro hmem
        rcases List.mem_cons.mp hmem with he | hmem'
        · exact hyc he
        · exact hy2' hmem'

/-- Whenever the search loop returns a result from an invariant-holding
state, the returned cost is at most the cost of every walk from the
start to the goal. -/
lemma astarLoop_opt (city : City) (h : NodeId → ℚ) (startId endId : NodeId)
    (hcons : consistent city h) (hadj : adjComplete city) (hh0 : h endId = 0) :
    ∀ (fuel : ℕ) (st : AState) (r : PathResult),
      AInv city h startId endId st →
      astarLoop city h endId fuel st = some r →
      ∀ c, Walk city startId endId c → r.cost ≤ c
  | 0, st, r, _, heq => by
      simp [astarLoop] at heq
  | fuel + 1, st, r, hinv, heq => by
      unfold astarLoop at heq
      rcases hpop : heapPop st.openSet with _ | ⟨⟨p0, cur⟩, openRest⟩
      · rw [hpop] at heq
        simp at heq
      · rw [hpop] at heq
        have heq' : (if cur = endId then
              some { path := reconPath st.cameFrom (city.nodes.length + 1) cur [cur],
                     cost := (st.gScore cur).getD 0 }
            else if st.visited.contains cur = true then
              astarLoop city h endId fuel { st with openSet := openRest }
            else
              astarLoop city h endId fuel
                (((mlookup city.adjacency cur).getD []).foldl (expandEdge city h cur)
                  { st with openSet := openRest, visited := cur :: st.visited }))
            = some r := heq
        by_cases hce : cur = endId
        · rw [if_pos hce] at heq'
          have hrec := Option.some_inj.mp heq'
          have hcost := congrArg PathResult.cost hrec
          intro c hW
          obtain ⟨t, hheq2, hperm, hinvr, hmin⟩ :=
            heapPop_spec st.openSet (p0, cur) openRest hinv.hinv hpop
          obtain ⟨g, hg, hgle⟩ :=
            hinv.sound (p0, cur) (by rw [hheq2]; exact List.mem_cons_self _ _)
          obtain ⟨y, c1, c2, p, hy1, hy2, hy3, hy4, hy5, hy6⟩ :=
            hinv.cover endId hinv.vend c hW
          have hp0p : p0 ≤ p := hmin (p, y) hy1
          have hcw := consistent_walk hcons hy3
          rw [← hcost]
          show (st.gScore cur).getD 0 ≤ c
          rw [hg]
          simp only [Option.getD_some]
          rw [hce] at hgle
          rw [hh0] at hgle hcw
          linarith
        · rw [if_neg hce] at heq'
          by_cases hcv : cur ∈ st.visited
          · have hB : st.visited.contains cur = true := by
              simp [hcv]
            rw [if_pos hB] at heq'
            exact astarLoop_opt city h startId endId hcons hadj hh0 fuel
              { st with openSet := openRest } r
              (inv_skip city h startId endId st p0 cur openRest hinv hpop hcv) heq'
          · have hB : ¬(st.visited.contains cur = true) := by
              simp [hcv]
            rw [if_neg hB] at heq'
            exact astarLoop_opt city h startId endId hcons hadj hh0 fuel _ r
              (inv_expand city h startId endId st p0 cur openRest hcons hadj
                hinv hpop hcv hce) heq'

/-- Claim C8 (amended): `findPath` returns a minimal-cost result for
every graph with nonnegative edge costs whose adjacency lists cover all
edges, PROVIDED the heuristic is edge-wise consistent (its change
across any edge is bounded by the edge's cost) and zero at the goal —
e.g. the zero heuristic, or any scaled Euclidean heuristic on graphs
whose edge costs dominate the scaled coordinate distances. The claim as
frozen — optimality for the source's 0.5-scaled Euclidean heuristic on
arbitrary nonnegative-cost graphs — is false (see
`claim_C8_counterexample`): the scale is not admissible when travel
costs are small relative to coordinates, and the visited-set
optimization never re-expands a node. -/
theorem claim_C8 (city : City) (h : NodeId → ℚ) (startId endId : NodeId)
    (r : PathResult)
    (hnn : ∀ p ∈ city.edges, 0 ≤ p.2.cost)
    (hcons : consistent city h) (hh0 : h endId = 0) (hadj : adjComplete city)
    (hrun : findPath city h startId endId = some r) :
    ∀ c, Walk city startId endId c → r.cost ≤ c := by
  unfold findPath at hrun
  by_cases hse : startId = endId
  · rw [if_pos hse] at hrun
    have hrec := Option.some_inj.mp hrun
    intro c hW
    have hc := congrArg PathResult.cost hrec
    rw [← hc]
    show (0 : ℚ) ≤ c
    exact walk_nonneg hnn hW
  · rw [if_neg hse] at hrun
    rcases hs : mlookup city.nodes startId with _ | sn
    · rw [hs] at hrun
      exact Option.noConfusion hrun
    · rcases he : mlookup city.nodes endId with _ | en
      · rw [hs, he] at hrun
        exact Option.noConfusion hrun
      · rw [hs, he] at hrun
        have hrun' : astarLoop city h endId (astarFuel city)
            { openSet := heapPush [] startId (h startId)
              cameFrom := fun _ => none
              gScore := fun n => if n = startId then some 0 else none
              fScore := fun n => if n = startId then some (h startId) else none
              visited := [] } = some r := hrun
        have hinv0 : AInv city h startId endId
            { openSet := heapPush [] startId (h startId)
              cameFrom := fun _ => none
              gScore := fun n => if n = startId then some 0 else none
              fScore := fun n => if n = startId then some (h startId) else none
              visited := [] } := by
          refine ⟨?_, ?_, ?_, ?_, ?_, ?_, ?_⟩
          · show heapInv [(h startId, startId)]
            intro k hk hklen
            simp at hklen
            omega
          · show endId ∉ ([] : List NodeId)
            simp
          · intro pr hpr
            have hpr' : pr ∈ [(h startId, startId)] := hpr
            rw [List.mem_singleton.mp hpr']
            refine ⟨0, by simp, by simp⟩
          · intro x hx
            have hx' : x ∈ ([] : List NodeId) := hx
            simp at hx'
          · intro n hn g hg
            by_cases hns : n = startId
            · subst hns
              refine ⟨h n, ?_, ?_⟩
              · show (h n, n) ∈ [(h n, n)]
                simp
              · have hg' : (some (0 : ℚ)) = some g := by
                  rw [← hg]
                  simp
                rw [← Option.some_inj.mp hg']
                simp
            · have hg' : (none : Option ℚ) = some g := by
                rw [← hg]
                simp [hns]
              exact Option.noConfusion hg'
          · intro x hx
            have hx' : x ∈ ([] : List NodeId) := hx
            simp at hx'
          · intro w hw c hW
            refine ⟨startId, 0, c, h startId, ?_, ?_, hW, Walk.nil startId,
              by ring, by simp⟩
            · show (h startId, startId) ∈ [(h startId, startId)]
              simp
            · show startId ∉ ([] : List NodeId)
              simp
        exact astarLoop_opt city h startId endId hcons hadj hh0
          (astarFuel city) _ r hinv0 hrun'

/-- A two-node city with one road, for the amended C8 witness. -/
def cityW : City :=
  { nodes := [("a", ⟨"a", 0, 0⟩), ("b", ⟨"b", 1, 0⟩)]
    edges := [("e", ⟨"e", "a", "b", 1⟩)]
    adjacency := [("a", ["e"]), ("b", ["e"])] }

/-- The zero heuristic (trivially consistent). -/
def hZ : NodeId → ℚ := fun _ => 0

/-- The amended C8 theorem at a concrete input: on the two-node city
with the zero heuristic, the returned cost (1) is at most the cost of
the direct walk. -/
theorem claim_C8_witness :
    ((findPath cityW hZ "a" "b").getD ⟨[], 0⟩).cost ≤ 1 + 0 := by
  have hrun : findPath cityW hZ "a" "b"
      = some { path := ["a", "b"], cost := (0 : ℚ) + 1 } := by rfl
  have hnn : ∀ p ∈ cityW.edges, 0 ≤ p.2.cost := by
    intro p hp
    rcases List.mem_singleton.mp hp with rfl
    norm_num
  have hcons : consistent cityW hZ := by
    intro p hp
    rcases List.mem_singleton.mp hp with rfl
    constructor <;> norm_num [hZ]
  have hadj : adjComplete cityW := by
    intro p hp
    rcases List.mem_singleton.mp hp with rfl
    constructor
    · show ("e" : EdgeId) ∈ ["e"]
      simp
    · show ("e" : EdgeId) ∈ ["e"]
      simp
  have hwalk : Walk cityW "a" "b" (1 + 0) :=
    Walk.cons "e" ⟨"e", "a", "b", 1⟩ rfl (Or.inl ⟨rfl, rfl⟩) (Walk.nil "b")
  have happ := claim_C8 cityW hZ "a" "b" ⟨["a", "b"], (0 : ℚ) + 1⟩ hnn hcons rfl
    hadj hrun (1 + 0) hwalk
  rw [hrun]
  exact happ

/-! ## Claim C8: path-optimality counterexample -/

/-- Squared Euclidean distance between two city nodes (`dx*dx + dy*dy`
from `distance` in `astar.ts`, before the square root). -/
def distSq (a b : CityNode) : ℚ :=
  (a.x - b.x) * (a.x - b.x) + (a.y - b.y) * (a.y - b.y)

/-- `h` is exactly the source heuristic
`distance(node, endNode) * 0.5`: a nonnegative value whose double
squares to the squared Euclidean distance to the goal node. (The square
root itself is irrational in general; this characterizes it exactly.) -/
def isEuclidHalf (city : City) (endId : NodeId) (h : NodeId → ℚ) : Prop :=
  ∀ nid node goalNode, mlookup city.nodes nid = some node →
    mlookup city.nodes endId = some goalNode →
    0 ≤ h nid ∧ (2 * h nid) * (2 * h nid) = distSq node goalNode

/-- Three collinear nodes on the x-axis: goal `g` at 0, `m` at 40,
start `s` at 30; a direct `s`–`g` road of cost 10 and a fast detour
`s`–`m`–`g` of total cost 2. Grid coordinates are far apart relative to
travel costs, so the 0.5-scaled Euclidean heuristic overestimates. -/
def cityX : City :=
  { nodes := [("s", ⟨"s", 30, 0⟩), ("m", ⟨"m", 40, 0⟩), ("g", ⟨"g", 0, 0⟩)]
    edges := [("e1", ⟨"e1", "s", "g", 10⟩), ("e2", ⟨"e2", "s", "m", 1⟩),
              ("e3", ⟨"e3", "m", "g", 1⟩)]
    adjacency := [("s", ["e1", "e2"]), ("m", ["e2", "e3"]), ("g", ["e1", "e3"])] }

/-- The source heuristic on `cityX` towards `g`: half the straight-line
distance (30/2 = 15 from `s`, 40/2 = 20 from `m`). -/
def hX : NodeId → ℚ :=
  fun n => if n = "s" then 15 else if n = "m" then 20 else 0

/-- The search state of `findPath cityX hX "s" "g"` entering the loop. -/
def st0X : AState :=
  { openSet := [(15, "s")]
    cameFrom := fun _ => none
    gScore := fun n => if n = "s" then some 0 else none
    fScore := fun n => if n = "s" then some 15 else none
    visited := [] }

/-- The state after popping `s`, before expanding its edges. -/
def st1X : AState :=
  { openSet := []
    cameFrom := fun _ => none
    gScore := fun n => if n = "s" then some 0 else none
    fScore := fun n => if n = "s" then some 15 else none
    visited := ["s"] }

/-- The state after expanding both edges of `s`: `g` queued at
f = 10 + 0, `m` queued at f = 1 + 20. The sums are kept unevaluated so
that every field is definitionally the term the loop builds. -/
def stBX : AState :=
  { openSet := [((0 : ℚ) + 10 + 0, "g"), ((0 : ℚ) + 1 + 20, "m")]
    cameFrom := fun n => if n = "m" then some "s" else
      if n = "g" then some "s" else none
    gScore := fun n => if n = "m" then some ((0 : ℚ) + 1) else
      if n = "g" then some ((0 : ℚ) + 10) else if n = "s" then some 0 else none
    fScore := fun n => if n = "m" then some ((0 : ℚ) + 1 + 20) else
      if n = "g" then some ((0 : ℚ) + 10 + 0) else if n = "s" then some 15 else none
    visited := ["s"] }

lemma cityX_push :
    heapPush [((0 : ℚ) + 10 + 0, "g")] "m" ((0 : ℚ) + 1 + 20)
      = [((0 : ℚ) + 10 + 0, "g"), ((0 : ℚ) + 1 + 20, "m")] := by
  have hc : ((0 : ℚ) + 10 + 0) ≤ (0 : ℚ) + 1 + 20 := by norm_num
  show (if ((0 : ℚ) + 10 + 0) ≤ (0 : ℚ) + 1 + 20 then
      [((0 : ℚ) + 10 + 0, "g"), ((0 : ℚ) + 1 + 20, "m")]
    else bubbleUpGo 1
      (hswap [((0 : ℚ) + 10 + 0, "g"), ((0 : ℚ) + 1 + 20, "m")] 0 1) 0)
      = [((0 : ℚ) + 10 + 0, "g"), ((0 : ℚ) + 1 + 20, "m")]
  rw [if_pos hc]

lemma cityX_fold :
    ["e1", "e2"].foldl (expandEdge cityX hX "s") st1X = stBX := by
  show ({ openSet := heapPush [((0 : ℚ) + 10 + 0, "g")] "m" ((0 : ℚ) + 1 + 20)
          cameFrom := fun n => if n = "m" then some "s" else
            if n = "g" then some "s" else none
          gScore := fun n => if n = "m" then some ((0 : ℚ) + 1) else
            if n = "g" then some ((0 : ℚ) + 10) else if n = "s" then some 0 else none
          fScore := fun n => if n = "m" then some ((0 : ℚ) + 1 + 20) else
            if n = "g" then some ((0 : ℚ) + 10 + 0) else
            if n = "s" then some 15 else none
          visited := ["s"] } : AState) = stBX
  rw [cityX_push]
  rfl

/-- The concrete run: A* pops `g` (f = 10) before `m` (f = 21) and
returns the direct road of cost 10. -/
lemma cityX_run :
    findPath cityX hX "s" "g"
      = some { path := ["s", "g"], cost := (0 : ℚ) + 10 } := by
  have h1 : findPath cityX hX "s" "g"
      = astarLoop cityX hX "g" 10 (["e1", "e2"].foldl (expandEdge cityX hX "s") st1X) := by
    rfl
  rw [cityX_fold] at h1
  have h2 : astarLoop cityX hX "g" 10 stBX
      = some { path := ["s", "g"], cost := (0 : ℚ) + 10 } := by
    rfl
  exact h1.trans h2

/-- A walk `s → m → g` of total cost 2. -/
lemma cityX_walk : Walk cityX "s" "g" (1 + (1 + 0)) :=
  Walk.cons "e2" ⟨"e2", "s", "m", 1⟩ rfl (Or.inl ⟨rfl, rfl⟩)
    (Walk.cons "e3" ⟨"e3", "m", "g", 1⟩ rfl (Or.inl ⟨rfl, rfl⟩) (Walk.nil "g"))

/-- Claim C8 as stated is false: the source heuristic scales the
straight-line distance by 0.5, which is NOT admissible when coordinate
distances exceed travel costs, and `findPath` never re-expands visited
nodes, so an inflated heuristic makes it return a non-minimal path. On
`cityX` (all edge costs nonnegative, heuristic exactly half-Euclidean)
it returns the cost-10 road although a cost-2 walk exists. -/
theorem claim_C8_counterexample :
    ¬ (∀ (city : City) (h : NodeId → ℚ) (startId endId : NodeId) (r : PathResult),
        (∀ p ∈ city.edges, 0 ≤ p.2.cost) →
        isEuclidHalf city endId h →
        findPath city h startId endId = some r →
        ∀ c : ℚ, Walk city startId endId c → r.cost ≤ c) := by
  intro hcl
  have hcosts : ∀ p ∈ cityX.edges, 0 ≤ p.2.cost := by
    intro p hp
    simp only [cityX, List.mem_cons, List.not_mem_nil, or_false] at hp
    rcases hp with rfl | rfl | rfl <;> norm_num
  have hheur : isEuclidHalf cityX "g" hX := by
    intro nid node goalNode hnode hgoal
    have hg : goalNode = ⟨"g", 0, 0⟩ := by
      have h' : some (⟨"g", 0, 0⟩ : CityNode) = some goalNode := by rw [← hgoal]; rfl
      exact (Option.some_inj.mp h').symm
    subst hg
    rcases eq_or_ne nid "s" with rfl | h1
    · have hn : node = ⟨"s", 30, 0⟩ := by
        have h' : some (⟨"s", 30, 0⟩ : CityNode) = some node := by rw [← hnode]; rfl
        exact (Option.some_inj.mp h').symm
      subst hn
      refine ⟨by norm_num [hX], ?_⟩
      norm_num [hX, distSq]
    · rcases eq_or_ne nid "m" with rfl | h2
      · have hn : node = ⟨"m", 40, 0⟩ := by
          have h' : some (⟨"m", 40, 0⟩ : CityNode) = some node := by rw [← hnode]; rfl
          exact (Option.some_inj.mp h').symm
        subst hn
        have hms : ("m" : String) ≠ "s" := by decide
        refine ⟨by norm_num [hX, hms], ?_⟩
        norm_num [hX, hms, distSq]
      · rcases eq_or_ne nid "g" with rfl | h3
        · have hn : node = ⟨"g", 0, 0⟩ := by
            have h' : some (⟨"g", 0, 0⟩ : CityNode) = some node := by rw [← hnode]; rfl
            exact (Option.some_inj.mp h').symm
          subst hn
          have hgs : ("g" : String) ≠ "s" := by decide
          have hgm : ("g" : String) ≠ "m" := by decide
          refine ⟨by norm_num [hX, hgs, hgm], ?_⟩
          norm_num [hX, hgs, hgm, distSq]
        · exfalso
          have e1 : (("s" : String) == nid) = false :=
            beq_eq_false_iff_ne.mpr (Ne.symm h1)
          have e2 : (("m" : String) == nid) = false :=
            beq_eq_false_iff_ne.mpr (Ne.symm h2)
          have e3 : (("g" : String) == nid) = false :=
            beq_eq_false_iff_ne.mpr (Ne.symm h3)
          have hnone : mlookup cityX.nodes nid = none := by
            simp [mlookup, cityX, List.find?, e1, e2, e3]
          rw [hnone] at hnode
          cases hnode
  have hle := hcl cityX hX "s" "g" ⟨["s", "g"], (0 : ℚ) + 10⟩ hcosts hheur
    cityX_run (1 + (1 + 0)) cityX_walk
  norm_num at hle

/-! ## Claim C2: absent nodes in `findPath` -/

/-- Claim C2 as stated is false on its `start == end` case: `findPath`
checks `startId === endId` BEFORE checking membership, so on the empty
graph `findPath(g, "a", "a")` returns the single-node zero-cost path
instead of `null`. -/
theorem claim_C2_counterexample :
    ¬ (∀ (city : City) (h : NodeId → ℚ) (startId endId : NodeId),
        (mlookup city.nodes startId = none ∨ mlookup city.nodes endId = none) →
        findPath city h startId endId = none) := by
  intro hcl
  exact absurd (hcl ⟨[], [], []⟩ (fun _ => 0) "a" "a" (Or.inl rfl))
    (by simp [findPath])

/-- Claim C2 (amended): `findPath` first short-circuits `startId = endId`
to the single-node zero-cost path without consulting the graph at all;
only when the endpoints differ does absence of either node from the
graph's node map make it return `none`. -/
theorem claim_C2 (city : City) (h : NodeId → ℚ) (startId endId : NodeId) :
    (startId = endId →
      findPath city h startId endId = some { path := [startId], cost := 0 })
    ∧ (startId ≠ endId →
        (mlookup city.nodes startId = none ∨ mlookup city.nodes endId = none) →
        findPath city h startId endId = none) := by
  constructor
  · intro he
    subst he
    simp [findPath]
  · intro hne habs
    unfold findPath
    rw [if_neg hne]
    rcases habs with h1 | h2
    · rw [h1]
    · rw [h2]
      cases mlookup city.nodes startId <;> rfl

/-- The amended C2 theorem at concrete inputs: a one-node city, the
coincident pair (`a`, `a`) and the pair (`a`, `b`) with `b` absent. -/
theorem claim_C2_witness :
    findPath ⟨[("a", ⟨"a", 0, 0⟩)], [], []⟩ (fun _ => 0) "a" "a"
        = some { path := ["a"], cost := 0 }
    ∧ findPath ⟨[("a", ⟨"a", 0, 0⟩)], [], []⟩ (fun _ => 0) "a" "b" = none := by
  constructor
  · exact (claim_C2 ⟨[("a", ⟨"a", 0, 0⟩)], [], []⟩ (fun _ => 0) "a" "a").1 rfl
  · exact (claim_C2 ⟨[("a", ⟨"a", 0, 0⟩)], [], []⟩ (fun _ => 0) "a" "b").2
      (by decide) (Or.inr rfl)

end VRP

